import Mathlib

/-!
# Word pool and spaced-repetition scheduling (vladazn/danish-go)

A shallow embedding of `app/model/model.go`, `app/classroom/wordpool.go`,
`app/classroom/dictionary.go` and `app/classroom/set.go`, followed by theorems about it.

Conventions of the embedding

* `uuid.UUID` is a 128-bit value; it is embedded as a natural number, `uuid.Nil` as `0`.
* `time.Time` is embedded as an integer count of nanoseconds; `time.Duration` likewise.
  `t.Add(d)` is `t + d` and `t.Before(u)` is `t < u` (wall-clock comparison; a stored
  timestamp carries no monotonic reading).
* Go `int` is 64 bits wide (as on every 64-bit platform): `++` and `--` wrap around,
  which `wrapInt` makes explicit.
* A Go map is embedded as an association list in insertion order.  Go ranges over a map
  in an unspecified order, so only order-insensitive facts are stated about such ranges.
* `time.Now()` is embedded as a clock `Nat → Time`: `clock k` is what the `k`-th reading
  of the clock during one operation returns.
* The store (`Firestore` interface) is embedded as the answers it gives during one
  operation; every operation records the store calls it makes, in order.
* `uuid.New()` is embedded as a source `Nat → UUID`: `newId k` is what the `k`-th call
  during one operation returns.
* The context carries the user id (`userid.ToCtx`), so `userid.MustFromCtx` returns it.
-/

namespace Danish

/-! ## app/model/model.go -/

abbrev UUID := Nat
abbrev Time := Int
abbrev Duration := Int

/-- Nanoseconds in `time.Hour`. -/
def Hour : Duration := 3600000000000

/-- Two's-complement wrap-around of a 64-bit Go `int`. -/
def wrapInt (x : Int) : Int :=
  (x + 9223372036854775808) % 18446744073709551616 - 9223372036854775808

/-- Values a Go `int` can hold. -/
@[reducible]
def isInt64 (x : Int) : Prop := -9223372036854775808 ≤ x ∧ x ≤ 9223372036854775807

/-- The map `levelToInterval`, as a lookup: `none` when the level has no entry. -/
def levelToInterval (level : Int) : Option Duration :=
  if level = 0 then some Hour
  else if level = 1 then some (Hour * 24)
  else if level = 2 then some (Hour * 24 * 3)
  else if level = 3 then some (Hour * 24 * 7)
  else if level = 4 then some (Hour * 24 * 12)
  else if level = 5 then some (Hour * 24 * 21)
  else none

structure VocabForm where
  Id : UUID
  Value : String
  Form : String
  Level : Int
  LastSuccess : Time
  SuccessInRow : Int
deriving DecidableEq, Repr

structure Vocab where
  Id : UUID
  Definition : String
  PartOfSpeech : String
  Forms : List VocabForm
  PausedUntil : Option Time
deriving DecidableEq, Repr

structure Pool where
  CreatedAt : Time
  Vocabs : List Vocab
deriving DecidableEq, Repr

structure Batch where
  Vocabs : List Vocab
deriving DecidableEq, Repr

structure VocabSet where
  Id : UUID
  Name : String
  VocabIds : List UUID
deriving DecidableEq, Repr

/-- The method `(v *Vocab) CanBeAddedToQueue(now)`. -/
def Vocab.CanBeAddedToQueue (v : Vocab) (_now : Time) : Bool :=
  v.PausedUntil.isNone

/-- Body of the `if vocabForm.Id == form.Id` branch of `UpdateFormSuccess`. -/
def Vocab.UpdateFormSuccess.body (vocabForm : VocabForm) (now : Time) : VocabForm :=
  let vocabForm := { vocabForm with SuccessInRow := wrapInt (vocabForm.SuccessInRow + 1) }
  let vocabForm := { vocabForm with LastSuccess := now }
  if vocabForm.SuccessInRow ≥ 7 then
    let vocabForm := { vocabForm with SuccessInRow := 0 }
    let vocabForm := { vocabForm with Level := wrapInt (vocabForm.Level + 1) }
    { vocabForm with Level := min vocabForm.Level 5 }
  else
    vocabForm

/-- The loop of `UpdateFormSuccess` over `v.Forms`: the first form whose id matches is
replaced and the loop breaks. -/
def Vocab.UpdateFormSuccess.loop (form : VocabForm) (now : Time) : List VocabForm → List VocabForm
  | [] => []
  | vocabForm :: rest =>
    if vocabForm.Id = form.Id then
      Vocab.UpdateFormSuccess.body vocabForm now :: rest
    else
      vocabForm :: Vocab.UpdateFormSuccess.loop form now rest

/-- The method `(v *Vocab) UpdateFormSuccess(form, now)`; the mutated receiver is returned. -/
def Vocab.UpdateFormSuccess (v : Vocab) (form : VocabForm) (now : Time) : Vocab :=
  { v with Forms := Vocab.UpdateFormSuccess.loop form now v.Forms }

/-- Body of the `if vocabForm.Id == form.Id` branch of `UpdateFormError`. -/
def Vocab.UpdateFormError.body (vocabForm : VocabForm) : VocabForm :=
  let vocabForm := { vocabForm with Level := wrapInt (vocabForm.Level - 1) }
  { vocabForm with Level := max vocabForm.Level 0 }

/-- The loop of `UpdateFormError` over `v.Forms`. -/
def Vocab.UpdateFormError.loop (form : VocabForm) : List VocabForm → List VocabForm
  | [] => []
  | vocabForm :: rest =>
    if vocabForm.Id = form.Id then
      Vocab.UpdateFormError.body vocabForm :: rest
    else
      vocabForm :: Vocab.UpdateFormError.loop form rest

/-- The method `(v *Vocab) UpdateFormError(form)`; the mutated receiver is returned. -/
def Vocab.UpdateFormError (v : Vocab) (form : VocabForm) : Vocab :=
  { v with Forms := Vocab.UpdateFormError.loop form v.Forms }

/-- The method `(v *VocabForm) CanBeAddedToQueue(t)`. -/
def VocabForm.CanBeAddedToQueue (v : VocabForm) (t : Time) : Bool :=
  if v.Form = "definite_singular" ∨ v.Form = "definite_plural" then
    false
  else
    let interval : Duration :=
      match levelToInterval v.Level with
      | some i => i
      | none => Hour
    decide (v.LastSuccess + interval < t)

/-! ## app/classroom: the store and the random source

All operations act for one user: `ctx` and `userId` are passed through to the store
unchanged and are left out. -/

abbrev Error := String

/-- A call on the `Firestore` interface, with the arguments that matter here. -/
inductive Call where
  | FetchUserVocabulary
  | FetchUserPool
  | UpdatePool (pool : Pool)
  | GetVocab (vocabId : UUID)
  | AddVocabulary (vocab : Vocab)
  | GetMultipleVocabs (vocabIds : List UUID)
  | SetVocabSet (vocabSet : VocabSet)
  | GetVocabSet (vocabSetId : UUID)
  | RemoveVocabSet (vocabSetId : UUID)
deriving DecidableEq, Repr

/-- The answers the `Firestore` interface gives during one operation.  A read answers
`.ok none` for Go's `(nil, nil)` (not found); a write answers `none` for a nil error.
Every read hands out a fresh value, as `FirebaseStore` does. -/
structure Firestore where
  FetchUserVocabulary : Except Error (List Vocab)
  AddVocabulary : Vocab → Option Error
  UpdatePool : Pool → Option Error
  FetchUserPool : Except Error (Option Pool)
  GetVocab : UUID → Except Error (Option Vocab)
  GetMultipleVocabs : List UUID → Except Error (List Vocab)
  SetVocabSet : VocabSet → Option Error
  GetVocabSet : UUID → Except Error (Option VocabSet)
  RemoveVocabSet : UUID → Option Error

/-- The `Rand` interface, as far as `wordpool.go` uses it: `Shuffle(n, f)` calls the swap
function `f(i, j)` on a sequence of index pairs below `n`. -/
structure Rand where
  Shuffle : (n : Nat) → List (Fin n × Fin n)

/-- How an operation ends: it returns a value with a nil error, returns a non-nil error,
or panics at run time. -/
inductive Result (α : Type) where
  | ok (val : α)
  | error (err : Error)
  | panic
deriving DecidableEq, Repr

/-- What an operation did: the store calls it made, in order, and how it ended. -/
structure Outcome (α : Type) where
  calls : List Call
  result : Result α

/-- Read `m[key]` of a Go map. -/
def goMapGet {β : Type} : List (UUID × β) → UUID → Option β
  | [], _ => none
  | (k, v) :: rest, key => if k = key then some v else goMapGet rest key

/-- Assignment `m[key] = val` of a Go map. -/
def goMapSet {β : Type} : List (UUID × β) → UUID → β → List (UUID × β)
  | [], key, val => [(key, val)]
  | (k, v) :: rest, key, val =>
    if k = key then (k, val) :: rest else (k, v) :: goMapSet rest key val

/-! ## app/classroom/wordpool.go -/

structure WordPool where
  storage : Firestore
  rand : Rand

/-- Body of the inner loop of `buildPool`: keep a form that can be added to the queue. -/
def WordPool.buildPool.forms.body (now : Time) (filteredForms : List VocabForm)
    (form : VocabForm) : List VocabForm :=
  if form.CanBeAddedToQueue now then filteredForms ++ [form] else filteredForms

/-- The inner loop of `buildPool` over the forms of one item. -/
def WordPool.buildPool.forms (now : Time) (forms : List VocabForm) : List VocabForm :=
  forms.foldl (WordPool.buildPool.forms.body now) []

/-- Body of the outer loop of `buildPool`. -/
def WordPool.buildPool.loop.body (now : Time) (filtered : List Vocab) (v : Vocab) :
    List Vocab :=
  if !v.CanBeAddedToQueue now then
    filtered
  else
    let filteredForms := WordPool.buildPool.forms now v.Forms
    if filteredForms.length > 0 then
      filtered ++ [{ v with Forms := filteredForms }]
    else
      filtered

/-- The outer loop of `buildPool` over the fetched vocabulary. -/
def WordPool.buildPool.loop (now : Time) (vocabs : List Vocab) : List Vocab :=
  vocabs.foldl (WordPool.buildPool.loop.body now) []

/-- The method `(wp *WordPool) buildPool`; `tick` is the number of clock readings made
before it is entered. -/
def WordPool.buildPool (wp : WordPool) (clock : Nat → Time) (tick : Nat) : Outcome Pool :=
  match wp.storage.FetchUserVocabulary with
  | .error err =>
    ⟨[Call.FetchUserVocabulary], .error ("failed to fetch vocab to build pool: " ++ err)⟩
  | .ok vocabs =>
    let now := clock tick
    let filtered := WordPool.buildPool.loop now vocabs
    let pool : Pool := { Vocabs := filtered, CreatedAt := clock (tick + 1) }
    match wp.storage.UpdatePool pool with
    | some err =>
      ⟨[Call.FetchUserVocabulary, Call.UpdatePool pool], .error ("failed to update pool: " ++ err)⟩
    | none =>
      ⟨[Call.FetchUserVocabulary, Call.UpdatePool pool], .ok pool⟩

/-- The local type `formWithParent` of `batchFromPool`. -/
structure formWithParent where
  ParentVocab : Vocab
  Form : VocabForm
deriving DecidableEq, Repr

/-- The swap function handed to `Shuffle`: `allForms[i], allForms[j] = allForms[j], allForms[i]`.
`Shuffle` only yields indices below the length, so both reads succeed. -/
def swapAt {α : Type} (l : List α) (i j : Nat) : List α :=
  match l[i]?, l[j]? with
  | some a, some b => (l.set i b).set j a
  | _, _ => l

/-- Body of the first loop of `batchFromPool`: append every form of one item, paired
with the item. -/
def WordPool.batchFromPool.flatten.body (allForms : List formWithParent) (vocab : Vocab) :
    List formWithParent :=
  vocab.Forms.foldl (fun allForms form =>
    allForms ++ [{ ParentVocab := vocab, Form := form }]) allForms

/-- First loop of `batchFromPool`: every (item, form) pair of the pool, in order. -/
def WordPool.batchFromPool.flatten (vocabs : List Vocab) : List formWithParent :=
  vocabs.foldl WordPool.batchFromPool.flatten.body []

/-- Body of the second loop of `batchFromPool`: put one selected form under its parent's
id, creating the batch item from the parent when the id is new. -/
def WordPool.batchFromPool.regroup.body (vocabMap : List (UUID × Vocab))
    (item : formWithParent) : List (UUID × Vocab) :=
  let v : Vocab :=
    match goMapGet vocabMap item.ParentVocab.Id with
    | some v => v
    | none =>
      { Id := item.ParentVocab.Id
        Definition := item.ParentVocab.Definition
        PartOfSpeech := item.ParentVocab.PartOfSpeech
        Forms := []
        PausedUntil := none }
  let v := { v with Forms := v.Forms ++ [item.Form] }
  goMapSet vocabMap item.ParentVocab.Id v

/-- Second loop of `batchFromPool`: regroup the selected forms under their parent's id. -/
def WordPool.batchFromPool.regroup (selected : List formWithParent) : List (UUID × Vocab) :=
  selected.foldl WordPool.batchFromPool.regroup.body []

/-- The method `(wp *WordPool) batchFromPool(pool, n)` for a non-nil pool.  `none` is the
run-time panic of the slice expression `allForms[:n]` when `n` is negative. -/
def WordPool.batchFromPool (wp : WordPool) (pool : Pool) (n : Int) : Option Batch :=
  let allForms := WordPool.batchFromPool.flatten pool.Vocabs
  let allForms :=
    (wp.rand.Shuffle allForms.length).foldl (fun l ij => swapAt l ij.1.val ij.2.val) allForms
  let n := if (allForms.length : Int) < n then (allForms.length : Int) else n
  if n < 0 then
    none
  else
    let selected := allForms.take n.toNat
    let vocabMap := WordPool.batchFromPool.regroup selected
    some { Vocabs := vocabMap.map (fun kv => kv.2) }

/-- The tail of `GetBatch`: sample ten forms from the pool at hand. -/
def WordPool.GetBatch.sample (wp : WordPool) (calls : List Call) (pool : Pool) : Outcome Batch :=
  match wp.batchFromPool pool 10 with
  | some batch => ⟨calls, .ok batch⟩
  | none => ⟨calls, .panic⟩

/-- The rebuild branch of `GetBatch`: `buildPool`, then sample from what it returned. -/
def WordPool.GetBatch.rebuild (wp : WordPool) (clock : Nat → Time) (tick : Nat) : Outcome Batch :=
  let built := wp.buildPool clock tick
  match built.result with
  | .ok pool => WordPool.GetBatch.sample wp (Call.FetchUserPool :: built.calls) pool
  | .error err => ⟨Call.FetchUserPool :: built.calls, .error ("failed to build pool: " ++ err)⟩
  | .panic => ⟨Call.FetchUserPool :: built.calls, .panic⟩

/-- The method `(wp *WordPool) GetBatch`.  The condition is evaluated left to right and
short-circuits, so the clock is read for it only when the pool is present and non-empty. -/
def WordPool.GetBatch (wp : WordPool) (clock : Nat → Time) : Outcome Batch :=
  match wp.storage.FetchUserPool with
  | .error err => ⟨[Call.FetchUserPool], .error ("failed to fetch pool: " ++ err)⟩
  | .ok none => WordPool.GetBatch.rebuild wp clock 0
  | .ok (some pool) =>
    if pool.Vocabs.length = 0 then
      WordPool.GetBatch.rebuild wp clock 0
    else if pool.CreatedAt < clock 0 + (-5) * Hour then
      WordPool.GetBatch.rebuild wp clock 1
    else
      WordPool.GetBatch.sample wp [Call.FetchUserPool] pool

/-- Body of the first loop of `removeVocabFromPool`: make sure `formsToRemove` has an
inner map for the item id, then mark every form id of the input item in it.  The inner
map is present whenever a form is marked. -/
def WordPool.removeVocabFromPool.collect.body
    (formsToRemove : List (UUID × List (UUID × Bool))) (vocab : Vocab) :
    List (UUID × List (UUID × Bool)) :=
  let formsToRemove :=
    match goMapGet formsToRemove vocab.Id with
    | some _ => formsToRemove
    | none => goMapSet formsToRemove vocab.Id []
  vocab.Forms.foldl (fun formsToRemove form =>
    match goMapGet formsToRemove vocab.Id with
    | some formMap => goMapSet formsToRemove vocab.Id (goMapSet formMap form.Id true)
    | none => formsToRemove) formsToRemove

/-- First loop of `removeVocabFromPool`: the map `formsToRemove` built from the input. -/
def WordPool.removeVocabFromPool.collect (vocabToRemove : List Vocab) :
    List (UUID × List (UUID × Bool)) :=
  vocabToRemove.foldl WordPool.removeVocabFromPool.collect.body []

/-- Body of the second loop of `removeVocabFromPool` over the items of the pool;
`formMap[form.Id]` reads `false` for an id that is not in the map. -/
def WordPool.removeVocabFromPool.loop.body
    (formsToRemove : List (UUID × List (UUID × Bool))) (updatedVocabs : List Vocab)
    (vocab : Vocab) : List Vocab :=
  match goMapGet formsToRemove vocab.Id with
  | some formMap =>
    let filteredForms := vocab.Forms.foldl (fun filteredForms form =>
      if !((goMapGet formMap form.Id).getD false) then filteredForms ++ [form]
      else filteredForms) []
    if filteredForms.length > 0 then
      updatedVocabs ++ [{ vocab with Forms := filteredForms }]
    else
      updatedVocabs
  | none => updatedVocabs ++ [vocab]

/-- The method `(wp *WordPool) removeVocabFromPool(pool, vocabToRemove)` for a non-nil
pool; the mutated pool is returned. -/
def WordPool.removeVocabFromPool (_wp : WordPool) (pool : Pool) (vocabToRemove : List Vocab) :
    Pool :=
  let formsToRemove := WordPool.removeVocabFromPool.collect vocabToRemove
  let updatedVocabs :=
    pool.Vocabs.foldl (WordPool.removeVocabFromPool.loop.body formsToRemove) []
  { pool with Vocabs := updatedVocabs }

/-- The method `(wp *WordPool) RemoveFromPool`.  When the store holds no pool,
`FetchUserPool` answers `(nil, nil)` and `removeVocabFromPool` dereferences the nil
pool: a run-time panic. -/
def WordPool.RemoveFromPool (wp : WordPool) (vocab : List Vocab) : Outcome Unit :=
  match wp.storage.FetchUserPool with
  | .error err => ⟨[Call.FetchUserPool], .error ("failed get user pool: " ++ err)⟩
  | .ok none => ⟨[Call.FetchUserPool], .panic⟩
  | .ok (some pool) =>
    let pool := wp.removeVocabFromPool pool vocab
    match wp.storage.UpdatePool pool with
    | some err =>
      ⟨[Call.FetchUserPool, Call.UpdatePool pool],
        .error ("failed to save updated pool: " ++ err)⟩
    | none => ⟨[Call.FetchUserPool, Call.UpdatePool pool], .ok ()⟩

/-! ## app/classroom/dictionary.go -/

structure Dictionary where
  storage : Firestore

/-- What `AddWord` and `UpdateWord` did: the store calls made, and the two values
returned, the item and the error (`none` for nil). -/
structure WordOutcome where
  calls : List Call
  vocab : Vocab
  err : Option Error

/-- The loop `for i, form := range vocab.Forms` of `AddWord`: a form whose id is
`uuid.Nil` gets `uuid.New()`; `k` counts the ids drawn so far. -/
def Dictionary.AddWord.forms (newId : Nat → UUID) : List VocabForm → Nat → List VocabForm
  | [], _ => []
  | form :: rest, k =>
    if form.Id = 0 then
      { form with Id := newId k } :: Dictionary.AddWord.forms newId rest (k + 1)
    else form :: Dictionary.AddWord.forms newId rest k

/-- The method `(d *Dictionary) AddWord`. -/
def Dictionary.AddWord (d : Dictionary) (newId : Nat → UUID) (vocab : Vocab) : WordOutcome :=
  let (vocab, k) := if vocab.Id = 0 then ({ vocab with Id := newId 0 }, 1) else (vocab, 0)
  let vocab := { vocab with Forms := Dictionary.AddWord.forms newId vocab.Forms k }
  ⟨[Call.AddVocabulary vocab], vocab, d.storage.AddVocabulary vocab⟩

/-- The loop `for i, form := range vocab.Forms` of `UpdateWord`. -/
def Dictionary.UpdateWord.forms (newId : Nat → UUID) : List VocabForm → Nat → List VocabForm
  | [], _ => []
  | form :: rest, k =>
    if form.Id = 0 then
      { form with Id := newId k } :: Dictionary.UpdateWord.forms newId rest (k + 1)
    else form :: Dictionary.UpdateWord.forms newId rest k

/-- The method `(d *Dictionary) UpdateWord`. -/
def Dictionary.UpdateWord (d : Dictionary) (newId : Nat → UUID) (vocab : Vocab) :
    WordOutcome :=
  let (vocab, k) := if vocab.Id = 0 then ({ vocab with Id := newId 0 }, 1) else (vocab, 0)
  let vocab := { vocab with Forms := Dictionary.UpdateWord.forms newId vocab.Forms k }
  ⟨[Call.AddVocabulary vocab], vocab, d.storage.AddVocabulary vocab⟩

/-- The state the two loops of `RegisterProgress` work on: the map `m`, the store calls
made so far and the number of clock readings made so far. -/
structure progressState where
  m : List (UUID × Vocab)
  calls : List Call
  tick : Nat

/-- Body of the loop `for _, form := range vocabToUpdate.Forms` of `RegisterProgress`:
`m[id].UpdateFormSuccess(form, time.Now())`, which updates the item `m[id]` points to.
`m[id]` is present whenever the loop is reached. -/
def Dictionary.RegisterProgress.forms.body (clock : Nat → Time) (id : UUID)
    (s : progressState) (form : VocabForm) : progressState :=
  match goMapGet s.m id with
  | some vocab =>
    { s with m := goMapSet s.m id (vocab.UpdateFormSuccess form (clock s.tick))
             tick := s.tick + 1 }
  | none => s

/-- The loop `for _, form := range vocabToUpdate.Forms` of `RegisterProgress`. -/
def Dictionary.RegisterProgress.forms (clock : Nat → Time) (id : UUID)
    (forms : List VocabForm) (s : progressState) : progressState :=
  forms.foldl (Dictionary.RegisterProgress.forms.body clock id) s

/-- One of the two (textually identical) loops of `RegisterProgress` over an input list.
It ends with the state reached and the error it returned with, if any. -/
def Dictionary.RegisterProgress.loop (d : Dictionary) (clock : Nat → Time) :
    List Vocab → progressState → progressState × Option Error
  | [], s => (s, none)
  | vocabToUpdate :: rest, s =>
    match goMapGet s.m vocabToUpdate.Id with
    | some _ =>
      Dictionary.RegisterProgress.loop d clock rest
        (Dictionary.RegisterProgress.forms clock vocabToUpdate.Id vocabToUpdate.Forms s)
    | none =>
      let s := { s with calls := s.calls ++ [Call.GetVocab vocabToUpdate.Id] }
      match d.storage.GetVocab vocabToUpdate.Id with
      | .error err => (s, some ("could not find vocab: " ++ err))
      | .ok none => Dictionary.RegisterProgress.loop d clock rest s
      | .ok (some vocab) =>
        Dictionary.RegisterProgress.loop d clock rest
          (Dictionary.RegisterProgress.forms clock vocabToUpdate.Id vocabToUpdate.Forms
            { s with m := goMapSet s.m vocabToUpdate.Id vocab })

/-- The method `(d *Dictionary) RegisterProgress`.  The writes of the error group are
listed in the order of insertion into `m`; Go starts them in an unspecified order and
reports whichever error came first. -/
def Dictionary.RegisterProgress (d : Dictionary) (clock : Nat → Time)
    (withoutMistakes withMistakes : List Vocab) : Outcome Unit :=
  match Dictionary.RegisterProgress.loop d clock withoutMistakes ⟨[], [], 0⟩ with
  | (s, some err) => ⟨s.calls, .error err⟩
  | (s, none) =>
    match Dictionary.RegisterProgress.loop d clock withMistakes s with
    | (s, some err) => ⟨s.calls, .error err⟩
    | (s, none) =>
      let writes := s.m.map (fun kv => Call.AddVocabulary kv.2)
      match (s.m.filterMap (fun kv => d.storage.AddVocabulary kv.2)).head? with
      | some err => ⟨s.calls ++ writes, .error ("could not update vocab progress: " ++ err)⟩
      | none => ⟨s.calls ++ writes, .ok ()⟩


/-! ## app/classroom/set.go -/

structure SetService where
  storage : Firestore

/-- The method `(ss *SetService) GetSetVocabBatch`. -/
def SetService.GetSetVocabBatch (ss : SetService) (setId : UUID) (limit : Int) :
    Outcome Batch :=
  match ss.storage.GetVocabSet setId with
  | .error err => ⟨[Call.GetVocabSet setId], .error ("failed to get vocab set: " ++ err)⟩
  | .ok none => ⟨[Call.GetVocabSet setId], .error "vocab set not found"⟩
  | .ok (some vocabSet) =>
    let calls := [Call.GetVocabSet setId, Call.GetMultipleVocabs vocabSet.VocabIds]
    match ss.storage.GetMultipleVocabs vocabSet.VocabIds with
    | .error err => ⟨calls, .error ("failed to get vocab items for set: " ++ err)⟩
    | .ok vocabs =>
      let vocabs :=
        if limit > 0 ∧ (vocabs.length : Int) > limit then vocabs.take limit.toNat else vocabs
      ⟨calls, .ok { Vocabs := vocabs }⟩

/-- The method `(ss *SetService) UpdateSet`. -/
def SetService.UpdateSet (ss : SetService) (setId : UUID) (name : String)
    (vocabIds : List UUID) : Outcome Unit :=
  match ss.storage.GetVocabSet setId with
  | .error err =>
    ⟨[Call.GetVocabSet setId], .error ("failed to get existing vocab set: " ++ err)⟩
  | .ok none => ⟨[Call.GetVocabSet setId], .error "vocab set not found"⟩
  | .ok (some _) =>
    let updatedSet : VocabSet := { Id := setId, Name := name, VocabIds := vocabIds }
    let calls := [Call.GetVocabSet setId, Call.SetVocabSet updatedSet]
    match ss.storage.SetVocabSet updatedSet with
    | some err => ⟨calls, .error ("failed to update vocab set: " ++ err)⟩
    | none => ⟨calls, .ok ()⟩

/-- The method `(ss *SetService) RemoveSet`. -/
def SetService.RemoveSet (ss : SetService) (setId : UUID) : Outcome Unit :=
  match ss.storage.GetVocabSet setId with
  | .error err =>
    ⟨[Call.GetVocabSet setId], .error ("failed to get existing vocab set: " ++ err)⟩
  | .ok none => ⟨[Call.GetVocabSet setId], .error "vocab set not found"⟩
  | .ok (some _) =>
    let calls := [Call.GetVocabSet setId, Call.RemoveVocabSet setId]
    match ss.storage.RemoveVocabSet setId with
    | some err => ⟨calls, .error ("failed to remove vocab set: " ++ err)⟩
    | none => ⟨calls, .ok ()⟩

/-! ## app/server/classroom_handler.go -/

/-- The error branch of `handleGetSetVocabBatch` (`handleUpdateSet` and `handleRemoveSet`
have the same one): the HTTP status answered for a non-nil error of the service. -/
def handleGetSetVocabBatch.errorStatus (err : Error) : Nat :=
  if err = "vocab set not found" then 404 else 500

/-! ## Auxiliary definitions for the statements -/

/-- Seven (or any number of) consecutive calls of `UpdateFormSuccess` for the same form,
each on the result of the previous one, at the times `ts`. -/
def successRun (v : Vocab) (form : VocabForm) (ts : List Time) : Vocab :=
  ts.foldl (fun acc now => acc.UpdateFormSuccess form now) v

/-- The interval of a level in the words of the specification: 1h, 24h, 72h, 168h, 288h
and 504h for the levels 0 to 5, and 1h for every other level. -/
def interval (level : Int) : Duration :=
  Hour * (if level = 0 then 1 else if level = 1 then 24 else if level = 2 then 72
    else if level = 3 then 168 else if level = 4 then 288 else if level = 5 then 504 else 1)

/-- A form with the given level and streak, last practised at time 0. -/
def sampleForm (id : UUID) (level streak : Int) : VocabForm :=
  { Id := id, Value := "hus", Form := "indefinite_singular", Level := level,
    LastSuccess := 0, SuccessInRow := streak }

/-- An item with the given forms. -/
def sampleVocab (id : UUID) (forms : List VocabForm) : Vocab :=
  { Id := id, Definition := "house", PartOfSpeech := "noun", Forms := forms,
    PausedUntil := none }

/-- Total number of forms, summed over the items. -/
def formsTotal (vocabs : List Vocab) : Nat :=
  (vocabs.map (fun v => v.Forms.length)).sum

/-- A random source whose `Shuffle` reverses: it swaps `i` with `n - 1 - i` for every
`i` below `n / 2`, as the repository's tests do. -/
def reversingRand : Rand :=
  { Shuffle := fun n =>
      (List.finRange n).filterMap (fun i =>
        if h : i.val < n / 2 then some (i, ⟨n - 1 - i.val, by omega⟩) else none) }

/-- A store that holds no pool, no vocabulary and no set and accepts every write. -/
def emptyStore : Firestore :=
  { FetchUserVocabulary := .ok []
    AddVocabulary := fun _ => none
    UpdatePool := fun _ => none
    FetchUserPool := .ok none
    GetVocab := fun _ => .ok none
    GetMultipleVocabs := fun _ => .ok []
    SetVocabSet := fun _ => none
    GetVocabSet := fun _ => .ok none
    RemoveVocabSet := fun _ => none }

def sampleWordPool : WordPool := { storage := emptyStore, rand := reversingRand }

/-- A pool of two items with three forms in all. -/
def samplePool : Pool :=
  { CreatedAt := 0
    Vocabs := [sampleVocab 1 [sampleForm 10 0 0, sampleForm 11 0 0],
               sampleVocab 2 [sampleForm 20 0 0]] }

/-- The pool contents in the words of the specification: the items with no pause value
that have at least one due form, in their order, each carrying exactly its due forms. -/
def dueItems (now : Time) (vocabs : List Vocab) : List Vocab :=
  (vocabs.filter (fun v =>
      v.PausedUntil.isNone && v.Forms.any (fun f => f.CanBeAddedToQueue now))).map
    (fun v => { v with Forms := v.Forms.filter (fun f => f.CanBeAddedToQueue now) })

/-- A clock that starts at 1000h and advances by one nanosecond per reading. -/
def sampleClock : Nat → Time := fun k => 1000 * Hour + k

/-- Four stored items: a due one, a paused one, one whose only form is a fixed form, and
one with a due and a fixed form. -/
def sampleVocabulary : List Vocab :=
  [sampleVocab 1 [sampleForm 10 0 0],
   { sampleVocab 2 [sampleForm 20 0 0] with PausedUntil := some 5 },
   sampleVocab 3 [{ sampleForm 30 0 0 with Form := "definite_singular" }],
   sampleVocab 4 [sampleForm 40 1 0, { sampleForm 41 0 0 with Form := "definite_plural" }]]

/-- A word pool over a store that holds `sampleVocabulary` and no pool. -/
def sampleBuilder : WordPool :=
  { storage := { emptyStore with FetchUserVocabulary := .ok sampleVocabulary }
    rand := reversingRand }

/-- Staleness of the stored pool in the words of the specification: the pool is absent,
or its item list is empty, or it was created more than 5 hours before `now`. -/
def poolIsStale (stored : Option Pool) (now : Time) : Prop :=
  match stored with
  | none => True
  | some pool => pool.Vocabs = [] ∨ pool.CreatedAt + 5 * Hour < now

/-- A word pool over a store that holds `sampleVocabulary` and the sample pool, created
at 994h: six hours before `sampleClock` is first read. -/
def agedWordPool : WordPool :=
  { storage := { emptyStore with
      FetchUserVocabulary := .ok sampleVocabulary
      FetchUserPool := .ok (some { samplePool with CreatedAt := 994 * Hour }) }
    rand := reversingRand }

/-- A word pool over a store that holds the sample pool, created at 999h: one hour before
`sampleClock` is first read. -/
def freshWordPool : WordPool :=
  { storage := { emptyStore with
      FetchUserPool := .ok (some { samplePool with CreatedAt := 999 * Hour }) }
    rand := reversingRand }

/-- The items written for the id `id`: the arguments of the `AddVocabulary` calls whose
item carries that id. -/
def writesFor (id : UUID) (calls : List Call) : List Vocab :=
  calls.filterMap (fun c =>
    match c with
    | Call.AddVocabulary vocab => if vocab.Id = id then some vocab else none
    | _ => none)

/-- An input item as a client sends it: only the item id and the form ids are filled in. -/
def named (id : UUID) (formIds : List UUID) : Vocab :=
  { Id := id, Definition := "", PartOfSpeech := ""
    Forms := formIds.map (fun fid =>
      { Id := fid, Value := "", Form := "", Level := 0, LastSuccess := 0, SuccessInRow := 0 })
    PausedUntil := none }

/-- A dictionary over a store that finds item 1 (one form, id 10, level 0, streak 0),
fails on item 3 and reports every other item as not found. -/
def progressDict : Dictionary :=
  { storage := { emptyStore with
      GetVocab := fun id =>
        if id = 1 then .ok (some (sampleVocab 1 [sampleForm 10 0 0]))
        else if id = 3 then .error "unavailable"
        else .ok none } }

/-- A dictionary over a store that finds item 1 (one form, id 10, level 0, streak 0) and
reports every other item as not found. -/
def pairDict : Dictionary :=
  { storage := { emptyStore with
      GetVocab := fun id =>
        if id = 1 then .ok (some (sampleVocab 1 [sampleForm 10 0 0])) else .ok none } }

/-- How often the pair (item id `k`, form id `fid`) is named in an input list. -/
def namings (k fid : UUID) (l : List Vocab) : Nat :=
  ((l.filter (fun x => x.Id = k)).map
    (fun x => x.Forms.countP (fun g => g.Id = fid))).sum

/-- The first form of `w` that carries the id of `f` is `f` after exactly `n` success
steps, and it stands behind forms that carry the ids of `pre`. -/
def successesApplied (pre : List VocabForm) (f : VocabForm) (n : Nat) (w : Vocab) : Prop :=
  ∃ (pre1 post1 : List VocabForm) (ts : List Time),
    w.Forms = pre1 ++ ts.foldl (fun acc now => Vocab.UpdateFormSuccess.body acc now) f :: post1
      ∧ pre1.map (fun x => x.Id) = pre.map (fun x => x.Id) ∧ ts.length = n

/-- The largest value of a Go `int`. -/
def maxInt : Int := 9223372036854775807

/-- The smallest value of a Go `int`. -/
def minInt : Int := -9223372036854775808

/-- The input names the item id `vid`. -/
def itemNamed (vocabToRemove : List Vocab) (vid : UUID) : Bool :=
  vocabToRemove.any (fun x => decide (x.Id = vid))

/-- The input names the pair (item id `vid`, form id `fid`). -/
def pairNamed (vocabToRemove : List Vocab) (vid fid : UUID) : Bool :=
  vocabToRemove.any (fun x => decide (x.Id = vid) && x.Forms.any (fun g => decide (g.Id = fid)))

/-- Removal in the words of the specification: every form whose (item id, form id) pair
is named in the input is removed, then every item named in the input that has no form
left is dropped; all else stays, in order. -/
def removeNamed (vocabToRemove : List Vocab) (vocabs : List Vocab) : List Vocab :=
  (vocabs.map (fun v =>
      { v with Forms := v.Forms.filter (fun f => !pairNamed vocabToRemove v.Id f.Id) })).filter
    (fun v => !(v.Forms.isEmpty && itemNamed vocabToRemove v.Id))

/-- The part of an input that is present in the pool: the entries whose item id is the
id of a pool item, each with the forms whose id is the id of a form of such an item. -/
def presentPart (vocabs : List Vocab) (vocabToRemove : List Vocab) : List Vocab :=
  (vocabToRemove.filter (fun x => vocabs.any (fun v => decide (v.Id = x.Id)))).map
    (fun x => { x with Forms := x.Forms.filter (fun g =>
      vocabs.any (fun v => decide (v.Id = x.Id) && v.Forms.any (fun f => decide (f.Id = g.Id)))) })

/-- Lookup `formsToRemove[vid][fid]` in the map of maps. -/
def markedIn (formsToRemove : List (UUID × List (UUID × Bool))) (vid fid : UUID) : Bool :=
  match goMapGet formsToRemove vid with
  | some formMap => (goMapGet formMap fid).getD false
  | none => false

/-- A word pool over a store that holds what is left of the sample pool (created at
999h) once form 10 of item 1 and form 20 of item 2 are removed: item 1 with form 11. -/
def removedWordPool : WordPool :=
  { storage := { emptyStore with
      FetchUserPool := .ok (some
        { CreatedAt := 999 * Hour, Vocabs := [sampleVocab 1 [sampleForm 11 0 0]] }) }
    rand := reversingRand }

/-- The item `w` results from the item `v` by calls of `UpdateFormSuccess` only. -/
def successOnly (v w : Vocab) : Prop :=
  ∃ updates : List (VocabForm × Time),
    w = updates.foldl (fun acc u => acc.UpdateFormSuccess u.1 u.2) v

/-- A dictionary over a store that finds item 1 with one form (id 10) at level 9 with
streak 6, and reports every other item as not found. -/
def clampDict : Dictionary :=
  { storage := { emptyStore with
      GetVocab := fun id =>
        if id = 1 then .ok (some (sampleVocab 1 [sampleForm 10 9 6])) else .ok none } }

/-- An input list without the entries whose item id the store reports as not found. -/
def skipNotFound (d : Dictionary) (l : List Vocab) : List Vocab :=
  l.filter (fun x =>
    match d.storage.GetVocab x.Id with
    | .ok none => false
    | _ => true)

/-- Every store call except the fetch of an item id the store reports as not found. -/
def notAMiss (d : Dictionary) (c : Call) : Bool :=
  match c with
  | Call.GetVocab id =>
    (match d.storage.GetVocab id with
      | .ok none => false
      | _ => true)
  | _ => true

/-- A word pool over a store that holds a pool created at 999h (one hour before
`sampleClock` is first read) with one item of twenty forms. -/
def twentyWordPool : WordPool :=
  { storage := { emptyStore with
      FetchUserPool := .ok (some
        { CreatedAt := 999 * Hour
          Vocabs := [sampleVocab 1 ((List.range 20).map (fun i => sampleForm (100 + i) 0 0))] }) }
    rand := reversingRand }

/-- What `RegisterProgress` reads of an input list: the item ids and, for each, the form
ids, in order. -/
def namedIds (l : List Vocab) : List (UUID × List UUID) :=
  l.map (fun x => (x.Id, x.Forms.map (fun g => g.Id)))

/-- A source of identifiers: the `k`-th identifier drawn is `100 + k`. -/
def countingIds : Nat → UUID := fun k => 100 + k

/-- The number of forms of a list whose id is `uuid.Nil`. -/
def nilIds (forms : List VocabForm) : Nat :=
  (forms.filter (fun f => decide (f.Id = 0))).length

/-- A set service over a store that holds the set 7, naming the items 1, 2 and 3, and
yields the items of `sampleVocabulary` with these ids; every other set is not found. -/
def sampleSetService : SetService :=
  { storage := { emptyStore with
      GetVocabSet := fun id =>
        if id = 7 then .ok (some { Id := 7, Name := "verber", VocabIds := [1, 2, 3] })
        else .ok none
      GetMultipleVocabs := fun ids =>
        .ok (sampleVocabulary.filter (fun v => decide (v.Id ∈ ids))) } }

/-- An item sent without ids: the item id and the ids of its first and third form are
`uuid.Nil`; the second form has the id 10. -/
def nilVocab : Vocab :=
  sampleVocab 0 [sampleForm 0 0 0, sampleForm 10 2 1, sampleForm 0 1 1]

/-! ## Theorems: mastery updates and due-ness -/

theorem wrapInt_of_isInt64 (x : Int) (h : isInt64 x) : wrapInt x = x := by
  unfold isInt64 at h
  unfold wrapInt
  omega

theorem UpdateFormSuccess_body_Id (f : VocabForm) (now : Time) :
    (Vocab.UpdateFormSuccess.body f now).Id = f.Id := by
  unfold Vocab.UpdateFormSuccess.body
  dsimp only
  split <;> rfl

theorem UpdateFormSuccess_loop_split (g : VocabForm) (now : Time) (pre post : List VocabForm)
    (f : VocabForm) (hpre : ∀ x ∈ pre, x.Id ≠ g.Id) (hf : f.Id = g.Id) :
    Vocab.UpdateFormSuccess.loop g now (pre ++ f :: post)
      = pre ++ Vocab.UpdateFormSuccess.body f now :: post := by
  induction pre with
  | nil => simp [Vocab.UpdateFormSuccess.loop, hf]
  | cons x xs ih =>
    have hx : x.Id ≠ g.Id := hpre x (List.mem_cons_self _ _)
    have hxs : ∀ y ∈ xs, y.Id ≠ g.Id := fun y hy => hpre y (List.mem_cons_of_mem _ hy)
    simp [Vocab.UpdateFormSuccess.loop, hx, ih hxs]

theorem successRun_split (g : VocabForm) (pre post : List VocabForm) (ts : List Time) :
    ∀ (v : Vocab) (f : VocabForm), v.Forms = pre ++ f :: post → (∀ x ∈ pre, x.Id ≠ g.Id) →
      f.Id = g.Id →
      (successRun v g ts).Forms
        = pre ++ ts.foldl (fun acc now => Vocab.UpdateFormSuccess.body acc now) f :: post := by
  induction ts with
  | nil => intro v f hv _ _; simpa [successRun] using hv
  | cons t ts ih =>
    intro v f hv hpre hf
    have hstep : (v.UpdateFormSuccess g t).Forms
        = pre ++ Vocab.UpdateFormSuccess.body f t :: post := by
      simp only [Vocab.UpdateFormSuccess, hv]
      exact UpdateFormSuccess_loop_split g t pre post f hpre hf
    have hid : (Vocab.UpdateFormSuccess.body f t).Id = g.Id := by
      rw [UpdateFormSuccess_body_Id]; exact hf
    have := ih (v.UpdateFormSuccess g t) (Vocab.UpdateFormSuccess.body f t) hstep hpre hid
    simpa [successRun] using this

theorem UpdateFormSuccess_body_below (f : VocabForm) (now : Time)
    (h0 : 0 ≤ f.SuccessInRow) (h6 : f.SuccessInRow < 6) :
    (Vocab.UpdateFormSuccess.body f now).SuccessInRow = f.SuccessInRow + 1
      ∧ (Vocab.UpdateFormSuccess.body f now).Level = f.Level := by
  have hw : wrapInt (f.SuccessInRow + 1) = f.SuccessInRow + 1 :=
    wrapInt_of_isInt64 _ (by unfold isInt64; omega)
  unfold Vocab.UpdateFormSuccess.body
  dsimp only
  rw [hw]
  have : ¬ (f.SuccessInRow + 1 ≥ 7) := by omega
  simp [this]

theorem UpdateFormSuccess_body_seventh (f : VocabForm) (now : Time)
    (h6 : f.SuccessInRow = 6) :
    (Vocab.UpdateFormSuccess.body f now).SuccessInRow = 0
      ∧ (Vocab.UpdateFormSuccess.body f now).Level = min (wrapInt (f.Level + 1)) 5 := by
  have hw : wrapInt (f.SuccessInRow + 1) = 7 := by rw [h6]; decide
  unfold Vocab.UpdateFormSuccess.body
  dsimp only
  rw [hw]
  simp

/-- C1 (as amended): for an item and a form `f` of it that is the first form carrying its
id, whose streak is 0 and whose level is a Go `int` below the largest one, seven
consecutive calls of `UpdateFormSuccess` for `f`, at any seven times, leave every other
form as it was and `f` with level `min (level + 1) 5` and streak 0. -/
theorem C1_seven_successes_from_zero (v : Vocab) (pre post : List VocabForm)
    (f g : VocabForm) (ts : List Time)
    (hforms : v.Forms = pre ++ f :: post) (hfirst : ∀ x ∈ pre, x.Id ≠ f.Id)
    (hg : g.Id = f.Id) (hlen : ts.length = 7) (hstreak : f.SuccessInRow = 0)
    (hlevel : isInt64 f.Level) (hmax : f.Level ≠ 9223372036854775807) :
    ∃ f1 : VocabForm, (successRun v g ts).Forms = pre ++ f1 :: post
      ∧ f1.Level = min (f.Level + 1) 5 ∧ f1.SuccessInRow = 0 := by
  have hpre : ∀ x ∈ pre, x.Id ≠ g.Id := fun x hx => hg ▸ hfirst x hx
  refine ⟨_, successRun_split g pre post ts v f hforms hpre hg.symm, ?_⟩
  match ts, hlen with
  | [t1, t2, t3, t4, t5, t6, t7], _ =>
    simp only [List.foldl_cons, List.foldl_nil]
    obtain ⟨s1, l1⟩ := UpdateFormSuccess_body_below f t1 (by omega) (by omega)
    generalize Vocab.UpdateFormSuccess.body f t1 = f1 at s1 l1 ⊢
    obtain ⟨s2, l2⟩ := UpdateFormSuccess_body_below f1 t2 (by omega) (by omega)
    generalize Vocab.UpdateFormSuccess.body f1 t2 = f2 at s2 l2 ⊢
    obtain ⟨s3, l3⟩ := UpdateFormSuccess_body_below f2 t3 (by omega) (by omega)
    generalize Vocab.UpdateFormSuccess.body f2 t3 = f3 at s3 l3 ⊢
    obtain ⟨s4, l4⟩ := UpdateFormSuccess_body_below f3 t4 (by omega) (by omega)
    generalize Vocab.UpdateFormSuccess.body f3 t4 = f4 at s4 l4 ⊢
    obtain ⟨s5, l5⟩ := UpdateFormSuccess_body_below f4 t5 (by omega) (by omega)
    generalize Vocab.UpdateFormSuccess.body f4 t5 = f5 at s5 l5 ⊢
    obtain ⟨s6, l6⟩ := UpdateFormSuccess_body_below f5 t6 (by omega) (by omega)
    generalize Vocab.UpdateFormSuccess.body f5 t6 = f6 at s6 l6 ⊢
    obtain ⟨s7, l7⟩ := UpdateFormSuccess_body_seventh f6 t7 (by omega)
    refine ⟨?_, s7⟩
    rw [l7, l6, l5, l4, l3, l2, l1]
    rw [wrapInt_of_isInt64 _ (by unfold isInt64 at *; omega)]

/-- C1 witness: a form at level 2 with streak 0, between two other forms. -/
theorem C1_seven_successes_from_zero_witness :
    ∃ f1 : VocabForm,
      (successRun (sampleVocab 1 [sampleForm 10 0 0, sampleForm 11 2 0, sampleForm 12 0 0])
          (sampleForm 11 0 0) [1, 2, 3, 4, 5, 6, 7]).Forms
        = [sampleForm 10 0 0] ++ f1 :: [sampleForm 12 0 0]
      ∧ f1.Level = min ((sampleForm 11 2 0).Level + 1) 5 ∧ f1.SuccessInRow = 0 :=
  C1_seven_successes_from_zero
    (sampleVocab 1 [sampleForm 10 0 0, sampleForm 11 2 0, sampleForm 12 0 0])
    [sampleForm 10 0 0] [sampleForm 12 0 0] (sampleForm 11 2 0) (sampleForm 11 0 0)
    [1, 2, 3, 4, 5, 6, 7] rfl (by decide) rfl rfl rfl ⟨by decide, by decide⟩ (by decide)

/-- C1 as stated fails in three ways.  (1) A form at level 0 with streak 3 ends, after
seven successes, at level 1 with streak 3, not 0.  (2) Of two forms carrying the same id
only the first is updated: the second stays at level 0.  (3) At the largest Go `int` the
level wraps around to the smallest one instead of being clamped to 5. -/
theorem C1_counterexample :
    ((successRun (sampleVocab 1 [sampleForm 10 0 3]) (sampleForm 10 0 3)
        [1, 2, 3, 4, 5, 6, 7]).Forms.map (fun x => (x.Level, x.SuccessInRow)) = [(1, 3)])
    ∧ ((successRun (sampleVocab 1 [sampleForm 10 0 0, sampleForm 10 0 0]) (sampleForm 10 0 0)
        [1, 2, 3, 4, 5, 6, 7]).Forms.map (fun x => (x.Level, x.SuccessInRow))
          = [(1, 0), (0, 0)])
    ∧ ((successRun (sampleVocab 1 [sampleForm 10 9223372036854775807 0])
        (sampleForm 10 9223372036854775807 0)
        [1, 2, 3, 4, 5, 6, 7]).Forms.map (fun x => (x.Level, x.SuccessInRow))
          = [(-9223372036854775808, 0)]) := by
  refine ⟨?_, ?_, ?_⟩ <;> decide

theorem interval_eq (level : Int) :
    (match levelToInterval level with
      | some i => i
      | none => Hour) = interval level := by
  unfold levelToInterval interval Hour
  split_ifs <;> simp

/-- C2 (as amended): a form whose tag is neither "definite_singular" nor
"definite_plural" can be added to the queue at time `now` exactly when
`lastSuccess + interval(level) < now`: strictly after the interval has elapsed, not at
the instant it elapses. -/
theorem C2_due_iff_strictly_after (v : VocabForm) (now : Time)
    (hs : v.Form ≠ "definite_singular") (hp : v.Form ≠ "definite_plural") :
    v.CanBeAddedToQueue now = true ↔ v.LastSuccess + interval v.Level < now := by
  unfold VocabForm.CanBeAddedToQueue
  simp only [hs, hp, or_self, if_false]
  rw [interval_eq]
  simp

/-- C2 witness: a level-1 form last practised at time 0, asked about at 24h + 1ns. -/
theorem C2_due_iff_strictly_after_witness :
    (sampleForm 10 1 0).Form ≠ "definite_singular"
    ∧ (sampleForm 10 1 0).Form ≠ "definite_plural"
    ∧ ((sampleForm 10 1 0).CanBeAddedToQueue (24 * Hour + 1) = true
        ↔ (sampleForm 10 1 0).LastSuccess + interval (sampleForm 10 1 0).Level
            < 24 * Hour + 1) :=
  ⟨by decide, by decide,
    C2_due_iff_strictly_after (sampleForm 10 1 0) (24 * Hour + 1) (by decide) (by decide)⟩

/-- C2 as stated fails: a level-0 form last practised at time 0 is not due at the very
instant `0 + 1h`, although `lastSuccess + interval(level) <= now` holds there. -/
theorem C2_counterexample :
    (sampleForm 10 0 0).CanBeAddedToQueue Hour = false
    ∧ (sampleForm 10 0 0).Form ≠ "definite_singular"
    ∧ (sampleForm 10 0 0).Form ≠ "definite_plural"
    ∧ (sampleForm 10 0 0).LastSuccess + interval (sampleForm 10 0 0).Level ≤ Hour := by
  refine ⟨?_, ?_, ?_, ?_⟩ <;> decide

/-- C3: a form tagged "definite_singular" or "definite_plural" can never be added to the
queue, whatever its level, its last success and the time. -/
theorem C3_fixed_forms_never_due (v : VocabForm) (now : Time)
    (h : v.Form = "definite_singular" ∨ v.Form = "definite_plural") :
    v.CanBeAddedToQueue now = false := by
  unfold VocabForm.CanBeAddedToQueue
  simp [h]

/-- C3 witness: a "definite_plural" form at level 0, long after its last success. -/
theorem C3_fixed_forms_never_due_witness :
    ({ sampleForm 10 0 0 with Form := "definite_plural" } : VocabForm).CanBeAddedToQueue
      (1000 * Hour) = false :=
  C3_fixed_forms_never_due { sampleForm 10 0 0 with Form := "definite_plural" }
    (1000 * Hour) (Or.inr rfl)

/-! ## Theorems: sampling a batch -/

theorem goMapGet_mem {β : Type} (m : List (UUID × β)) (k : UUID) (v : β)
    (h : goMapGet m k = some v) : (k, v) ∈ m := by
  induction m with
  | nil => simp [goMapGet] at h
  | cons e rest ih =>
    obtain ⟨k1, v1⟩ := e
    by_cases hk : k1 = k
    · simp [goMapGet, hk] at h
      simp [hk, h]
    · simp [goMapGet, hk] at h
      exact List.mem_cons_of_mem _ (ih h)

theorem mem_goMapSet {β : Type} (m : List (UUID × β)) (k : UUID) (v : β) (e : UUID × β)
    (h : e ∈ goMapSet m k v) : e ∈ m ∨ e = (k, v) := by
  induction m with
  | nil => simp [goMapSet] at h; exact Or.inr h
  | cons e1 rest ih =>
    obtain ⟨k1, v1⟩ := e1
    by_cases hk : k1 = k
    · simp [goMapSet, hk] at h
      rcases h with h | h
      · exact Or.inr h
      · exact Or.inl (List.mem_cons_of_mem _ h)
    · simp [goMapSet, hk] at h
      rcases h with h | h
      · exact Or.inl (by simp [h])
      · rcases ih h with h1 | h1
        · exact Or.inl (List.mem_cons_of_mem _ h1)
        · exact Or.inr h1

theorem formsTotal_goMapSet_some (m : List (UUID × Vocab)) (k : UUID) (v w : Vocab)
    (h : goMapGet m k = some v) :
    formsTotal ((goMapSet m k w).map (fun kv => kv.2)) + v.Forms.length
      = formsTotal (m.map (fun kv => kv.2)) + w.Forms.length := by
  induction m with
  | nil => simp [goMapGet] at h
  | cons e rest ih =>
    obtain ⟨k1, v1⟩ := e
    by_cases hk : k1 = k
    · simp [goMapGet, hk] at h
      simp [goMapSet, hk, formsTotal, h]
      omega
    · simp [goMapGet, hk] at h
      have := ih h
      simp [goMapSet, hk, formsTotal] at this ⊢
      omega

theorem formsTotal_goMapSet_none (m : List (UUID × Vocab)) (k : UUID) (w : Vocab)
    (h : goMapGet m k = none) :
    formsTotal ((goMapSet m k w).map (fun kv => kv.2))
      = formsTotal (m.map (fun kv => kv.2)) + w.Forms.length := by
  induction m with
  | nil => simp [goMapSet, formsTotal]
  | cons e rest ih =>
    obtain ⟨k1, v1⟩ := e
    by_cases hk : k1 = k
    · simp [goMapGet, hk] at h
    · simp [goMapGet, hk] at h
      have := ih h
      simp [goMapSet, hk, formsTotal] at this ⊢
      omega

theorem regroup_body_formsTotal (m : List (UUID × Vocab)) (item : formWithParent) :
    formsTotal ((WordPool.batchFromPool.regroup.body m item).map (fun kv => kv.2))
      = formsTotal (m.map (fun kv => kv.2)) + 1 := by
  unfold WordPool.batchFromPool.regroup.body
  cases h : goMapGet m item.ParentVocab.Id with
  | none =>
    have := formsTotal_goMapSet_none m item.ParentVocab.Id
      { Id := item.ParentVocab.Id, Definition := item.ParentVocab.Definition,
        PartOfSpeech := item.ParentVocab.PartOfSpeech, Forms := [] ++ [item.Form],
        PausedUntil := none } h
    simpa using this
  | some v =>
    have := formsTotal_goMapSet_some m item.ParentVocab.Id v
      { v with Forms := v.Forms ++ [item.Form] } h
    simp at this ⊢
    omega

theorem regroup_foldl_formsTotal (selected : List formWithParent) :
    ∀ m : List (UUID × Vocab),
      formsTotal ((selected.foldl WordPool.batchFromPool.regroup.body m).map (fun kv => kv.2))
        = formsTotal (m.map (fun kv => kv.2)) + selected.length := by
  induction selected with
  | nil => intro m; simp
  | cons item rest ih =>
    intro m
    simp only [List.foldl_cons, List.length_cons]
    rw [ih, regroup_body_formsTotal]
    omega

theorem regroup_formsTotal (selected : List formWithParent) :
    formsTotal ((WordPool.batchFromPool.regroup selected).map (fun kv => kv.2))
      = selected.length := by
  unfold WordPool.batchFromPool.regroup
  rw [regroup_foldl_formsTotal]
  simp [formsTotal]

theorem flatten_body_eq (allForms : List formWithParent) (vocab : Vocab) :
    WordPool.batchFromPool.flatten.body allForms vocab
      = allForms ++ vocab.Forms.map (fun form => { ParentVocab := vocab, Form := form }) := by
  unfold WordPool.batchFromPool.flatten.body
  generalize vocab.Forms = forms
  induction forms generalizing allForms with
  | nil => simp
  | cons f rest ih => simp [ih]

theorem flatten_foldl_eq (vocabs : List Vocab) :
    ∀ allForms : List formWithParent,
      vocabs.foldl WordPool.batchFromPool.flatten.body allForms
        = allForms ++ vocabs.flatMap (fun vocab =>
            vocab.Forms.map (fun form => { ParentVocab := vocab, Form := form })) := by
  induction vocabs with
  | nil => intro allForms; simp
  | cons v rest ih =>
    intro allForms
    simp only [List.foldl_cons, List.flatMap_cons]
    rw [ih, flatten_body_eq, List.append_assoc]

theorem flatten_eq (vocabs : List Vocab) :
    WordPool.batchFromPool.flatten vocabs
      = vocabs.flatMap (fun vocab =>
          vocab.Forms.map (fun form => { ParentVocab := vocab, Form := form })) := by
  unfold WordPool.batchFromPool.flatten
  rw [flatten_foldl_eq]
  simp

theorem flatten_length (vocabs : List Vocab) :
    (WordPool.batchFromPool.flatten vocabs).length = formsTotal vocabs := by
  rw [flatten_eq]
  induction vocabs with
  | nil => simp [formsTotal]
  | cons v rest ih =>
    simp only [List.flatMap_cons, List.length_append, List.length_map, ih]
    simp [formsTotal]

theorem mem_flatten (vocabs : List Vocab) (item : formWithParent)
    (h : item ∈ WordPool.batchFromPool.flatten vocabs) :
    item.ParentVocab ∈ vocabs ∧ item.Form ∈ item.ParentVocab.Forms := by
  rw [flatten_eq] at h
  simp only [List.mem_flatMap, List.mem_map] at h
  obtain ⟨v, hv, f, hf, rfl⟩ := h
  exact ⟨hv, hf⟩

theorem swapAt_length {α : Type} (l : List α) (i j : Nat) :
    (swapAt l i j).length = l.length := by
  unfold swapAt
  split <;> simp

theorem mem_swapAt {α : Type} (l : List α) (i j : Nat) (x : α) (h : x ∈ swapAt l i j) :
    x ∈ l := by
  unfold swapAt at h
  split at h
  · rename_i a b ha hb
    have ha1 : a ∈ l := List.getElem?_mem ha
    have hb1 : b ∈ l := List.getElem?_mem hb
    rcases List.mem_or_eq_of_mem_set h with h1 | h1
    · rcases List.mem_or_eq_of_mem_set h1 with h2 | h2
      · exact h2
      · exact h2 ▸ hb1
    · exact h1 ▸ ha1
  · exact h

theorem shuffle_foldl_length {α : Type} {n : Nat} (swaps : List (Fin n × Fin n)) :
    ∀ l : List α, (swaps.foldl (fun l ij => swapAt l ij.1.val ij.2.val) l).length = l.length := by
  induction swaps with
  | nil => intro l; rfl
  | cons s rest ih => intro l; simp only [List.foldl_cons]; rw [ih, swapAt_length]

theorem mem_shuffle_foldl {α : Type} {n : Nat} (swaps : List (Fin n × Fin n)) (x : α) :
    ∀ l : List α, x ∈ swaps.foldl (fun l ij => swapAt l ij.1.val ij.2.val) l → x ∈ l := by
  induction swaps with
  | nil => intro l h; exact h
  | cons s rest ih =>
    intro l h
    simp only [List.foldl_cons] at h
    exact mem_swapAt l _ _ x (ih _ h)

theorem regroup_body_inv (S : formWithParent → Prop) (m : List (UUID × Vocab))
    (item : formWithParent) (hitem : S item)
    (hm : ∀ e ∈ m, e.2.Id = e.1 ∧ ∀ f ∈ e.2.Forms,
      ∃ it, S it ∧ it.ParentVocab.Id = e.1 ∧ it.Form = f) :
    ∀ e ∈ WordPool.batchFromPool.regroup.body m item, e.2.Id = e.1 ∧ ∀ f ∈ e.2.Forms,
      ∃ it, S it ∧ it.ParentVocab.Id = e.1 ∧ it.Form = f := by
  intro e he
  unfold WordPool.batchFromPool.regroup.body at he
  rcases mem_goMapSet _ _ _ _ he with h | h
  · exact hm e h
  · subst h
    cases hg : goMapGet m item.ParentVocab.Id with
    | none =>
      refine ⟨by simp, ?_⟩
      intro f hf
      simp at hf
      exact ⟨item, hitem, rfl, hf.symm⟩
    | some v =>
      have hv := hm _ (goMapGet_mem m _ v hg)
      refine ⟨by simpa using hv.1, ?_⟩
      intro f hf
      simp at hf
      rcases hf with hf | hf
      · exact hv.2 f hf
      · exact ⟨item, hitem, rfl, hf.symm⟩

theorem regroup_foldl_inv (S : formWithParent → Prop) (selected : List formWithParent) :
    ∀ m : List (UUID × Vocab), (∀ item ∈ selected, S item) →
      (∀ e ∈ m, e.2.Id = e.1 ∧ ∀ f ∈ e.2.Forms,
        ∃ it, S it ∧ it.ParentVocab.Id = e.1 ∧ it.Form = f) →
      ∀ e ∈ selected.foldl WordPool.batchFromPool.regroup.body m, e.2.Id = e.1 ∧
        ∀ f ∈ e.2.Forms, ∃ it, S it ∧ it.ParentVocab.Id = e.1 ∧ it.Form = f := by
  induction selected with
  | nil => intro m _ hm; exact hm
  | cons item rest ih =>
    intro m hsel hm
    simp only [List.foldl_cons]
    exact ih _ (fun it hit => hsel it (List.mem_cons_of_mem _ hit))
      (regroup_body_inv S m item (hsel item (List.mem_cons_self _ _)) hm)

theorem regroup_forms_from (S : formWithParent → Prop) (selected : List formWithParent)
    (hsel : ∀ item ∈ selected, S item) :
    ∀ v ∈ (WordPool.batchFromPool.regroup selected).map (fun kv => kv.2), ∀ f ∈ v.Forms,
      ∃ it, S it ∧ it.ParentVocab.Id = v.Id ∧ it.Form = f := by
  intro v hv f hf
  simp only [List.mem_map] at hv
  obtain ⟨e, he, rfl⟩ := hv
  have := regroup_foldl_inv S selected [] hsel (by simp) e he
  obtain ⟨it, h1, h2, h3⟩ := this.2 f hf
  exact ⟨it, h1, by rw [this.1]; exact h2, h3⟩

theorem batchFromPool_of_nonneg (wp : WordPool) (pool : Pool) (n : Int) (hn : 0 ≤ n) :
    ∃ selected : List formWithParent,
      (∀ item ∈ selected, item ∈ WordPool.batchFromPool.flatten pool.Vocabs)
      ∧ (selected.length : Int) = min n (formsTotal pool.Vocabs)
      ∧ wp.batchFromPool pool n
          = some { Vocabs := (WordPool.batchFromPool.regroup selected).map (fun kv => kv.2) } := by
  unfold WordPool.batchFromPool
  dsimp only
  generalize hsh : (wp.rand.Shuffle (WordPool.batchFromPool.flatten pool.Vocabs).length).foldl
      (fun l ij => swapAt l ij.1.val ij.2.val) (WordPool.batchFromPool.flatten pool.Vocabs)
    = shuffled
  have hlen : shuffled.length = formsTotal pool.Vocabs := by
    rw [← hsh, shuffle_foldl_length, flatten_length]
  have hmem : ∀ x ∈ shuffled, x ∈ WordPool.batchFromPool.flatten pool.Vocabs := by
    intro x hx
    rw [← hsh] at hx
    exact mem_shuffle_foldl _ x _ hx
  by_cases hlt : (shuffled.length : Int) < n
  · simp only [hlt, if_true]
    have h0 : ¬ ((shuffled.length : Int) < 0) := by omega
    simp only [h0, if_false]
    refine ⟨_, fun item hi => hmem item (List.mem_of_mem_take hi), ?_, rfl⟩
    simp only [Int.toNat_ofNat, List.length_take]
    omega
  · simp only [hlt, if_false]
    have h0 : ¬ (n < 0) := by omega
    simp only [h0, if_false]
    refine ⟨_, fun item hi => hmem item (List.mem_of_mem_take hi), ?_, rfl⟩
    simp only [List.length_take]
    omega

/-- C6: for every pool, every random source and every `n >= 0`, `batchFromPool(pool, n)`
returns a batch whose total number of forms is exactly the smaller of `n` and the number
of forms in the pool, and so never more than `n`. -/
theorem C6_batch_size (wp : WordPool) (pool : Pool) (n : Int) (hn : 0 ≤ n) :
    ∃ batch : Batch, wp.batchFromPool pool n = some batch
      ∧ (formsTotal batch.Vocabs : Int) = min n (formsTotal pool.Vocabs)
      ∧ (formsTotal batch.Vocabs : Int) ≤ n := by
  obtain ⟨selected, _, hlen, hb⟩ := batchFromPool_of_nonneg wp pool n hn
  have ht := regroup_formsTotal selected
  refine ⟨_, hb, ?_, ?_⟩
  · show ((formsTotal ((WordPool.batchFromPool.regroup selected).map (fun kv => kv.2)) : Nat)
      : Int) = _
    rw [ht]; exact hlen
  · show ((formsTotal ((WordPool.batchFromPool.regroup selected).map (fun kv => kv.2)) : Nat)
      : Int) ≤ _
    rw [ht]; omega

/-- C6 witness: three forms in the pool, two asked for, the random source reversing. -/
theorem C6_batch_size_witness :
    ∃ batch : Batch, sampleWordPool.batchFromPool samplePool 2 = some batch
      ∧ (formsTotal batch.Vocabs : Int) = min 2 (formsTotal samplePool.Vocabs)
      ∧ (formsTotal batch.Vocabs : Int) ≤ 2 :=
  C6_batch_size sampleWordPool samplePool 2 (by decide)

/-- C7 (as amended): for a pool without items, or whose items have no forms,
`batchFromPool(pool, n)` returns an empty batch for every `n >= 0`; for negative `n`
it does not return at all (the slice expression panics). -/
theorem C7_empty_pool_batch (wp : WordPool) (pool : Pool) (n : Int)
    (hempty : ∀ v ∈ pool.Vocabs, v.Forms = []) :
    wp.batchFromPool pool n = if n < 0 then none else some { Vocabs := [] } := by
  have htotal : formsTotal pool.Vocabs = 0 := by
    unfold formsTotal
    apply List.sum_eq_zero
    intro x hx
    simp only [List.mem_map] at hx
    obtain ⟨v, hv, rfl⟩ := hx
    simp [hempty v hv]
  by_cases hn : n < 0
  · simp only [hn, if_true]
    unfold WordPool.batchFromPool
    dsimp only
    have hlen : ((wp.rand.Shuffle (WordPool.batchFromPool.flatten pool.Vocabs).length).foldl
        (fun l ij => swapAt l ij.1.val ij.2.val)
        (WordPool.batchFromPool.flatten pool.Vocabs)).length = 0 := by
      rw [shuffle_foldl_length, flatten_length, htotal]
    rw [hlen]
    have h1 : ¬ ((0 : Int) < n) := by omega
    simp [h1, hn]
  · simp only [hn, if_false]
    obtain ⟨selected, _, hlen, hb⟩ := batchFromPool_of_nonneg wp pool n (by omega)
    rw [hb]
    have : selected = [] := by
      apply List.eq_nil_of_length_eq_zero
      rw [htotal] at hlen
      omega
    subst this
    rfl

/-- C7 witness: a pool with one item that has no forms, ten forms asked for. -/
theorem C7_empty_pool_batch_witness :
    sampleWordPool.batchFromPool { CreatedAt := 0, Vocabs := [sampleVocab 1 []] } 10
      = if (10 : Int) < 0 then none else some { Vocabs := [] } :=
  C7_empty_pool_batch sampleWordPool { CreatedAt := 0, Vocabs := [sampleVocab 1 []] } 10
    (by decide)

/-- C7 as stated fails: on the empty pool with `n = -1` the slice expression
`allForms[:n]` panics, so no batch is returned. -/
theorem C7_counterexample :
    sampleWordPool.batchFromPool { CreatedAt := 0, Vocabs := [] } (-1) = none := by
  decide

/-! ## Theorems: building the pool and getting a batch -/

theorem buildPool_forms_foldl (now : Time) (forms : List VocabForm) :
    ∀ acc : List VocabForm,
      forms.foldl (WordPool.buildPool.forms.body now) acc
        = acc ++ forms.filter (fun f => f.CanBeAddedToQueue now) := by
  induction forms with
  | nil => intro acc; simp
  | cons f rest ih =>
    intro acc
    simp only [List.foldl_cons]
    rw [ih]
    unfold WordPool.buildPool.forms.body
    by_cases hf : f.CanBeAddedToQueue now = true
    · simp [hf, List.filter_cons]
    · simp [hf, List.filter_cons]

theorem buildPool_forms_eq (now : Time) (forms : List VocabForm) :
    WordPool.buildPool.forms now forms = forms.filter (fun f => f.CanBeAddedToQueue now) := by
  unfold WordPool.buildPool.forms
  rw [buildPool_forms_foldl]
  simp

theorem buildPool_loop_foldl (now : Time) (vocabs : List Vocab) :
    ∀ acc : List Vocab,
      vocabs.foldl (WordPool.buildPool.loop.body now) acc = acc ++ dueItems now vocabs := by
  induction vocabs with
  | nil => intro acc; simp [dueItems]
  | cons v rest ih =>
    intro acc
    simp only [List.foldl_cons]
    rw [ih]
    unfold WordPool.buildPool.loop.body
    rw [buildPool_forms_eq]
    unfold Vocab.CanBeAddedToQueue
    cases hp : v.PausedUntil with
    | some t => simp [dueItems, List.filter_cons, hp]
    | none =>
      by_cases hd : v.Forms.any (fun f => f.CanBeAddedToQueue now) = true
      · have hlen : (v.Forms.filter (fun f => f.CanBeAddedToQueue now)).length > 0 := by
          rw [gt_iff_lt, List.length_pos, ne_eq, List.filter_eq_nil_iff]
          simp only [List.any_eq_true] at hd
          obtain ⟨f, hf, hfd⟩ := hd
          intro hall
          exact hall f hf hfd
        simp [dueItems, List.filter_cons, hp, hd, hlen]
      · have hlen : ¬ (v.Forms.filter (fun f => f.CanBeAddedToQueue now)).length > 0 := by
          rw [gt_iff_lt, List.length_pos, ne_eq, not_not, List.filter_eq_nil_iff]
          intro f hf hfd
          exact hd (List.any_eq_true.mpr ⟨f, hf, hfd⟩)
        simp [dueItems, List.filter_cons, hp, hd, hlen]

theorem buildPool_loop_eq (now : Time) (vocabs : List Vocab) :
    WordPool.buildPool.loop now vocabs = dueItems now vocabs := by
  unfold WordPool.buildPool.loop
  rw [buildPool_loop_foldl]
  simp

theorem dueItems_sound (now : Time) (vocabs : List Vocab) :
    ∀ v ∈ dueItems now vocabs, v.PausedUntil = none ∧ v.Forms ≠ []
      ∧ ∀ f ∈ v.Forms, f.CanBeAddedToQueue now = true := by
  intro v hv
  unfold dueItems at hv
  simp only [List.mem_map, List.mem_filter, Bool.and_eq_true, List.any_eq_true] at hv
  obtain ⟨w, ⟨hw, hpause, f, hf, hfd⟩, rfl⟩ := hv
  refine ⟨?_, ?_, ?_⟩
  · simpa using hpause
  · intro hnil
    simp only [List.filter_eq_nil_iff] at hnil
    exact hnil f hf hfd
  · intro g hg
    simp only [List.mem_filter] at hg
    exact hg.2

/-- C8: when the vocabulary fetch succeeds, the pool `buildPool` hands to `UpdatePool`
(and returns when that write succeeds) holds exactly the stored items that have no pause
value and at least one due form, in their stored order, each with exactly its due forms
in their stored order and its other fields unchanged; every item of that pool is
unpaused and carries only due forms, at least one. -/
theorem C8_buildPool_contents (wp : WordPool) (clock : Nat → Time) (tick : Nat)
    (vocabs : List Vocab) (hfetch : wp.storage.FetchUserVocabulary = .ok vocabs) :
    ∃ pool : Pool, pool.Vocabs = dueItems (clock tick) vocabs
      ∧ (wp.buildPool clock tick).calls = [Call.FetchUserVocabulary, Call.UpdatePool pool]
      ∧ (wp.storage.UpdatePool pool = none → (wp.buildPool clock tick).result = .ok pool)
      ∧ (∀ v ∈ pool.Vocabs, v.PausedUntil = none ∧ v.Forms ≠ []
          ∧ ∀ f ∈ v.Forms, f.CanBeAddedToQueue (clock tick) = true) := by
  refine ⟨{ Vocabs := dueItems (clock tick) vocabs, CreatedAt := clock (tick + 1) },
    rfl, ?_, ?_, dueItems_sound _ _⟩
  · unfold WordPool.buildPool
    rw [hfetch]
    dsimp only
    rw [buildPool_loop_eq]
    split <;> rfl
  · intro hupdate
    unfold WordPool.buildPool
    rw [hfetch]
    dsimp only
    rw [buildPool_loop_eq, hupdate]

/-- C8 witness: a stored vocabulary of a due item, a paused item, an item whose only
form is a fixed form, and an item with one due and one fixed form. -/
theorem C8_buildPool_contents_witness :
    ∃ pool : Pool, pool.Vocabs = dueItems (sampleClock 0) sampleVocabulary
      ∧ (sampleBuilder.buildPool sampleClock 0).calls
          = [Call.FetchUserVocabulary, Call.UpdatePool pool]
      ∧ (sampleBuilder.storage.UpdatePool pool = none →
          (sampleBuilder.buildPool sampleClock 0).result = .ok pool)
      ∧ (∀ v ∈ pool.Vocabs, v.PausedUntil = none ∧ v.Forms ≠ []
          ∧ ∀ f ∈ v.Forms, f.CanBeAddedToQueue (sampleClock 0) = true) :=
  C8_buildPool_contents sampleBuilder sampleClock 0 sampleVocabulary rfl

theorem GetBatch_sample_ok (wp : WordPool) (calls : List Call) (pool : Pool) :
    ∃ batch : Batch, wp.batchFromPool pool 10 = some batch
      ∧ WordPool.GetBatch.sample wp calls pool = ⟨calls, .ok batch⟩ := by
  obtain ⟨selected, _, _, hb⟩ := batchFromPool_of_nonneg wp pool 10 (by decide)
  exact ⟨_, hb, by unfold WordPool.GetBatch.sample; rw [hb]⟩

theorem buildPool_of_fetch_ok (wp : WordPool) (clock : Nat → Time) (tick : Nat)
    (vocabs : List Vocab) (hfetch : wp.storage.FetchUserVocabulary = .ok vocabs) :
    (wp.buildPool clock tick).calls
        = [Call.FetchUserVocabulary,
            Call.UpdatePool ⟨clock (tick + 1), dueItems (clock tick) vocabs⟩]
      ∧ (wp.storage.UpdatePool ⟨clock (tick + 1), dueItems (clock tick) vocabs⟩ = none →
          (wp.buildPool clock tick).result
            = .ok ⟨clock (tick + 1), dueItems (clock tick) vocabs⟩) := by
  unfold WordPool.buildPool
  rw [hfetch]
  dsimp only
  rw [buildPool_loop_eq]
  constructor
  · split <;> rfl
  · intro h; rw [h]

theorem buildPool_calls_head (wp : WordPool) (clock : Nat → Time) (tick : Nat) :
    Call.FetchUserVocabulary ∈ (wp.buildPool clock tick).calls := by
  unfold WordPool.buildPool
  split
  · simp
  · dsimp only; split <;> simp

theorem GetBatch_rebuild_spec (wp : WordPool) (clock : Nat → Time) (tick : Nat) :
    Call.FetchUserVocabulary ∈ (WordPool.GetBatch.rebuild wp clock tick).calls
    ∧ ∀ vocabs, wp.storage.FetchUserVocabulary = .ok vocabs →
      (WordPool.GetBatch.rebuild wp clock tick).calls
          = [Call.FetchUserPool, Call.FetchUserVocabulary,
              Call.UpdatePool ⟨clock (tick + 1), dueItems (clock tick) vocabs⟩]
        ∧ (wp.storage.UpdatePool ⟨clock (tick + 1), dueItems (clock tick) vocabs⟩ = none →
            ∃ batch : Batch,
              wp.batchFromPool ⟨clock (tick + 1), dueItems (clock tick) vocabs⟩ 10 = some batch
              ∧ (WordPool.GetBatch.rebuild wp clock tick).result = .ok batch) := by
  have hcalls : (WordPool.GetBatch.rebuild wp clock tick).calls
      = Call.FetchUserPool :: (wp.buildPool clock tick).calls := by
    unfold WordPool.GetBatch.rebuild
    dsimp only
    split
    · rename_i pool _
      obtain ⟨batch, _, hs⟩ := GetBatch_sample_ok wp
        (Call.FetchUserPool :: (wp.buildPool clock tick).calls) pool
      rw [hs]
    · rfl
    · rfl
  refine ⟨by rw [hcalls]; exact List.mem_cons_of_mem _ (buildPool_calls_head wp clock tick), ?_⟩
  intro vocabs hfetch
  obtain ⟨hb1, hb2⟩ := buildPool_of_fetch_ok wp clock tick vocabs hfetch
  refine ⟨by rw [hcalls, hb1], ?_⟩
  intro hupdate
  obtain ⟨batch, hbatch, hs⟩ := GetBatch_sample_ok wp
    (Call.FetchUserPool :: (wp.buildPool clock tick).calls)
    ⟨clock (tick + 1), dueItems (clock tick) vocabs⟩
  refine ⟨batch, hbatch, ?_⟩
  unfold WordPool.GetBatch.rebuild
  dsimp only
  rw [hb2 hupdate]
  dsimp only
  rw [hs]

theorem GetBatch_fresh (wp : WordPool) (clock : Nat → Time) (pool : Pool)
    (hpool : wp.storage.FetchUserPool = .ok (some pool)) (hne : pool.Vocabs ≠ [])
    (hfresh : clock 0 ≤ pool.CreatedAt + 5 * Hour) :
    wp.GetBatch clock = WordPool.GetBatch.sample wp [Call.FetchUserPool] pool := by
  unfold WordPool.GetBatch
  rw [hpool]
  dsimp only
  have h1 : ¬ (pool.Vocabs.length = 0) := by
    intro h; exact hne (List.eq_nil_of_length_eq_zero h)
  have h2 : ¬ (pool.CreatedAt < clock 0 + (-5) * Hour) := by
    intro h; linarith
  simp only [h1, h2, if_false]

theorem GetBatch_stale (wp : WordPool) (clock : Nat → Time) (stored : Option Pool)
    (hpool : wp.storage.FetchUserPool = .ok stored) (hstale : poolIsStale stored (clock 0)) :
    ∃ tick, wp.GetBatch clock = WordPool.GetBatch.rebuild wp clock tick := by
  unfold WordPool.GetBatch
  rw [hpool]
  cases stored with
  | none => exact ⟨0, rfl⟩
  | some pool =>
    dsimp only
    by_cases h1 : pool.Vocabs.length = 0
    · exact ⟨0, by simp only [h1, if_true]⟩
    · have hne : pool.Vocabs ≠ [] := by
        intro h; rw [h] at h1; exact h1 rfl
      have h2 : pool.CreatedAt < clock 0 + (-5) * Hour := by
        unfold poolIsStale at hstale
        rcases hstale with h | h
        · exact absurd h hne
        · linarith
      exact ⟨1, by simp only [h1, h2, if_false, if_true]⟩

theorem GetBatch_sample_calls (wp : WordPool) (calls : List Call) (pool : Pool) :
    (WordPool.GetBatch.sample wp calls pool).calls = calls := by
  obtain ⟨batch, _, hs⟩ := GetBatch_sample_ok wp calls pool
  rw [hs]

theorem poolIsStale_or_fresh (stored : Option Pool) (now : Time) :
    poolIsStale stored now
      ∨ ∃ pool, stored = some pool ∧ pool.Vocabs ≠ [] ∧ now ≤ pool.CreatedAt + 5 * Hour := by
  cases stored with
  | none => exact Or.inl trivial
  | some pool =>
    by_cases h1 : pool.Vocabs = []
    · exact Or.inl (Or.inl h1)
    · by_cases h2 : pool.CreatedAt + 5 * Hour < now
      · exact Or.inl (Or.inr h2)
      · exact Or.inr ⟨pool, rfl, h1, not_lt.mp h2⟩

theorem not_stale_of_fresh (pool : Pool) (now : Time) (hne : pool.Vocabs ≠ [])
    (hfresh : now ≤ pool.CreatedAt + 5 * Hour) : ¬ poolIsStale (some pool) now := by
  intro h
  rcases h with h | h
  · exact hne h
  · linarith

/-- C9: when the pool fetch succeeds, `GetBatch` fetches the vocabulary exactly when the
stored pool is absent, or has an empty item list, or was created more than 5 hours before
the time read; when the vocabulary fetch succeeds too, it writes a pool exactly in that
case, the pool written is the one built from the fetched vocabulary, and when the write
succeeds the batch returned is sampled from that rebuilt pool. -/
theorem C9_GetBatch_rebuilds_iff_stale (wp : WordPool) (clock : Nat → Time)
    (stored : Option Pool) (hpool : wp.storage.FetchUserPool = .ok stored) :
    (Call.FetchUserVocabulary ∈ (wp.GetBatch clock).calls ↔ poolIsStale stored (clock 0))
    ∧ ∀ vocabs, wp.storage.FetchUserVocabulary = .ok vocabs →
      ((∃ p, Call.UpdatePool p ∈ (wp.GetBatch clock).calls) ↔ poolIsStale stored (clock 0))
      ∧ (poolIsStale stored (clock 0) →
          ∃ rebuilt : Pool, (∃ tick, rebuilt.Vocabs = dueItems (clock tick) vocabs)
            ∧ (wp.GetBatch clock).calls
                = [Call.FetchUserPool, Call.FetchUserVocabulary, Call.UpdatePool rebuilt]
            ∧ (wp.storage.UpdatePool rebuilt = none →
                ∃ batch : Batch, wp.batchFromPool rebuilt 10 = some batch
                  ∧ (wp.GetBatch clock).result = .ok batch)) := by
  rcases poolIsStale_or_fresh stored (clock 0) with hstale | ⟨pool, hs, hne, hfresh⟩
  · obtain ⟨tick, hget⟩ := GetBatch_stale wp clock stored hpool hstale
    obtain ⟨hr1, hr2⟩ := GetBatch_rebuild_spec wp clock tick
    rw [hget]
    refine ⟨⟨fun _ => hstale, fun _ => hr1⟩, ?_⟩
    intro vocabs hfetch
    obtain ⟨hc, hres⟩ := hr2 vocabs hfetch
    refine ⟨⟨fun _ => hstale, fun _ =>
      ⟨⟨clock (tick + 1), dueItems (clock tick) vocabs⟩, by rw [hc]; simp⟩⟩, ?_⟩
    intro _
    exact ⟨⟨clock (tick + 1), dueItems (clock tick) vocabs⟩, ⟨tick, rfl⟩, hc, hres⟩
  · subst hs
    have hns := not_stale_of_fresh pool (clock 0) hne hfresh
    have hget := GetBatch_fresh wp clock pool hpool hne hfresh
    have hcalls : (wp.GetBatch clock).calls = [Call.FetchUserPool] := by
      rw [hget, GetBatch_sample_calls]
    rw [hcalls]
    refine ⟨⟨fun h => by simp at h, fun h => absurd h hns⟩, ?_⟩
    intro vocabs _
    exact ⟨⟨fun h => by simp at h, fun h => absurd h hns⟩, fun h => absurd h hns⟩

/-- C9 witness: a stored pool created 6 hours before the time read, over a store that
holds `sampleVocabulary`. -/
theorem C9_GetBatch_rebuilds_iff_stale_witness :
    (Call.FetchUserVocabulary ∈ (agedWordPool.GetBatch sampleClock).calls
        ↔ poolIsStale (some { samplePool with CreatedAt := 994 * Hour }) (sampleClock 0))
    ∧ ∀ vocabs, agedWordPool.storage.FetchUserVocabulary = .ok vocabs →
      ((∃ p, Call.UpdatePool p ∈ (agedWordPool.GetBatch sampleClock).calls)
        ↔ poolIsStale (some { samplePool with CreatedAt := 994 * Hour }) (sampleClock 0))
      ∧ (poolIsStale (some { samplePool with CreatedAt := 994 * Hour }) (sampleClock 0) →
          ∃ rebuilt : Pool, (∃ tick, rebuilt.Vocabs = dueItems (sampleClock tick) vocabs)
            ∧ (agedWordPool.GetBatch sampleClock).calls
                = [Call.FetchUserPool, Call.FetchUserVocabulary, Call.UpdatePool rebuilt]
            ∧ (agedWordPool.storage.UpdatePool rebuilt = none →
                ∃ batch : Batch, agedWordPool.batchFromPool rebuilt 10 = some batch
                  ∧ (agedWordPool.GetBatch sampleClock).result = .ok batch)) :=
  C9_GetBatch_rebuilds_iff_stale agedWordPool sampleClock
    (some { samplePool with CreatedAt := 994 * Hour }) rfl

/-- C10: when the stored pool has items and was created at most 5 hours before the time
read (in particular, less than 5 hours before), `GetBatch` makes no store call besides
the pool fetch, so no vocabulary fetch and no pool write, and returns a batch of exactly
`min 10 (number of forms in the stored pool)` forms, each of them a form of the stored
pool item with the same id. -/
theorem C10_GetBatch_fresh_pool (wp : WordPool) (clock : Nat → Time) (pool : Pool)
    (hpool : wp.storage.FetchUserPool = .ok (some pool)) (hne : pool.Vocabs ≠ [])
    (hfresh : clock 0 ≤ pool.CreatedAt + 5 * Hour) :
    (wp.GetBatch clock).calls = [Call.FetchUserPool]
    ∧ ∃ batch : Batch, (wp.GetBatch clock).result = .ok batch
      ∧ formsTotal batch.Vocabs = min 10 (formsTotal pool.Vocabs)
      ∧ ∀ bv ∈ batch.Vocabs, ∀ f ∈ bv.Forms,
          ∃ pv ∈ pool.Vocabs, pv.Id = bv.Id ∧ f ∈ pv.Forms := by
  have hget := GetBatch_fresh wp clock pool hpool hne hfresh
  refine ⟨by rw [hget, GetBatch_sample_calls], ?_⟩
  obtain ⟨selected, hsel, hlen, hb⟩ := batchFromPool_of_nonneg wp pool 10 (by decide)
  refine ⟨_, by rw [hget]; unfold WordPool.GetBatch.sample; rw [hb], ?_, ?_⟩
  · show formsTotal ((WordPool.batchFromPool.regroup selected).map (fun kv => kv.2)) = _
    rw [regroup_formsTotal]
    omega
  · intro bv hbv f hf
    obtain ⟨it, hit, hid, hform⟩ := regroup_forms_from
      (fun item => item ∈ WordPool.batchFromPool.flatten pool.Vocabs) selected hsel bv hbv f hf
    obtain ⟨hparent, hmem⟩ := mem_flatten pool.Vocabs it hit
    exact ⟨it.ParentVocab, hparent, hid, hform ▸ hmem⟩

/-- C10 witness: the sample pool of two items and three forms, created one hour before
the time read. -/
theorem C10_GetBatch_fresh_pool_witness :
    (freshWordPool.GetBatch sampleClock).calls = [Call.FetchUserPool]
    ∧ ∃ batch : Batch, (freshWordPool.GetBatch sampleClock).result = .ok batch
      ∧ formsTotal batch.Vocabs
          = min 10 (formsTotal ({ samplePool with CreatedAt := 999 * Hour } : Pool).Vocabs)
      ∧ ∀ bv ∈ batch.Vocabs, ∀ f ∈ bv.Forms,
          ∃ pv ∈ ({ samplePool with CreatedAt := 999 * Hour } : Pool).Vocabs,
            pv.Id = bv.Id ∧ f ∈ pv.Forms :=
  C10_GetBatch_fresh_pool freshWordPool sampleClock { samplePool with CreatedAt := 999 * Hour }
    rfl (by decide) (by decide)

/-! ## Theorems: registering progress -/

theorem goMapGet_goMapSet_self {β : Type} (m : List (UUID × β)) (k : UUID) (v : β) :
    goMapGet (goMapSet m k v) k = some v := by
  induction m with
  | nil => simp [goMapSet, goMapGet]
  | cons e rest ih =>
    obtain ⟨k1, v1⟩ := e
    by_cases hk : k1 = k
    · simp [goMapSet, goMapGet, hk]
    · simp [goMapSet, goMapGet, hk, ih]

theorem goMapGet_goMapSet_other {β : Type} (m : List (UUID × β)) (k k2 : UUID) (v : β)
    (h : k2 ≠ k) : goMapGet (goMapSet m k v) k2 = goMapGet m k2 := by
  induction m with
  | nil => simp [goMapSet, goMapGet, Ne.symm h]
  | cons e rest ih =>
    obtain ⟨k1, v1⟩ := e
    by_cases hk : k1 = k
    · subst hk
      simp [goMapSet, goMapGet, Ne.symm h]
    · by_cases hk2 : k1 = k2
      · subst hk2
        simp [goMapSet, goMapGet, hk]
      · simp [goMapSet, goMapGet, hk, hk2, ih]

theorem goMapGet_eq_none_iff {β : Type} (m : List (UUID × β)) (k : UUID) :
    goMapGet m k = none ↔ k ∉ m.map (fun kv => kv.1) := by
  induction m with
  | nil => simp [goMapGet]
  | cons e rest ih =>
    obtain ⟨k1, v1⟩ := e
    by_cases hk : k1 = k
    · simp [goMapGet, hk]
    · simp [goMapGet, hk, ih, Ne.symm hk]

theorem keys_goMapSet_some {β : Type} (m : List (UUID × β)) (k : UUID) (v w : β)
    (h : goMapGet m k = some v) :
    (goMapSet m k w).map (fun kv => kv.1) = m.map (fun kv => kv.1) := by
  induction m with
  | nil => simp [goMapGet] at h
  | cons e rest ih =>
    obtain ⟨k1, v1⟩ := e
    by_cases hk : k1 = k
    · simp [goMapSet, hk]
    · simp [goMapGet, hk] at h
      simp [goMapSet, hk, ih h]

theorem keys_goMapSet_none {β : Type} (m : List (UUID × β)) (k : UUID) (w : β)
    (h : goMapGet m k = none) :
    (goMapSet m k w).map (fun kv => kv.1) = m.map (fun kv => kv.1) ++ [k] := by
  induction m with
  | nil => simp [goMapSet]
  | cons e rest ih =>
    obtain ⟨k1, v1⟩ := e
    by_cases hk : k1 = k
    · simp [goMapGet, hk] at h
    · simp [goMapGet, hk] at h
      simp [goMapSet, hk, ih h]

theorem RegisterProgress_loop_append (d : Dictionary) (clock : Nat → Time)
    (a b : List Vocab) :
    ∀ s : progressState,
      Dictionary.RegisterProgress.loop d clock (a ++ b) s
        = match Dictionary.RegisterProgress.loop d clock a s with
          | (s1, some err) => (s1, some err)
          | (s1, none) => Dictionary.RegisterProgress.loop d clock b s1 := by
  induction a with
  | nil => intro s; simp [Dictionary.RegisterProgress.loop]
  | cons x rest ih =>
    intro s
    simp only [List.cons_append, Dictionary.RegisterProgress.loop]
    split
    · exact ih _
    · split
      · rfl
      · exact ih _
      · exact ih _

/-- The outcome of `RegisterProgress` from the state its loops end in. -/
theorem RegisterProgress_eq (d : Dictionary) (clock : Nat → Time) (a b : List Vocab) :
    d.RegisterProgress clock a b
      = match Dictionary.RegisterProgress.loop d clock (a ++ b) ⟨[], [], 0⟩ with
        | (s, some err) => ⟨s.calls, .error err⟩
        | (s, none) =>
          match (s.m.filterMap (fun kv => d.storage.AddVocabulary kv.2)).head? with
          | some err =>
            ⟨s.calls ++ s.m.map (fun kv => Call.AddVocabulary kv.2),
              .error ("could not update vocab progress: " ++ err)⟩
          | none => ⟨s.calls ++ s.m.map (fun kv => Call.AddVocabulary kv.2), .ok ()⟩ := by
  unfold Dictionary.RegisterProgress
  rw [RegisterProgress_loop_append]
  rcases h1 : Dictionary.RegisterProgress.loop d clock a ⟨[], [], 0⟩ with ⟨s1, e1⟩
  cases e1 with
  | some err => rfl
  | none => rfl

theorem forms_body_calls (clock : Nat → Time) (id : UUID) (s : progressState)
    (form : VocabForm) :
    (Dictionary.RegisterProgress.forms.body clock id s form).calls = s.calls := by
  unfold Dictionary.RegisterProgress.forms.body
  split <;> rfl

theorem forms_body_keys (clock : Nat → Time) (id : UUID) (s : progressState)
    (form : VocabForm) :
    (Dictionary.RegisterProgress.forms.body clock id s form).m.map (fun kv => kv.1)
      = s.m.map (fun kv => kv.1) := by
  unfold Dictionary.RegisterProgress.forms.body
  split
  · rename_i vocab h
    exact keys_goMapSet_some s.m id vocab _ h
  · rfl

theorem forms_body_get_other (clock : Nat → Time) (id k : UUID) (s : progressState)
    (form : VocabForm) (hk : k ≠ id) :
    goMapGet (Dictionary.RegisterProgress.forms.body clock id s form).m k = goMapGet s.m k := by
  unfold Dictionary.RegisterProgress.forms.body
  split
  · exact goMapGet_goMapSet_other s.m id k _ hk
  · rfl

theorem forms_body_keyed (clock : Nat → Time) (id : UUID) (s : progressState)
    (form : VocabForm) (hs : ∀ e ∈ s.m, e.2.Id = e.1) :
    ∀ e ∈ (Dictionary.RegisterProgress.forms.body clock id s form).m, e.2.Id = e.1 := by
  unfold Dictionary.RegisterProgress.forms.body
  split
  · rename_i vocab h
    intro e he
    rcases mem_goMapSet _ _ _ _ he with h1 | h1
    · exact hs e h1
    · subst h1
      exact hs (id, vocab) (goMapGet_mem s.m id vocab h)
  · exact hs

theorem forms_calls (clock : Nat → Time) (id : UUID) (forms : List VocabForm) :
    ∀ s : progressState, (Dictionary.RegisterProgress.forms clock id forms s).calls = s.calls := by
  unfold Dictionary.RegisterProgress.forms
  induction forms with
  | nil => intro s; rfl
  | cons f rest ih => intro s; simp only [List.foldl_cons]; rw [ih, forms_body_calls]

theorem forms_keys (clock : Nat → Time) (id : UUID) (forms : List VocabForm) :
    ∀ s : progressState,
      (Dictionary.RegisterProgress.forms clock id forms s).m.map (fun kv => kv.1)
        = s.m.map (fun kv => kv.1) := by
  unfold Dictionary.RegisterProgress.forms
  induction forms with
  | nil => intro s; rfl
  | cons f rest ih => intro s; simp only [List.foldl_cons]; rw [ih, forms_body_keys]

theorem forms_get_other (clock : Nat → Time) (id k : UUID) (forms : List VocabForm)
    (hk : k ≠ id) :
    ∀ s : progressState,
      goMapGet (Dictionary.RegisterProgress.forms clock id forms s).m k = goMapGet s.m k := by
  unfold Dictionary.RegisterProgress.forms
  induction forms with
  | nil => intro s; rfl
  | cons f rest ih =>
    intro s; simp only [List.foldl_cons]; rw [ih, forms_body_get_other _ _ _ _ _ hk]

theorem forms_keyed (clock : Nat → Time) (id : UUID) (forms : List VocabForm) :
    ∀ s : progressState, (∀ e ∈ s.m, e.2.Id = e.1) →
      ∀ e ∈ (Dictionary.RegisterProgress.forms clock id forms s).m, e.2.Id = e.1 := by
  unfold Dictionary.RegisterProgress.forms
  induction forms with
  | nil => intro s hs; exact hs
  | cons f rest ih =>
    intro s hs; simp only [List.foldl_cons]
    exact ih _ (forms_body_keyed clock id s f hs)

theorem count_GetVocab_append_singleton (calls : List Call) (k id : UUID) :
    (calls ++ [Call.GetVocab id]).count (Call.GetVocab k)
      = calls.count (Call.GetVocab k) + (if k = id then 1 else 0) := by
  rw [List.count_append]
  by_cases h : k = id
  · subst h; simp
  · have : Call.GetVocab id ≠ Call.GetVocab k := by
      intro hc; injection hc with hc; exact h hc.symm
    simp [h, List.count_cons, this]

theorem RegisterProgress_loop_spec (d : Dictionary) (clock : Nat → Time)
    (hkeyed : ∀ id v, d.storage.GetVocab id = .ok (some v) → v.Id = id) :
    ∀ (l : List Vocab) (s : progressState),
      (∀ x ∈ l, ∀ err, d.storage.GetVocab x.Id ≠ .error err) →
      (∀ e ∈ s.m, e.2.Id = e.1) → (s.m.map (fun kv => kv.1)).Nodup →
      (∀ k ∈ s.m.map (fun kv => kv.1), ∃ v, d.storage.GetVocab k = .ok (some v)) →
      ∃ s1, Dictionary.RegisterProgress.loop d clock l s = (s1, none)
        ∧ (∀ e ∈ s1.m, e.2.Id = e.1) ∧ (s1.m.map (fun kv => kv.1)).Nodup
        ∧ (∀ k, k ∈ s1.m.map (fun kv => kv.1) ↔ (k ∈ s.m.map (fun kv => kv.1)
            ∨ (k ∈ l.map (fun x => x.Id) ∧ ∃ v, d.storage.GetVocab k = .ok (some v))))
        ∧ (∀ k, k ∈ s.m.map (fun kv => kv.1) →
            s1.calls.count (Call.GetVocab k) = s.calls.count (Call.GetVocab k))
        ∧ (∀ k, k ∉ s.m.map (fun kv => kv.1) → (∃ v, d.storage.GetVocab k = .ok (some v)) →
            s1.calls.count (Call.GetVocab k)
              = s.calls.count (Call.GetVocab k) + (if k ∈ l.map (fun x => x.Id) then 1 else 0))
        ∧ (∀ k, k ∉ s.m.map (fun kv => kv.1) → d.storage.GetVocab k = .ok none →
            s1.calls.count (Call.GetVocab k)
              = s.calls.count (Call.GetVocab k) + (l.map (fun x => x.Id)).count k)
        ∧ (∀ c ∈ s1.calls, c ∈ s.calls ∨ ∃ k, c = Call.GetVocab k) := by
  intro l
  induction l with
  | nil =>
    intro s _ hk hnd _
    exact ⟨s, rfl, hk, hnd, by simp, fun _ _ => rfl, by simp, by simp, fun c hc => Or.inl hc⟩
  | cons x rest ih =>
    intro s hne hk hnd hfound
    have hne1 : ∀ y ∈ rest, ∀ err, d.storage.GetVocab y.Id ≠ .error err :=
      fun y hy => hne y (List.mem_cons_of_mem _ hy)
    cases hget : goMapGet s.m x.Id with
    | some w =>
      have hxin : x.Id ∈ s.m.map (fun kv => kv.1) := by
        by_contra hc
        rw [(goMapGet_eq_none_iff s.m x.Id).mpr hc] at hget
        cases hget
      have hkeys := forms_keys clock x.Id x.Forms s
      have hcalls := forms_calls clock x.Id x.Forms s
      obtain ⟨s1, h1, h2, h3, h4, h5, h6, h7, h8⟩ := ih
        (Dictionary.RegisterProgress.forms clock x.Id x.Forms s) hne1
        (forms_keyed clock x.Id x.Forms s hk) (by rw [hkeys]; exact hnd)
        (by rw [hkeys]; exact hfound)
      rw [hkeys] at h4 h5 h6 h7
      rw [hcalls] at h5 h6 h7 h8
      refine ⟨s1, ?_, h2, h3, ?_, h5, ?_, ?_, h8⟩
      · simp only [Dictionary.RegisterProgress.loop, hget]
        exact h1
      · intro k
        rw [h4 k]
        constructor
        · rintro (h | ⟨h, hv⟩)
          · exact Or.inl h
          · exact Or.inr ⟨by simp only [List.map_cons]; exact List.mem_cons_of_mem _ h, hv⟩
        · rintro (h | ⟨h, hv⟩)
          · exact Or.inl h
          · simp only [List.map_cons, List.mem_cons] at h
            rcases h with h | h
            · exact Or.inl (h ▸ hxin)
            · exact Or.inr ⟨h, hv⟩
      · intro k hkn hv
        have hkx : k ≠ x.Id := fun h => hkn (h ▸ hxin)
        rw [h6 k hkn hv]
        simp [hkx]
      · intro k hkn hv
        have hkx : x.Id ≠ k := fun h => hkn (h ▸ hxin)
        rw [h7 k hkn hv]
        simp [List.count_cons, hkx]
    | none =>
      have hxout : x.Id ∉ s.m.map (fun kv => kv.1) := (goMapGet_eq_none_iff s.m x.Id).mp hget
      cases hstore : d.storage.GetVocab x.Id with
      | error err => exact absurd hstore (hne x (List.mem_cons_self _ _) err)
      | ok found =>
        cases found with
        | none =>
          obtain ⟨s1, h1, h2, h3, h4, h5, h6, h7, h8⟩ := ih
            { s with calls := s.calls ++ [Call.GetVocab x.Id] } hne1 hk hnd hfound
          simp only [count_GetVocab_append_singleton] at h5 h6 h7
          refine ⟨s1, ?_, h2, h3, ?_, ?_, ?_, ?_, ?_⟩
          · simp only [Dictionary.RegisterProgress.loop, hget, hstore]
            exact h1
          · intro k
            rw [h4 k]
            constructor
            · rintro (h | ⟨h, hv⟩)
              · exact Or.inl h
              · exact Or.inr ⟨by simp only [List.map_cons]; exact List.mem_cons_of_mem _ h, hv⟩
            · rintro (h | ⟨h, hv⟩)
              · exact Or.inl h
              · simp only [List.map_cons, List.mem_cons] at h
                rcases h with h | h
                · obtain ⟨v, hv⟩ := hv
                  rw [h, hstore] at hv
                  cases hv
                · exact Or.inr ⟨h, hv⟩
          · intro k hkin
            have hkx : k ≠ x.Id := fun h => hxout (h ▸ hkin)
            rw [h5 k hkin]
            simp [hkx]
          · intro k hkn hv
            have hkx : k ≠ x.Id := by
              intro h
              obtain ⟨v, hv⟩ := hv
              rw [h, hstore] at hv
              cases hv
            rw [h6 k hkn hv]
            simp [hkx]
          · intro k hkn hv
            rw [h7 k hkn hv]
            by_cases hkx : k = x.Id
            · subst hkx
              simp [List.count_cons]
              omega
            · simp [List.count_cons, hkx, Ne.symm hkx]
          · intro c hc
            rcases h8 c hc with h | h
            · simp only [List.mem_append, List.mem_singleton] at h
              rcases h with h | h
              · exact Or.inl h
              · exact Or.inr ⟨x.Id, h⟩
            · exact Or.inr h
        | some v =>
          have hkeys0 := keys_goMapSet_none s.m x.Id v hget
          have hkeys := forms_keys clock x.Id x.Forms
            { s with calls := s.calls ++ [Call.GetVocab x.Id], m := goMapSet s.m x.Id v }
          have hcalls := forms_calls clock x.Id x.Forms
            { s with calls := s.calls ++ [Call.GetVocab x.Id], m := goMapSet s.m x.Id v }
          simp only at hkeys hcalls
          rw [hkeys0] at hkeys
          obtain ⟨s1, h1, h2, h3, h4, h5, h6, h7, h8⟩ := ih
            (Dictionary.RegisterProgress.forms clock x.Id x.Forms
              { s with calls := s.calls ++ [Call.GetVocab x.Id], m := goMapSet s.m x.Id v })
            hne1
            (forms_keyed clock x.Id x.Forms _ (by
              intro e he
              rcases mem_goMapSet _ _ _ _ he with h | h
              · exact hk e h
              · subst h; exact hkeyed _ _ hstore))
            (by
              rw [hkeys]
              exact List.Nodup.append hnd (List.nodup_singleton _) (by simpa using hxout))
            (by
              rw [hkeys]
              intro k hkin
              simp only [List.mem_append, List.mem_singleton] at hkin
              rcases hkin with h | h
              · exact hfound k h
              · exact ⟨v, h ▸ hstore⟩)
          rw [hkeys] at h4 h5 h6 h7
          rw [hcalls] at h5 h6 h7 h8
          simp only [count_GetVocab_append_singleton] at h5 h6 h7
          simp only [List.mem_append, List.mem_singleton] at h4 h5 h6 h7
          refine ⟨s1, ?_, h2, h3, ?_, ?_, ?_, ?_, ?_⟩
          · simp only [Dictionary.RegisterProgress.loop, hget, hstore]
            exact h1
          · intro k
            rw [h4 k]
            constructor
            · rintro ((h | h) | ⟨h, hv⟩)
              · exact Or.inl h
              · exact Or.inr ⟨by simp [h], ⟨v, h ▸ hstore⟩⟩
              · exact Or.inr ⟨by simp only [List.map_cons]; exact List.mem_cons_of_mem _ h, hv⟩
            · rintro (h | ⟨h, hv⟩)
              · exact Or.inl (Or.inl h)
              · simp only [List.map_cons, List.mem_cons] at h
                rcases h with h | h
                · exact Or.inl (Or.inr h)
                · exact Or.inr ⟨h, hv⟩
          · intro k hkin
            have hkx : k ≠ x.Id := fun h => hxout (h ▸ hkin)
            rw [h5 k (Or.inl hkin)]
            simp [hkx]
          · intro k hkn hv
            by_cases hkx : k = x.Id
            · rw [h5 k (Or.inr hkx)]
              simp [hkx]
            · rw [h6 k (by rintro (h | h); exact hkn h; exact hkx h) hv]
              simp [hkx]
          · intro k hkn hv
            have hkx : k ≠ x.Id := by
              intro h
              rw [h, hstore] at hv
              cases hv
            rw [h7 k (by rintro (h | h); exact hkn h; exact hkx h) hv]
            simp [List.count_cons, hkx, Ne.symm hkx]
          · intro c hc
            rcases h8 c hc with h | h
            · simp only [List.mem_append, List.mem_singleton] at h
              rcases h with h | h
              · exact Or.inl h
              · exact Or.inr ⟨x.Id, h⟩
            · exact Or.inr h

theorem writesFor_append (id : UUID) (xs ys : List Call) :
    writesFor id (xs ++ ys) = writesFor id xs ++ writesFor id ys := by
  unfold writesFor
  rw [List.filterMap_append]

theorem writesFor_fetches (id : UUID) (calls : List Call)
    (h : ∀ c ∈ calls, ∃ k, c = Call.GetVocab k) : writesFor id calls = [] := by
  induction calls with
  | nil => rfl
  | cons c rest ih =>
    obtain ⟨k, hk⟩ := h c (List.mem_cons_self _ _)
    have hrest := ih (fun c1 hc1 => h c1 (List.mem_cons_of_mem _ hc1))
    unfold writesFor at hrest ⊢
    subst hk
    simp [List.filterMap_cons, hrest]

theorem writesFor_map_length (id : UUID) (m : List (UUID × Vocab))
    (hk : ∀ e ∈ m, e.2.Id = e.1) :
    (writesFor id (m.map (fun kv => Call.AddVocabulary kv.2))).length
      = (m.map (fun kv => kv.1)).count id := by
  induction m with
  | nil => rfl
  | cons e rest ih =>
    have hrest := ih (fun e1 he1 => hk e1 (List.mem_cons_of_mem _ he1))
    have he := hk e (List.mem_cons_self _ _)
    unfold writesFor at hrest ⊢
    simp only [List.map_cons, List.filterMap_cons, List.count_cons, he]
    by_cases hid : e.1 = id
    · simp only [hid, if_true, List.length_cons, hrest, beq_self_eq_true]
    · have hb : (e.1 == id) = false := by simpa using hid
      simp only [hid, if_false, hrest, hb, Nat.add_zero]
      rfl

theorem count_GetVocab_writes (k : UUID) (m : List (UUID × Vocab)) :
    (m.map (fun kv => Call.AddVocabulary kv.2)).count (Call.GetVocab k) = 0 := by
  rw [List.count_eq_zero]
  intro h
  simp only [List.mem_map] at h
  obtain ⟨e, _, he⟩ := h
  cases he

theorem RegisterProgress_calls_of_loop (d : Dictionary) (clock : Nat → Time)
    (a b : List Vocab) (s1 : progressState)
    (h : Dictionary.RegisterProgress.loop d clock (a ++ b) ⟨[], [], 0⟩ = (s1, none)) :
    (d.RegisterProgress clock a b).calls
      = s1.calls ++ s1.m.map (fun kv => Call.AddVocabulary kv.2) := by
  rw [RegisterProgress_eq, h]
  dsimp only
  split <;> rfl

/-- C5 (as amended): in a call of `RegisterProgress` in which no fetch fails, against a
store whose items carry the id they are stored under, every item id named in the two
lists that the store finds is fetched exactly once and written exactly once, however
often and in whichever list it occurs; an id the store reports as not found is fetched
once per occurrence and never written. -/
theorem C5_one_fetch_one_write_per_found_id (d : Dictionary) (clock : Nat → Time)
    (a b : List Vocab)
    (hkeyed : ∀ id v, d.storage.GetVocab id = .ok (some v) → v.Id = id)
    (hnoerr : ∀ x ∈ a ++ b, ∀ err, d.storage.GetVocab x.Id ≠ .error err) :
    ∀ id ∈ (a ++ b).map (fun x => x.Id),
      ((∃ v, d.storage.GetVocab id = .ok (some v)) →
        (d.RegisterProgress clock a b).calls.count (Call.GetVocab id) = 1
          ∧ (writesFor id (d.RegisterProgress clock a b).calls).length = 1)
      ∧ (d.storage.GetVocab id = .ok none →
        (d.RegisterProgress clock a b).calls.count (Call.GetVocab id)
            = ((a ++ b).map (fun x => x.Id)).count id
          ∧ writesFor id (d.RegisterProgress clock a b).calls = []) := by
  intro id hid
  obtain ⟨s1, h1, h2, h3, h4, _, h6, h7, h8⟩ := RegisterProgress_loop_spec d clock hkeyed
    (a ++ b) ⟨[], [], 0⟩ hnoerr (by simp) (by simp) (by simp)
  have hcalls := RegisterProgress_calls_of_loop d clock a b s1 h1
  have hfetches : ∀ c ∈ s1.calls, ∃ k, c = Call.GetVocab k := by
    intro c hc
    rcases h8 c hc with h | h
    · simp at h
    · exact h
  have hw : (writesFor id (d.RegisterProgress clock a b).calls).length
      = (s1.m.map (fun kv => kv.1)).count id := by
    rw [hcalls, writesFor_append, writesFor_fetches id s1.calls hfetches, List.nil_append,
      writesFor_map_length id s1.m h2]
  have hc : (d.RegisterProgress clock a b).calls.count (Call.GetVocab id)
      = s1.calls.count (Call.GetVocab id) := by
    rw [hcalls, List.count_append, count_GetVocab_writes, Nat.add_zero]
  constructor
  · intro hv
    constructor
    · rw [hc, h6 id (by simp) hv, if_pos hid]
      rfl
    · rw [hw]
      exact List.count_eq_one_of_mem h3 ((h4 id).mpr (Or.inr ⟨hid, hv⟩))
  · intro hv
    constructor
    · rw [hc, h7 id (by simp) hv]
      simp
    · apply List.eq_nil_of_length_eq_zero
      rw [hw, List.count_eq_zero, h4 id]
      rintro (h | ⟨_, v, hv1⟩)
      · simp at h
      · rw [hv] at hv1
        cases hv1

/-- C5 witness: item 1 (found) is named twice in the first list and once in the second,
item 2 (not found) once in each list.  Item 1 is fetched once and written once; item 2
is fetched twice and never written. -/
theorem C5_one_fetch_one_write_per_found_id_witness :
    ((pairDict.RegisterProgress sampleClock [named 1 [10], named 2 [], named 1 []]
          [named 2 [], named 1 [10]]).calls.count (Call.GetVocab 1) = 1
      ∧ (writesFor 1 (pairDict.RegisterProgress sampleClock
          [named 1 [10], named 2 [], named 1 []] [named 2 [], named 1 [10]]).calls).length = 1)
    ∧ ((pairDict.RegisterProgress sampleClock [named 1 [10], named 2 [], named 1 []]
          [named 2 [], named 1 [10]]).calls.count (Call.GetVocab 2)
          = (([named 1 [10], named 2 [], named 1 []] ++ [named 2 [], named 1 [10]]).map
              (fun x => x.Id)).count 2
      ∧ writesFor 2 (pairDict.RegisterProgress sampleClock
          [named 1 [10], named 2 [], named 1 []] [named 2 [], named 1 [10]]).calls = []) :=
  have key := C5_one_fetch_one_write_per_found_id pairDict sampleClock
    [named 1 [10], named 2 [], named 1 []] [named 2 [], named 1 [10]]
    (by
      intro id v h
      unfold pairDict at h
      dsimp only at h
      split at h
      · rename_i h1
        injection h with h
        injection h with h
        rw [← h, h1]; rfl
      · cases h)
    (by
      intro x _ err h
      unfold pairDict at h
      dsimp only at h
      split at h <;> cases h)
  ⟨(key 1 (by decide)).1 ⟨sampleVocab 1 [sampleForm 10 0 0], rfl⟩, (key 2 (by decide)).2 rfl⟩

/-- C5 as stated fails in two ways.  (1) An id the store does not find is fetched at
every occurrence: item 2, named twice, is fetched twice.  (2) When a fetch fails the call
returns at once: item 1 was found, yet nothing is written for it. -/
theorem C5_counterexample :
    (progressDict.RegisterProgress sampleClock [named 2 [], named 2 []] []).calls
        = [Call.GetVocab 2, Call.GetVocab 2]
    ∧ (progressDict.RegisterProgress sampleClock [named 1 [10]] [named 3 []]).calls
        = [Call.GetVocab 1, Call.GetVocab 3] := by
  constructor <;> decide

theorem UpdateFormSuccess_loop_ids (g : VocabForm) (now : Time) (xs : List VocabForm) :
    (Vocab.UpdateFormSuccess.loop g now xs).map (fun x => x.Id) = xs.map (fun x => x.Id) := by
  induction xs with
  | nil => rfl
  | cons x rest ih =>
    unfold Vocab.UpdateFormSuccess.loop
    split
    · simp [UpdateFormSuccess_body_Id]
    · simp [ih]

theorem UpdateFormSuccess_loop_append_hit (g : VocabForm) (now : Time)
    (xs ys : List VocabForm) (h : ∃ x ∈ xs, x.Id = g.Id) :
    Vocab.UpdateFormSuccess.loop g now (xs ++ ys)
      = Vocab.UpdateFormSuccess.loop g now xs ++ ys := by
  induction xs with
  | nil => simp at h
  | cons x rest ih =>
    by_cases hx : x.Id = g.Id
    · simp [Vocab.UpdateFormSuccess.loop, hx]
    · have hrest : ∃ y ∈ rest, y.Id = g.Id := by
        obtain ⟨y, hy, hyid⟩ := h
        simp only [List.mem_cons] at hy
        rcases hy with hy | hy
        · exact absurd (hy ▸ hyid) hx
        · exact ⟨y, hy, hyid⟩
      simp [Vocab.UpdateFormSuccess.loop, hx, ih hrest]

theorem UpdateFormSuccess_loop_append_miss (g : VocabForm) (now : Time)
    (xs ys : List VocabForm) (h : ∀ x ∈ xs, x.Id ≠ g.Id) :
    Vocab.UpdateFormSuccess.loop g now (xs ++ ys)
      = xs ++ Vocab.UpdateFormSuccess.loop g now ys := by
  induction xs with
  | nil => rfl
  | cons x rest ih =>
    have hx : x.Id ≠ g.Id := h x (List.mem_cons_self _ _)
    have hrest : ∀ y ∈ rest, y.Id ≠ g.Id := fun y hy => h y (List.mem_cons_of_mem _ hy)
    simp [Vocab.UpdateFormSuccess.loop, hx, ih hrest]

theorem body_foldl_Id (ts : List Time) :
    ∀ f : VocabForm,
      (ts.foldl (fun acc now => Vocab.UpdateFormSuccess.body acc now) f).Id = f.Id := by
  induction ts with
  | nil => intro f; rfl
  | cons t rest ih => intro f; simp only [List.foldl_cons]; rw [ih, UpdateFormSuccess_body_Id]

theorem ids_no_match (pre pre1 : List VocabForm) (id : UUID)
    (hids : pre1.map (fun x => x.Id) = pre.map (fun x => x.Id))
    (h : ∀ x ∈ pre, x.Id ≠ id) : ∀ x ∈ pre1, x.Id ≠ id := by
  intro x hx hxid
  have hm : x.Id ∈ pre1.map (fun x => x.Id) := List.mem_map.mpr ⟨x, hx, rfl⟩
  rw [hids] at hm
  obtain ⟨y, hy, hyid⟩ := List.mem_map.mp hm
  exact h y hy (hyid.trans hxid)

theorem successesApplied_step (pre : List VocabForm) (f : VocabForm)
    (hfirst : ∀ x ∈ pre, x.Id ≠ f.Id) (n : Nat) (w : Vocab) (g : VocabForm) (now : Time)
    (h : successesApplied pre f n w) :
    successesApplied pre f (n + if g.Id = f.Id then 1 else 0) (w.UpdateFormSuccess g now) := by
  obtain ⟨pre1, post1, ts, hforms, hids, hlen⟩ := h
  by_cases hg : g.Id = f.Id
  · have hmiss : ∀ x ∈ pre1, x.Id ≠ g.Id := by
      rw [hg]; exact ids_no_match pre pre1 f.Id hids hfirst
    refine ⟨pre1, post1, ts ++ [now], ?_, hids, by simp [hg, hlen]⟩
    simp only [Vocab.UpdateFormSuccess, hforms]
    rw [UpdateFormSuccess_loop_split g now pre1 post1 _ hmiss (by rw [body_foldl_Id, hg])]
    simp [List.foldl_append]
  · simp only [hg, if_false, Nat.add_zero]
    by_cases hhit : ∃ x ∈ pre1, x.Id = g.Id
    · refine ⟨Vocab.UpdateFormSuccess.loop g now pre1, post1, ts, ?_, ?_, hlen⟩
      · simp only [Vocab.UpdateFormSuccess, hforms]
        exact UpdateFormSuccess_loop_append_hit g now pre1 _ hhit
      · rw [UpdateFormSuccess_loop_ids, hids]
    · have hmiss : ∀ x ∈ pre1, x.Id ≠ g.Id := by
        intro x hx hxid; exact hhit ⟨x, hx, hxid⟩
      refine ⟨pre1, Vocab.UpdateFormSuccess.loop g now post1, ts, ?_, hids, hlen⟩
      simp only [Vocab.UpdateFormSuccess, hforms]
      rw [UpdateFormSuccess_loop_append_miss g now pre1 _ hmiss]
      have hne : ¬ ((ts.foldl (fun acc now => Vocab.UpdateFormSuccess.body acc now) f).Id
          = g.Id) := by
        rw [body_foldl_Id]; exact fun h => hg h.symm
      simp [Vocab.UpdateFormSuccess.loop, hne]

theorem forms_successesApplied (clock : Nat → Time) (k : UUID) (pre : List VocabForm)
    (f : VocabForm) (hfirst : ∀ x ∈ pre, x.Id ≠ f.Id) (forms : List VocabForm) :
    ∀ (s : progressState) (w : Vocab) (n : Nat), goMapGet s.m k = some w →
      successesApplied pre f n w →
      ∃ w1, goMapGet (Dictionary.RegisterProgress.forms clock k forms s).m k = some w1
        ∧ successesApplied pre f (n + forms.countP (fun g => g.Id = f.Id)) w1 := by
  unfold Dictionary.RegisterProgress.forms
  induction forms with
  | nil => intro s w n hget h; exact ⟨w, hget, by simpa using h⟩
  | cons g rest ih =>
    intro s w n hget h
    simp only [List.foldl_cons]
    have hbody : goMapGet (Dictionary.RegisterProgress.forms.body clock k s g).m k
        = some (w.UpdateFormSuccess g (clock s.tick)) := by
      unfold Dictionary.RegisterProgress.forms.body
      rw [hget]
      exact goMapGet_goMapSet_self _ _ _
    obtain ⟨w1, h1, h2⟩ := ih _ _ _ hbody
      (successesApplied_step pre f hfirst n w g (clock s.tick) h)
    refine ⟨w1, h1, ?_⟩
    have hcount : n + (if g.Id = f.Id then 1 else 0) + rest.countP (fun g => g.Id = f.Id)
        = n + (g :: rest).countP (fun g => g.Id = f.Id) := by
      by_cases hg : g.Id = f.Id
      · simp [List.countP_cons, hg]; omega
      · simp [List.countP_cons, hg]
    rw [← hcount]
    exact h2

theorem namings_cons (k fid : UUID) (x : Vocab) (rest : List Vocab) :
    namings k fid (x :: rest)
      = (if x.Id = k then x.Forms.countP (fun g => g.Id = fid) else 0) + namings k fid rest := by
  unfold namings
  by_cases h : x.Id = k
  · simp [List.filter_cons, h]
  · simp [List.filter_cons, h]

theorem RegisterProgress_loop_successesApplied (d : Dictionary) (clock : Nat → Time)
    (k : UUID) (v : Vocab) (hstored : d.storage.GetVocab k = .ok (some v))
    (pre post : List VocabForm) (f : VocabForm) (hforms : v.Forms = pre ++ f :: post)
    (hfirst : ∀ x ∈ pre, x.Id ≠ f.Id) :
    ∀ (l : List Vocab) (s s1 : progressState),
      Dictionary.RegisterProgress.loop d clock l s = (s1, none) →
      (∀ w n, goMapGet s.m k = some w → successesApplied pre f n w →
        ∃ w1, goMapGet s1.m k = some w1
          ∧ successesApplied pre f (n + namings k f.Id l) w1)
      ∧ (goMapGet s.m k = none → k ∈ l.map (fun x => x.Id) →
        ∃ w1, goMapGet s1.m k = some w1 ∧ successesApplied pre f (namings k f.Id l) w1) := by
  intro l
  induction l with
  | nil =>
    intro s s1 hloop
    simp only [Dictionary.RegisterProgress.loop, Prod.mk.injEq, and_true] at hloop
    subst hloop
    refine ⟨fun w n hget h => ⟨w, hget, by simpa [namings] using h⟩, fun _ hk => ?_⟩
    simp at hk
  | cons x rest ih =>
    intro s s1 hloop
    rw [namings_cons]
    unfold Dictionary.RegisterProgress.loop at hloop
    cases hget : goMapGet s.m x.Id with
    | some w0 =>
      rw [hget] at hloop
      dsimp only at hloop
      obtain ⟨ihA, ihB⟩ := ih _ _ hloop
      by_cases hx : x.Id = k
      · rw [if_pos hx]
        constructor
        · intro w n hw h
          obtain ⟨w1, h1, h2⟩ := forms_successesApplied clock k pre f hfirst x.Forms s w n hw h
          rw [hx] at ihA
          obtain ⟨w2, h3, h4⟩ := ihA w1 _ h1 h2
          exact ⟨w2, h3, by rw [← Nat.add_assoc]; exact h4⟩
        · intro hnone _
          rw [hx, hnone] at hget
          cases hget
      · rw [if_neg hx, Nat.zero_add]
        have hother := forms_get_other clock x.Id k x.Forms (Ne.symm hx) s
        constructor
        · intro w n hw h
          exact ihA w n (by rw [hother]; exact hw) h
        · intro hnone hk
          simp only [List.map_cons, List.mem_cons] at hk
          rcases hk with hk | hk
          · exact absurd hk.symm hx
          · exact ihB (by rw [hother]; exact hnone) hk
    | none =>
      rw [hget] at hloop
      dsimp only at hloop
      cases hstore : d.storage.GetVocab x.Id with
      | error err =>
        rw [hstore] at hloop
        simp at hloop
      | ok found =>
        rw [hstore] at hloop
        cases found with
        | none =>
          dsimp only at hloop
          have hx : x.Id ≠ k := by
            intro h
            rw [h, hstored] at hstore
            cases hstore
          rw [if_neg hx, Nat.zero_add]
          obtain ⟨ihA, ihB⟩ := ih _ _ hloop
          constructor
          · intro w n hw h
            exact ihA w n hw h
          · intro hnone hk
            simp only [List.map_cons, List.mem_cons] at hk
            rcases hk with hk | hk
            · exact absurd hk.symm hx
            · exact ihB hnone hk
        | some v0 =>
          dsimp only at hloop
          obtain ⟨ihA, ihB⟩ := ih _ _ hloop
          by_cases hx : x.Id = k
          · rw [if_pos hx]
            constructor
            · intro w n hw _
              rw [hx, hw] at hget
              cases hget
            · intro _ _
              have hv : v0 = v := by
                rw [hx, hstored] at hstore
                injection hstore with hstore
                injection hstore with hstore
                exact hstore.symm
              subst hv
              have h0 : successesApplied pre f 0 v0 := ⟨pre, post, [], hforms, rfl, rfl⟩
              rw [hx] at ihA
              obtain ⟨w1, h1, h2⟩ := forms_successesApplied clock k pre f hfirst x.Forms
                { s with calls := s.calls ++ [Call.GetVocab k], m := goMapSet s.m k v0 }
                v0 0 (goMapGet_goMapSet_self _ _ _) h0
              obtain ⟨w2, h3, h4⟩ := ihA w1 _ h1 h2
              rw [Nat.zero_add] at h4
              exact ⟨w2, h3, h4⟩
          · rw [if_neg hx, Nat.zero_add]
            have hother := forms_get_other clock x.Id k x.Forms (Ne.symm hx)
              { s with calls := s.calls ++ [Call.GetVocab x.Id], m := goMapSet s.m x.Id v0 }
            rw [goMapGet_goMapSet_other s.m x.Id k v0 (Ne.symm hx)] at hother
            constructor
            · intro w n hw h
              exact ihA w n (by rw [hother]; exact hw) h
            · intro hnone hk
              simp only [List.map_cons, List.mem_cons] at hk
              rcases hk with hk | hk
              · exact absurd hk.symm hx
              · exact ihB (by rw [hother]; exact hnone) hk

theorem writesFor_map_eq (k : UUID) (w : Vocab) (m : List (UUID × Vocab))
    (hk : ∀ e ∈ m, e.2.Id = e.1) (hnd : (m.map (fun kv => kv.1)).Nodup)
    (hget : goMapGet m k = some w) :
    writesFor k (m.map (fun kv => Call.AddVocabulary kv.2)) = [w] := by
  induction m with
  | nil => simp [goMapGet] at hget
  | cons e rest ih =>
    obtain ⟨k1, v1⟩ := e
    have hrestk : ∀ e1 ∈ rest, e1.2.Id = e1.1 := fun e1 he1 => hk e1 (List.mem_cons_of_mem _ he1)
    have he : v1.Id = k1 := hk (k1, v1) (List.mem_cons_self _ _)
    simp only [List.map_cons, List.nodup_cons] at hnd
    by_cases hk1 : k1 = k
    · simp only [goMapGet, hk1, if_true, Option.some.injEq] at hget
      have hrest : writesFor k (rest.map (fun kv => Call.AddVocabulary kv.2)) = [] := by
        apply List.eq_nil_of_length_eq_zero
        rw [writesFor_map_length k rest hrestk, List.count_eq_zero]
        rw [← hk1]; exact hnd.1
      subst hget
      subst hk1
      unfold writesFor at hrest ⊢
      simp only [List.map_cons, List.filterMap_cons, he, if_true, hrest]
    · simp only [goMapGet, hk1, if_false] at hget
      have hrest := ih hrestk hnd.2 hget
      unfold writesFor at hrest ⊢
      simp only [List.map_cons, List.filterMap_cons, he, hk1, if_false, hrest]

/-- C4 (as amended): in a call of `RegisterProgress` in which no fetch fails, against a
store whose items carry the id they are stored under, the success update is applied to a
stored form once for every naming of its (item id, form id) pair across both lists, not
once per pair: exactly one item is written for the item id, and in it the form stands at
its stored position after as many success steps as there are namings.  A pair named in
both lists is therefore advanced by two success steps. -/
theorem C4_success_applied_per_naming (d : Dictionary) (clock : Nat → Time)
    (a b : List Vocab) (k : UUID) (v : Vocab) (pre post : List VocabForm) (f : VocabForm)
    (hkeyed : ∀ id v, d.storage.GetVocab id = .ok (some v) → v.Id = id)
    (hnoerr : ∀ x ∈ a ++ b, ∀ err, d.storage.GetVocab x.Id ≠ .error err)
    (hstored : d.storage.GetVocab k = .ok (some v))
    (hforms : v.Forms = pre ++ f :: post) (hfirst : ∀ x ∈ pre, x.Id ≠ f.Id)
    (hnamed : k ∈ (a ++ b).map (fun x => x.Id)) :
    ∃ (w : Vocab) (ts : List Time),
      writesFor k (d.RegisterProgress clock a b).calls = [w]
      ∧ ts.length = namings k f.Id (a ++ b)
      ∧ w.Forms[pre.length]?
          = some (ts.foldl (fun acc now => Vocab.UpdateFormSuccess.body acc now) f) := by
  obtain ⟨s1, h1, h2, h3, _, _, _, _, h8⟩ := RegisterProgress_loop_spec d clock hkeyed
    (a ++ b) ⟨[], [], 0⟩ hnoerr (by simp) (by simp) (by simp)
  have hcalls := RegisterProgress_calls_of_loop d clock a b s1 h1
  have hfetches : ∀ c ∈ s1.calls, ∃ k, c = Call.GetVocab k := by
    intro c hc
    rcases h8 c hc with h | h
    · simp at h
    · exact h
  obtain ⟨w, hw, pre1, post1, ts, hwf, hids, hlen⟩ :=
    (RegisterProgress_loop_successesApplied d clock k v hstored pre post f hforms hfirst
      (a ++ b) ⟨[], [], 0⟩ s1 h1).2 rfl hnamed
  refine ⟨w, ts, ?_, hlen, ?_⟩
  · rw [hcalls, writesFor_append, writesFor_fetches k s1.calls hfetches, List.nil_append]
    exact writesFor_map_eq k w s1.m h2 h3 hw
  · have hl : pre1.length = pre.length := by
      have := congrArg List.length hids
      simpa using this
    rw [hwf, ← hl, List.getElem?_append_right (Nat.le_refl _), Nat.sub_self]
    exact List.getElem?_cons_zero

/-- C4 witness: item 1 with its form 10 (level 0, streak 0) is named once in each list. -/
theorem C4_success_applied_per_naming_witness :
    ∃ (w : Vocab) (ts : List Time),
      writesFor 1 (pairDict.RegisterProgress sampleClock [named 1 [10]] [named 1 [10]]).calls
        = [w]
      ∧ ts.length = namings 1 (sampleForm 10 0 0).Id ([named 1 [10]] ++ [named 1 [10]])
      ∧ w.Forms[([] : List VocabForm).length]?
          = some (ts.foldl (fun acc now => Vocab.UpdateFormSuccess.body acc now)
              (sampleForm 10 0 0)) :=
  C4_success_applied_per_naming pairDict sampleClock [named 1 [10]] [named 1 [10]] 1
    (sampleVocab 1 [sampleForm 10 0 0]) [] [] (sampleForm 10 0 0)
    (by
      intro id v h
      unfold pairDict at h
      dsimp only at h
      split at h
      · rename_i h1
        injection h with h
        injection h with h
        rw [← h, h1]; rfl
      · cases h)
    (by
      intro x _ err h
      unfold pairDict at h
      dsimp only at h
      split at h <;> cases h)
    rfl rfl (by simp) (by decide)

/-- C4 as stated fails: with the pair (item 1, form 10) named once in each list, the item
written carries streak 2 for that form, while one success step on the stored item gives
streak 1. -/
theorem C4_counterexample :
    (writesFor 1 (pairDict.RegisterProgress sampleClock [named 1 [10]]
        [named 1 [10]]).calls).map (fun w => w.Forms.map (fun x => x.SuccessInRow)) = [[2]]
    ∧ ((sampleVocab 1 [sampleForm 10 0 0]).UpdateFormSuccess (sampleForm 10 0 0)
        (sampleClock 0)).Forms.map (fun x => x.SuccessInRow) = [1] := by
  constructor <;> decide

/-! ## Theorems: one mastery update -/

theorem UpdateFormError_body_Id (f : VocabForm) :
    (Vocab.UpdateFormError.body f).Id = f.Id := rfl

theorem UpdateFormError_loop_split (g : VocabForm) (pre post : List VocabForm)
    (f : VocabForm) (hpre : ∀ x ∈ pre, x.Id ≠ g.Id) (hf : f.Id = g.Id) :
    Vocab.UpdateFormError.loop g (pre ++ f :: post)
      = pre ++ Vocab.UpdateFormError.body f :: post := by
  induction pre with
  | nil => simp [Vocab.UpdateFormError.loop, hf]
  | cons x xs ih =>
    have hx : x.Id ≠ g.Id := hpre x (List.mem_cons_self _ _)
    have hxs : ∀ y ∈ xs, y.Id ≠ g.Id := fun y hy => hpre y (List.mem_cons_of_mem _ hy)
    simp [Vocab.UpdateFormError.loop, hx, ih hxs]

/-- C13 (as amended): for an item and a form `f` of it that is the first form carrying
its id, whose streak and level are Go `int`s below the largest one, one
`UpdateFormSuccess` for `f` at time `now` leaves every other form as it was, sets the
`lastSuccess` of `f` to `now` and raises its streak by one; if the raised streak is at
least 7 the streak becomes 0 and the level `min (level + 1) 5`, otherwise the level is
unchanged.  Id, value and tag of `f` stay. -/
theorem C13_one_success_step (v : Vocab) (pre post : List VocabForm) (f g : VocabForm)
    (now : Time) (hforms : v.Forms = pre ++ f :: post) (hfirst : ∀ x ∈ pre, x.Id ≠ f.Id)
    (hg : g.Id = f.Id) (hstreak : isInt64 f.SuccessInRow) (hsmax : f.SuccessInRow ≠ maxInt)
    (hlevel : isInt64 f.Level) (hlmax : f.Level ≠ maxInt) :
    ∃ f1 : VocabForm, (v.UpdateFormSuccess g now).Forms = pre ++ f1 :: post
      ∧ f1.LastSuccess = now
      ∧ (f.SuccessInRow + 1 ≥ 7 → f1.SuccessInRow = 0 ∧ f1.Level = min (f.Level + 1) 5)
      ∧ (f.SuccessInRow + 1 < 7 → f1.SuccessInRow = f.SuccessInRow + 1 ∧ f1.Level = f.Level)
      ∧ f1.Id = f.Id ∧ f1.Value = f.Value ∧ f1.Form = f.Form := by
  have hpre : ∀ x ∈ pre, x.Id ≠ g.Id := fun x hx => hg ▸ hfirst x hx
  refine ⟨Vocab.UpdateFormSuccess.body f now, ?_, ?_⟩
  · simp only [Vocab.UpdateFormSuccess, hforms]
    exact UpdateFormSuccess_loop_split g now pre post f hpre hg.symm
  · have hs : wrapInt (f.SuccessInRow + 1) = f.SuccessInRow + 1 :=
      wrapInt_of_isInt64 _ (by unfold isInt64 maxInt at *; omega)
    have hl : wrapInt (f.Level + 1) = f.Level + 1 :=
      wrapInt_of_isInt64 _ (by unfold isInt64 maxInt at *; omega)
    unfold Vocab.UpdateFormSuccess.body
    dsimp only
    rw [hs, hl]
    by_cases h7 : f.SuccessInRow + 1 ≥ 7
    · rw [if_pos h7]
      exact ⟨rfl, fun _ => ⟨rfl, rfl⟩, fun h => absurd h (by omega), rfl, rfl, rfl⟩
    · rw [if_neg h7]
      exact ⟨rfl, fun h => absurd h h7, fun _ => ⟨rfl, rfl⟩, rfl, rfl, rfl⟩

/-- C13 witness: a form at level 2 with streak 6, between two other forms. -/
theorem C13_one_success_step_witness :
    ∃ f1 : VocabForm,
      ((sampleVocab 1 [sampleForm 10 0 0, sampleForm 11 2 6, sampleForm 12 0 0]).UpdateFormSuccess
          (sampleForm 11 0 0) 77).Forms = [sampleForm 10 0 0] ++ f1 :: [sampleForm 12 0 0]
      ∧ f1.LastSuccess = 77
      ∧ ((sampleForm 11 2 6).SuccessInRow + 1 ≥ 7 →
          f1.SuccessInRow = 0 ∧ f1.Level = min ((sampleForm 11 2 6).Level + 1) 5)
      ∧ ((sampleForm 11 2 6).SuccessInRow + 1 < 7 →
          f1.SuccessInRow = (sampleForm 11 2 6).SuccessInRow + 1
            ∧ f1.Level = (sampleForm 11 2 6).Level)
      ∧ f1.Id = (sampleForm 11 2 6).Id ∧ f1.Value = (sampleForm 11 2 6).Value
      ∧ f1.Form = (sampleForm 11 2 6).Form :=
  C13_one_success_step
    (sampleVocab 1 [sampleForm 10 0 0, sampleForm 11 2 6, sampleForm 12 0 0])
    [sampleForm 10 0 0] [sampleForm 12 0 0] (sampleForm 11 2 6) (sampleForm 11 0 0) 77
    rfl (by decide) rfl (by decide) (by decide) (by decide) (by decide)

/-- C13 as stated fails in three ways.  (1) A streak at the largest Go `int` is not
raised by one: it wraps around to the smallest one.  (2) With streak 6 and the level at
the largest Go `int`, the level wraps around to the smallest one instead of becoming 5.
(3) Of two forms carrying the same id only the first is updated: the second keeps
streak 0 and its `lastSuccess`. -/
theorem C13_counterexample :
    (((sampleVocab 1 [sampleForm 10 0 maxInt]).UpdateFormSuccess (sampleForm 10 0 0)
        77).Forms.map (fun x => x.SuccessInRow) = [minInt])
    ∧ (((sampleVocab 1 [sampleForm 10 maxInt 6]).UpdateFormSuccess (sampleForm 10 0 0)
        77).Forms.map (fun x => (x.Level, x.SuccessInRow)) = [(minInt, 0)])
    ∧ (((sampleVocab 1 [sampleForm 10 0 0, sampleForm 10 0 0]).UpdateFormSuccess
        (sampleForm 10 0 0) 77).Forms.map (fun x => (x.SuccessInRow, x.LastSuccess))
          = [(1, 77), (0, 0)]) := by
  refine ⟨?_, ?_, ?_⟩ <;> decide

/-- C14 (as amended): for an item and a form `f` of it that is the first form carrying
its id, whose level is a Go `int` above the smallest one, `UpdateFormError` for `f`
leaves every other form as it was, sets the level of `f` to `max (level - 1) 0` and
leaves its streak, its `lastSuccess`, its id, its value and its tag unchanged. -/
theorem C14_one_error_step (v : Vocab) (pre post : List VocabForm) (f g : VocabForm)
    (hforms : v.Forms = pre ++ f :: post) (hfirst : ∀ x ∈ pre, x.Id ≠ f.Id)
    (hg : g.Id = f.Id) (hlevel : isInt64 f.Level) (hlmin : f.Level ≠ minInt) :
    (v.UpdateFormError g).Forms
      = pre ++ { f with Level := max (f.Level - 1) 0 } :: post := by
  have hpre : ∀ x ∈ pre, x.Id ≠ g.Id := fun x hx => hg ▸ hfirst x hx
  simp only [Vocab.UpdateFormError, hforms]
  rw [UpdateFormError_loop_split g pre post f hpre hg.symm]
  have hl : wrapInt (f.Level - 1) = f.Level - 1 :=
    wrapInt_of_isInt64 _ (by unfold isInt64 minInt at *; omega)
  unfold Vocab.UpdateFormError.body
  dsimp only
  rw [hl]

/-- C14 witness: a form at level 3 with streak 4, between two other forms. -/
theorem C14_one_error_step_witness :
    ((sampleVocab 1 [sampleForm 10 0 0, sampleForm 11 3 4, sampleForm 12 0 0]).UpdateFormError
        (sampleForm 11 0 0)).Forms
      = [sampleForm 10 0 0]
          ++ { sampleForm 11 3 4 with Level := max ((sampleForm 11 3 4).Level - 1) 0 }
            :: [sampleForm 12 0 0] :=
  C14_one_error_step (sampleVocab 1 [sampleForm 10 0 0, sampleForm 11 3 4, sampleForm 12 0 0])
    [sampleForm 10 0 0] [sampleForm 12 0 0] (sampleForm 11 3 4) (sampleForm 11 0 0)
    rfl (by decide) rfl (by decide) (by decide)

/-- C14 as stated fails in two ways.  (1) A level at the smallest Go `int` wraps around
to the largest one instead of becoming 0.  (2) Of two forms carrying the same id only the
first is updated: the second stays at level 3. -/
theorem C14_counterexample :
    (((sampleVocab 1 [sampleForm 10 minInt 0]).UpdateFormError (sampleForm 10 0 0)).Forms.map
        (fun x => x.Level) = [maxInt])
    ∧ (((sampleVocab 1 [sampleForm 10 3 0, sampleForm 10 3 0]).UpdateFormError
        (sampleForm 10 0 0)).Forms.map (fun x => x.Level) = [2, 3]) := by
  constructor <;> decide

/-- C15: an item can be added to the queue exactly when its paused-until field is unset;
with any pause value it cannot, at any time, also at times after the pause value. -/
theorem C15_paused_items_never_eligible (v : Vocab) (now : Time) :
    (v.CanBeAddedToQueue now = true ↔ v.PausedUntil = none)
    ∧ ∀ pause t : Time, ({ v with PausedUntil := some pause } : Vocab).CanBeAddedToQueue t
        = false := by
  constructor
  · unfold Vocab.CanBeAddedToQueue
    cases v.PausedUntil <;> simp
  · intro pause t
    rfl

/-- C19: the interval that decides due-ness is 1h at level 0, 24h at level 1, 72h at
level 2, 168h at level 3, 288h at level 4, 504h at level 5 and 1h at every other level,
negative or above 5; a form whose tag is neither "definite_singular" nor
"definite_plural" is due at every time strictly after `lastSuccess + interval(level)`
and not due at every time strictly before it. -/
theorem C19_interval_table_decides_dueness (v : VocabForm) (now : Time)
    (hs : v.Form ≠ "definite_singular") (hp : v.Form ≠ "definite_plural") :
    (∃ hours : Int,
        (v.Level = 0 → hours = 1) ∧ (v.Level = 1 → hours = 24) ∧ (v.Level = 2 → hours = 72)
        ∧ (v.Level = 3 → hours = 168) ∧ (v.Level = 4 → hours = 288)
        ∧ (v.Level = 5 → hours = 504) ∧ (v.Level < 0 ∨ 5 < v.Level → hours = 1)
        ∧ (v.LastSuccess + hours * Hour < now → v.CanBeAddedToQueue now = true)
        ∧ (now < v.LastSuccess + hours * Hour → v.CanBeAddedToQueue now = false)) := by
  have hdue : v.CanBeAddedToQueue now = decide (v.LastSuccess + interval v.Level < now) := by
    unfold VocabForm.CanBeAddedToQueue
    simp only [hs, hp, or_self, if_false]
    rw [interval_eq]
  refine ⟨if v.Level = 0 then 1 else if v.Level = 1 then 24 else if v.Level = 2 then 72
    else if v.Level = 3 then 168 else if v.Level = 4 then 288 else if v.Level = 5 then 504
    else 1, ?_, ?_, ?_, ?_, ?_, ?_, ?_, ?_, ?_⟩
  · intro h; simp [h]
  · intro h; simp [h]
  · intro h; simp [h]
  · intro h; simp [h]
  · intro h; simp [h]
  · intro h; simp [h]
  · intro h
    have h0 : v.Level ≠ 0 := by omega
    have h1 : v.Level ≠ 1 := by omega
    have h2 : v.Level ≠ 2 := by omega
    have h3 : v.Level ≠ 3 := by omega
    have h4 : v.Level ≠ 4 := by omega
    have h5 : v.Level ≠ 5 := by omega
    simp [h0, h1, h2, h3, h4, h5]
  · intro h
    rw [hdue]
    have : v.LastSuccess + interval v.Level < now := by
      unfold interval
      rw [mul_comm]
      exact h
    simpa using this
  · intro h
    rw [hdue]
    have : ¬ (v.LastSuccess + interval v.Level < now) := by
      unfold interval
      rw [mul_comm]
      exact not_lt.mpr (le_of_lt h)
    simpa using this

/-- C19 witness: a level-4 form last practised at time 0, asked about at 288h + 1ns. -/
theorem C19_interval_table_decides_dueness_witness :
    (∃ hours : Int,
        ((sampleForm 10 4 0).Level = 0 → hours = 1) ∧ ((sampleForm 10 4 0).Level = 1 → hours = 24)
        ∧ ((sampleForm 10 4 0).Level = 2 → hours = 72)
        ∧ ((sampleForm 10 4 0).Level = 3 → hours = 168)
        ∧ ((sampleForm 10 4 0).Level = 4 → hours = 288)
        ∧ ((sampleForm 10 4 0).Level = 5 → hours = 504)
        ∧ ((sampleForm 10 4 0).Level < 0 ∨ 5 < (sampleForm 10 4 0).Level → hours = 1)
        ∧ ((sampleForm 10 4 0).LastSuccess + hours * Hour < 288 * Hour + 1 →
            (sampleForm 10 4 0).CanBeAddedToQueue (288 * Hour + 1) = true)
        ∧ (288 * Hour + 1 < (sampleForm 10 4 0).LastSuccess + hours * Hour →
            (sampleForm 10 4 0).CanBeAddedToQueue (288 * Hour + 1) = false)) :=
  C19_interval_table_decides_dueness (sampleForm 10 4 0) (288 * Hour + 1)
    (by decide) (by decide)

theorem UpdateFormSuccess_body_range (f : VocabForm) (now : Time)
    (h : 0 ≤ f.Level ∧ f.Level ≤ 5) :
    0 ≤ (Vocab.UpdateFormSuccess.body f now).Level
      ∧ (Vocab.UpdateFormSuccess.body f now).Level ≤ 5 := by
  have hl : wrapInt (f.Level + 1) = f.Level + 1 :=
    wrapInt_of_isInt64 _ (by unfold isInt64; omega)
  unfold Vocab.UpdateFormSuccess.body
  dsimp only
  split
  · dsimp only
    rw [hl]
    omega
  · exact h

theorem UpdateFormSuccess_body_raised (f : VocabForm) (now : Time)
    (h : f.Level < (Vocab.UpdateFormSuccess.body f now).Level) :
    (Vocab.UpdateFormSuccess.body f now).SuccessInRow = 0 := by
  unfold Vocab.UpdateFormSuccess.body at h ⊢
  dsimp only at h ⊢
  split
  · rfl
  · rename_i h7
    rw [if_neg h7] at h
    exact absurd h (lt_irrefl _)

theorem UpdateFormError_body_range (f : VocabForm) (h : 0 ≤ f.Level ∧ f.Level ≤ 5) :
    0 ≤ (Vocab.UpdateFormError.body f).Level ∧ (Vocab.UpdateFormError.body f).Level ≤ 5 := by
  have hl : wrapInt (f.Level - 1) = f.Level - 1 :=
    wrapInt_of_isInt64 _ (by unfold isInt64; omega)
  unfold Vocab.UpdateFormError.body
  dsimp only
  rw [hl]
  omega

theorem UpdateFormSuccess_loop_forall₂ (R : VocabForm → VocabForm → Prop)
    (hrefl : ∀ x, R x x) (g : VocabForm) (now : Time)
    (hbody : ∀ x, R x (Vocab.UpdateFormSuccess.body x now)) (xs : List VocabForm) :
    List.Forall₂ R xs (Vocab.UpdateFormSuccess.loop g now xs) := by
  induction xs with
  | nil => exact List.Forall₂.nil
  | cons x rest ih =>
    unfold Vocab.UpdateFormSuccess.loop
    split
    · exact List.Forall₂.cons (hbody x) (List.forall₂_same.mpr (fun y _ => hrefl y))
    · exact List.Forall₂.cons (hrefl x) ih

theorem UpdateFormError_loop_mem (g : VocabForm) (xs : List VocabForm) (y : VocabForm)
    (hy : y ∈ Vocab.UpdateFormError.loop g xs) :
    y ∈ xs ∨ ∃ x ∈ xs, y = Vocab.UpdateFormError.body x := by
  induction xs with
  | nil => simp [Vocab.UpdateFormError.loop] at hy
  | cons x rest ih =>
    unfold Vocab.UpdateFormError.loop at hy
    split at hy
    · simp only [List.mem_cons] at hy
      rcases hy with hy | hy
      · exact Or.inr ⟨x, List.mem_cons_self _ _, hy⟩
      · exact Or.inl (List.mem_cons_of_mem _ hy)
    · simp only [List.mem_cons] at hy
      rcases hy with hy | hy
      · exact Or.inl (hy ▸ List.mem_cons_self _ _)
      · rcases ih hy with h | ⟨z, hz, hzy⟩
        · exact Or.inl (List.mem_cons_of_mem _ h)
        · exact Or.inr ⟨z, List.mem_cons_of_mem _ hz, hzy⟩

theorem UpdateFormSuccess_loop_mem (g : VocabForm) (now : Time) (xs : List VocabForm)
    (y : VocabForm) (hy : y ∈ Vocab.UpdateFormSuccess.loop g now xs) :
    y ∈ xs ∨ ∃ x ∈ xs, y = Vocab.UpdateFormSuccess.body x now := by
  induction xs with
  | nil => simp [Vocab.UpdateFormSuccess.loop] at hy
  | cons x rest ih =>
    unfold Vocab.UpdateFormSuccess.loop at hy
    split at hy
    · simp only [List.mem_cons] at hy
      rcases hy with hy | hy
      · exact Or.inr ⟨x, List.mem_cons_self _ _, hy⟩
      · exact Or.inl (List.mem_cons_of_mem _ hy)
    · simp only [List.mem_cons] at hy
      rcases hy with hy | hy
      · exact Or.inl (hy ▸ List.mem_cons_self _ _)
      · rcases ih hy with h | ⟨z, hz, hzy⟩
        · exact Or.inl (List.mem_cons_of_mem _ h)
        · exact Or.inr ⟨z, List.mem_cons_of_mem _ hz, hzy⟩

/-- C20: for an item all of whose forms have a level in [0,5], after `UpdateFormSuccess`
for any form at any time, and after `UpdateFormError` for any form, every form's level is
still in [0,5]; and position by position, a form whose level `UpdateFormSuccess` raised
has streak 0 afterwards. -/
theorem C20_level_range_preserved (v : Vocab) (g : VocabForm) (now : Time)
    (hrange : ∀ f ∈ v.Forms, 0 ≤ f.Level ∧ f.Level ≤ 5) :
    (∀ f ∈ (v.UpdateFormSuccess g now).Forms, 0 ≤ f.Level ∧ f.Level ≤ 5)
    ∧ (∀ f ∈ (v.UpdateFormError g).Forms, 0 ≤ f.Level ∧ f.Level ≤ 5)
    ∧ List.Forall₂ (fun old new => old.Level < new.Level → new.SuccessInRow = 0)
        v.Forms (v.UpdateFormSuccess g now).Forms := by
  refine ⟨?_, ?_, ?_⟩
  · intro f hf
    rcases UpdateFormSuccess_loop_mem g now v.Forms f hf with h | ⟨x, hx, rfl⟩
    · exact hrange f h
    · exact UpdateFormSuccess_body_range x now (hrange x hx)
  · intro f hf
    rcases UpdateFormError_loop_mem g v.Forms f hf with h | ⟨x, hx, rfl⟩
    · exact hrange f h
    · exact UpdateFormError_body_range x (hrange x hx)
  · exact UpdateFormSuccess_loop_forall₂ _ (fun x h => absurd h (lt_irrefl _)) g now
      (fun x h => UpdateFormSuccess_body_raised x now h) v.Forms

/-- C20 witness: an item with forms at levels 0, 5 and 3; the form at level 5 has
streak 6, so the success step goes through the clamp. -/
theorem C20_level_range_preserved_witness :
    (∀ f ∈ ((sampleVocab 1 [sampleForm 10 0 0, sampleForm 11 5 6,
        sampleForm 12 3 6]).UpdateFormSuccess (sampleForm 11 0 0) 77).Forms,
        0 ≤ f.Level ∧ f.Level ≤ 5)
    ∧ (∀ f ∈ ((sampleVocab 1 [sampleForm 10 0 0, sampleForm 11 5 6,
        sampleForm 12 3 6]).UpdateFormError (sampleForm 11 0 0)).Forms,
        0 ≤ f.Level ∧ f.Level ≤ 5)
    ∧ List.Forall₂ (fun old new => old.Level < new.Level → new.SuccessInRow = 0)
        (sampleVocab 1 [sampleForm 10 0 0, sampleForm 11 5 6, sampleForm 12 3 6]).Forms
        ((sampleVocab 1 [sampleForm 10 0 0, sampleForm 11 5 6,
          sampleForm 12 3 6]).UpdateFormSuccess (sampleForm 11 0 0) 77).Forms :=
  C20_level_range_preserved
    (sampleVocab 1 [sampleForm 10 0 0, sampleForm 11 5 6, sampleForm 12 3 6])
    (sampleForm 11 0 0) 77 (by decide)

/-! ## Theorems: removing from the pool -/

theorem markedIn_set (M : List (UUID × List (UUID × Bool))) (k g : UUID)
    (fm : List (UUID × Bool)) (hget : goMapGet M k = some fm) :
    (∀ vid, (goMapGet (goMapSet M k (goMapSet fm g true)) vid).isSome = (goMapGet M vid).isSome)
    ∧ (∀ vid fid, markedIn (goMapSet M k (goMapSet fm g true)) vid fid = true
        ↔ (markedIn M vid fid = true ∨ (vid = k ∧ fid = g))) := by
  constructor
  · intro vid
    by_cases hv : vid = k
    · subst hv; rw [goMapGet_goMapSet_self, hget]; rfl
    · rw [goMapGet_goMapSet_other _ _ _ _ hv]
  · intro vid fid
    unfold markedIn
    by_cases hv : vid = k
    · subst hv
      rw [goMapGet_goMapSet_self, hget]
      dsimp only
      by_cases hf : fid = g
      · subst hf
        rw [goMapGet_goMapSet_self]
        simp
      · rw [goMapGet_goMapSet_other _ _ _ _ hf]
        simp [hf]
    · rw [goMapGet_goMapSet_other _ _ _ _ hv]
      simp [hv]

theorem collect_forms_foldl (k : UUID) (forms : List VocabForm) :
    ∀ (M : List (UUID × List (UUID × Bool))), (goMapGet M k).isSome = true →
      (∀ vid, (goMapGet (forms.foldl (fun formsToRemove form =>
          match goMapGet formsToRemove k with
          | some formMap => goMapSet formsToRemove k (goMapSet formMap form.Id true)
          | none => formsToRemove) M) vid).isSome = (goMapGet M vid).isSome)
      ∧ (∀ vid fid, markedIn (forms.foldl (fun formsToRemove form =>
          match goMapGet formsToRemove k with
          | some formMap => goMapSet formsToRemove k (goMapSet formMap form.Id true)
          | none => formsToRemove) M) vid fid = true
          ↔ (markedIn M vid fid = true ∨ (vid = k ∧ ∃ g ∈ forms, g.Id = fid))) := by
  induction forms with
  | nil => intro M _; simp
  | cons g rest ih =>
    intro M hM
    simp only [List.foldl_cons]
    cases hget : goMapGet M k with
    | none => rw [hget] at hM; cases hM
    | some fm =>
      dsimp only
      obtain ⟨h1, h2⟩ := markedIn_set M k g.Id fm hget
      obtain ⟨h3, h4⟩ := ih (goMapSet M k (goMapSet fm g.Id true)) (by rw [h1, hM])
      constructor
      · intro vid; rw [h3, h1]
      · intro vid fid
        rw [h4, h2]
        constructor
        · rintro ((h | ⟨hv, hf⟩) | ⟨hv, g1, hg1, hf⟩)
          · exact Or.inl h
          · exact Or.inr ⟨hv, g, List.mem_cons_self _ _, hf.symm⟩
          · exact Or.inr ⟨hv, g1, List.mem_cons_of_mem _ hg1, hf⟩
        · rintro (h | ⟨hv, g1, hg1, hf⟩)
          · exact Or.inl (Or.inl h)
          · simp only [List.mem_cons] at hg1
            rcases hg1 with hg1 | hg1
            · exact Or.inl (Or.inr ⟨hv, by rw [← hf, hg1]⟩)
            · exact Or.inr ⟨hv, g1, hg1, hf⟩

theorem collect_body_spec (M : List (UUID × List (UUID × Bool))) (x : Vocab) :
    (∀ vid, (goMapGet (WordPool.removeVocabFromPool.collect.body M x) vid).isSome = true
        ↔ ((goMapGet M vid).isSome = true ∨ vid = x.Id))
    ∧ (∀ vid fid, markedIn (WordPool.removeVocabFromPool.collect.body M x) vid fid = true
        ↔ (markedIn M vid fid = true ∨ (vid = x.Id ∧ ∃ g ∈ x.Forms, g.Id = fid))) := by
  unfold WordPool.removeVocabFromPool.collect.body
  cases hget : goMapGet M x.Id with
  | some fm =>
    dsimp only
    obtain ⟨h1, h2⟩ := collect_forms_foldl x.Id x.Forms M (by rw [hget]; rfl)
    refine ⟨fun vid => ?_, h2⟩
    rw [h1]
    constructor
    · exact fun h => Or.inl h
    · rintro (h | h)
      · exact h
      · rw [h, hget]; rfl
  | none =>
    dsimp only
    obtain ⟨h1, h2⟩ := collect_forms_foldl x.Id x.Forms (goMapSet M x.Id [])
      (by rw [goMapGet_goMapSet_self]; rfl)
    constructor
    · intro vid
      rw [h1]
      by_cases hv : vid = x.Id
      · subst hv; rw [goMapGet_goMapSet_self]; simp
      · rw [goMapGet_goMapSet_other _ _ _ _ hv]; simp [hv]
    · intro vid fid
      rw [h2]
      have hm : markedIn (goMapSet M x.Id []) vid fid = markedIn M vid fid := by
        unfold markedIn
        by_cases hv : vid = x.Id
        · subst hv; rw [goMapGet_goMapSet_self, hget]; rfl
        · rw [goMapGet_goMapSet_other _ _ _ _ hv]
      rw [hm]

theorem collect_foldl_spec (l : List Vocab) :
    ∀ M : List (UUID × List (UUID × Bool)),
      (∀ vid, (goMapGet (l.foldl WordPool.removeVocabFromPool.collect.body M) vid).isSome = true
          ↔ ((goMapGet M vid).isSome = true ∨ itemNamed l vid = true))
      ∧ (∀ vid fid, markedIn (l.foldl WordPool.removeVocabFromPool.collect.body M) vid fid = true
          ↔ (markedIn M vid fid = true ∨ pairNamed l vid fid = true)) := by
  induction l with
  | nil => intro M; simp [itemNamed, pairNamed]
  | cons x rest ih =>
    intro M
    simp only [List.foldl_cons]
    obtain ⟨h1, h2⟩ := ih (WordPool.removeVocabFromPool.collect.body M x)
    obtain ⟨h3, h4⟩ := collect_body_spec M x
    constructor
    · intro vid
      rw [h1, h3]
      simp only [itemNamed, List.any_cons, Bool.or_eq_true, decide_eq_true_eq]
      constructor
      · rintro ((h | h) | h)
        · exact Or.inl h
        · exact Or.inr (Or.inl h.symm)
        · exact Or.inr (Or.inr h)
      · rintro (h | h | h)
        · exact Or.inl (Or.inl h)
        · exact Or.inl (Or.inr h.symm)
        · exact Or.inr h
    · intro vid fid
      rw [h2, h4]
      simp only [pairNamed, List.any_cons, Bool.or_eq_true, Bool.and_eq_true,
        decide_eq_true_eq, List.any_eq_true]
      constructor
      · rintro ((h | ⟨hv, g, hg, hf⟩) | h)
        · exact Or.inl h
        · exact Or.inr (Or.inl ⟨hv.symm, g, hg, hf⟩)
        · exact Or.inr (Or.inr h)
      · rintro (h | ⟨hv, g, hg, hf⟩ | h)
        · exact Or.inl (Or.inl h)
        · exact Or.inl (Or.inr ⟨hv.symm, g, hg, hf⟩)
        · exact Or.inr h

theorem collect_spec (l : List Vocab) :
    (∀ vid, (goMapGet (WordPool.removeVocabFromPool.collect l) vid).isSome = itemNamed l vid)
    ∧ (∀ vid fid, markedIn (WordPool.removeVocabFromPool.collect l) vid fid
        = pairNamed l vid fid) := by
  obtain ⟨h1, h2⟩ := collect_foldl_spec l []
  unfold WordPool.removeVocabFromPool.collect
  constructor
  · intro vid
    rw [Bool.eq_iff_iff, h1]
    simp [goMapGet]
  · intro vid fid
    rw [Bool.eq_iff_iff, h2]
    simp [markedIn, goMapGet]

theorem foldl_keep_eq_filter {α : Type} (p : α → Bool) (xs : List α) :
    ∀ acc : List α,
      xs.foldl (fun acc x => if p x then acc ++ [x] else acc) acc = acc ++ xs.filter p := by
  induction xs with
  | nil => intro acc; simp
  | cons x rest ih =>
    intro acc
    simp only [List.foldl_cons]
    rw [ih]
    by_cases hp : p x = true
    · simp [hp, List.filter_cons]
    · simp [hp, List.filter_cons]

theorem pairNamed_itemNamed (l : List Vocab) (vid fid : UUID)
    (h : pairNamed l vid fid = true) : itemNamed l vid = true := by
  simp only [pairNamed, itemNamed, List.any_eq_true, Bool.and_eq_true, decide_eq_true_eq] at h ⊢
  obtain ⟨x, hx, hv, _⟩ := h
  exact ⟨x, hx, hv⟩

theorem removeNamed_cons (l : List Vocab) (v : Vocab) (rest : List Vocab) :
    removeNamed l (v :: rest) = removeNamed l [v] ++ removeNamed l rest := by
  unfold removeNamed
  simp only [List.map_cons, List.map_nil, List.filter_cons, List.filter_nil]
  split <;> simp

theorem removeVocabFromPool_loop_body (l : List Vocab) (acc : List Vocab) (v : Vocab) :
    WordPool.removeVocabFromPool.loop.body (WordPool.removeVocabFromPool.collect l) acc v
      = acc ++ removeNamed l [v] := by
  obtain ⟨h1, h2⟩ := collect_spec l
  unfold WordPool.removeVocabFromPool.loop.body
  cases hget : goMapGet (WordPool.removeVocabFromPool.collect l) v.Id with
  | some fm =>
    have hnamed : itemNamed l v.Id = true := by rw [← h1, hget]; rfl
    have hfilter : v.Forms.foldl (fun filteredForms form =>
        if !((goMapGet fm form.Id).getD false) then filteredForms ++ [form]
        else filteredForms) []
        = v.Forms.filter (fun f => !pairNamed l v.Id f.Id) := by
      rw [foldl_keep_eq_filter (fun form : VocabForm => !((goMapGet fm form.Id).getD false)),
        List.nil_append]
      apply List.filter_congr
      intro f _
      have := h2 v.Id f.Id
      unfold markedIn at this
      rw [hget] at this
      dsimp only at this
      rw [this]
    dsimp only
    rw [hfilter]
    unfold removeNamed
    simp only [List.map_cons, List.map_nil, List.filter_cons, List.filter_nil, hnamed,
      Bool.and_true]
    cases hrest : v.Forms.filter (fun f => !pairNamed l v.Id f.Id) with
    | nil => simp
    | cons f fs => simp
  | none =>
    have hnamed : itemNamed l v.Id = false := by rw [← h1, hget]; rfl
    have hforms : v.Forms.filter (fun f => !pairNamed l v.Id f.Id) = v.Forms := by
      rw [List.filter_eq_self]
      intro f _
      cases hp : pairNamed l v.Id f.Id with
      | false => rfl
      | true => rw [pairNamed_itemNamed l v.Id f.Id hp] at hnamed; cases hnamed
    dsimp only
    unfold removeNamed
    simp only [List.map_cons, List.map_nil, List.filter_cons, List.filter_nil, hnamed,
      Bool.and_false, hforms]
    simp

theorem removeVocabFromPool_loop_foldl (l : List Vocab) (vocabs : List Vocab) :
    ∀ acc : List Vocab,
      vocabs.foldl
          (WordPool.removeVocabFromPool.loop.body (WordPool.removeVocabFromPool.collect l)) acc
        = acc ++ removeNamed l vocabs := by
  induction vocabs with
  | nil => intro acc; simp [removeNamed]
  | cons v rest ih =>
    intro acc
    simp only [List.foldl_cons]
    rw [ih, removeVocabFromPool_loop_body, removeNamed_cons l v rest, List.append_assoc]

theorem removeVocabFromPool_eq (wp : WordPool) (pool : Pool) (l : List Vocab) :
    wp.removeVocabFromPool pool l
      = { CreatedAt := pool.CreatedAt, Vocabs := removeNamed l pool.Vocabs } := by
  unfold WordPool.removeVocabFromPool
  dsimp only
  rw [removeVocabFromPool_loop_foldl, List.nil_append]

theorem RemoveFromPool_of_pool (wp : WordPool) (pool : Pool) (l : List Vocab)
    (hfetch : wp.storage.FetchUserPool = .ok (some pool)) :
    (wp.RemoveFromPool l).calls
        = [Call.FetchUserPool,
            Call.UpdatePool { CreatedAt := pool.CreatedAt, Vocabs := removeNamed l pool.Vocabs }]
      ∧ (wp.storage.UpdatePool
            { CreatedAt := pool.CreatedAt, Vocabs := removeNamed l pool.Vocabs } = none →
          (wp.RemoveFromPool l).result = .ok ()) := by
  unfold WordPool.RemoveFromPool
  rw [hfetch]
  dsimp only
  rw [removeVocabFromPool_eq]
  constructor
  · split <;> rfl
  · intro h; rw [h]

/-- C11 (as amended): for every pool and every input, `removeVocabFromPool` leaves the
creation time as it was and the item list equal to the original list with every form
removed whose (item id, form id) pair is named in the input, every item whose id is
named in the input and that has no form left dropped (also when it had none before), and
all other items and forms unchanged, in their original order; `RemoveFromPool` hands
exactly that pool to `UpdatePool` and returns no error when the write succeeds. -/
theorem C11_remove_named_forms (wp : WordPool) (pool : Pool) (l : List Vocab)
    (hfetch : wp.storage.FetchUserPool = .ok (some pool)) :
    (wp.removeVocabFromPool pool l).Vocabs = removeNamed l pool.Vocabs
    ∧ (wp.removeVocabFromPool pool l).CreatedAt = pool.CreatedAt
    ∧ (wp.RemoveFromPool l).calls
        = [Call.FetchUserPool, Call.UpdatePool (wp.removeVocabFromPool pool l)]
    ∧ (wp.storage.UpdatePool (wp.removeVocabFromPool pool l) = none →
        (wp.RemoveFromPool l).result = .ok ()) := by
  obtain ⟨h1, h2⟩ := RemoveFromPool_of_pool wp pool l hfetch
  rw [removeVocabFromPool_eq]
  exact ⟨rfl, rfl, h1, h2⟩

/-- C11 witness: the sample pool (item 1 with forms 10 and 11, item 2 with form 20); the
input names form 10 of item 1, the only form of item 2, and an item that is not in the
pool. -/
theorem C11_remove_named_forms_witness :
    (freshWordPool.removeVocabFromPool { samplePool with CreatedAt := 999 * Hour }
        [named 1 [10], named 2 [20], named 7 [1]]).Vocabs
      = removeNamed [named 1 [10], named 2 [20], named 7 [1]]
          ({ samplePool with CreatedAt := 999 * Hour } : Pool).Vocabs
    ∧ (freshWordPool.removeVocabFromPool { samplePool with CreatedAt := 999 * Hour }
        [named 1 [10], named 2 [20], named 7 [1]]).CreatedAt
      = ({ samplePool with CreatedAt := 999 * Hour } : Pool).CreatedAt
    ∧ (freshWordPool.RemoveFromPool [named 1 [10], named 2 [20], named 7 [1]]).calls
        = [Call.FetchUserPool, Call.UpdatePool (freshWordPool.removeVocabFromPool
            { samplePool with CreatedAt := 999 * Hour }
            [named 1 [10], named 2 [20], named 7 [1]])]
    ∧ (freshWordPool.storage.UpdatePool (freshWordPool.removeVocabFromPool
          { samplePool with CreatedAt := 999 * Hour }
          [named 1 [10], named 2 [20], named 7 [1]]) = none →
        (freshWordPool.RemoveFromPool [named 1 [10], named 2 [20], named 7 [1]]).result
          = .ok ()) :=
  C11_remove_named_forms freshWordPool { samplePool with CreatedAt := 999 * Hour }
    [named 1 [10], named 2 [20], named 7 [1]] rfl

/-- C11 as stated fails on a pool with items that have no forms.  The input names item 1
and no form at all, so no (item id, form id) pair is named and no form list becomes
empty by the removal; yet item 1 is dropped, while item 2, whose form list is just as
empty, stays. -/
theorem C11_counterexample :
    (sampleWordPool.removeVocabFromPool
        { CreatedAt := 0, Vocabs := [sampleVocab 1 [], sampleVocab 2 []] } [named 1 []]).Vocabs
      = [sampleVocab 2 []] := by
  decide

theorem removeNamed_fixed (l : List Vocab) (ws : List Vocab)
    (h : ∀ w ∈ ws, w.Forms.filter (fun f => !pairNamed l w.Id f.Id) = w.Forms
      ∧ (!(w.Forms.isEmpty && itemNamed l w.Id)) = true) :
    removeNamed l ws = ws := by
  unfold removeNamed
  have hmap : ws.map (fun v =>
      ({ v with Forms := v.Forms.filter (fun f => !pairNamed l v.Id f.Id) } : Vocab)) = ws := by
    conv_rhs => rw [← List.map_id ws]
    apply List.map_congr_left
    intro w hw
    rw [(h w hw).1]
    rfl
  rw [hmap, List.filter_eq_self]
  intro w hw
  exact (h w hw).2

theorem removeNamed_idem (l : List Vocab) (vocabs : List Vocab) :
    removeNamed l (removeNamed l vocabs) = removeNamed l vocabs := by
  apply removeNamed_fixed
  intro w hw
  unfold removeNamed at hw
  simp only [List.mem_filter, List.mem_map] at hw
  obtain ⟨⟨v, _, rfl⟩, hkeep⟩ := hw
  refine ⟨?_, hkeep⟩
  dsimp only
  rw [List.filter_filter]
  apply List.filter_congr
  intro f _
  simp

theorem itemNamed_presentPart (vocabs l : List Vocab) (v : Vocab) (hv : v ∈ vocabs) :
    itemNamed (presentPart vocabs l) v.Id = itemNamed l v.Id := by
  rw [Bool.eq_iff_iff]
  simp only [itemNamed, presentPart, List.any_eq_true, decide_eq_true_eq, List.mem_map,
    List.mem_filter]
  constructor
  · rintro ⟨y, ⟨x, ⟨hx, _⟩, rfl⟩, hy⟩
    exact ⟨x, hx, hy⟩
  · rintro ⟨x, hx, hxv⟩
    exact ⟨_, ⟨x, ⟨hx, v, hv, hxv.symm⟩, rfl⟩, hxv⟩

theorem pairNamed_presentPart (vocabs l : List Vocab) (v : Vocab) (hv : v ∈ vocabs)
    (f : VocabForm) (hf : f ∈ v.Forms) :
    pairNamed (presentPart vocabs l) v.Id f.Id = pairNamed l v.Id f.Id := by
  rw [Bool.eq_iff_iff]
  simp only [pairNamed, presentPart, List.any_eq_true, decide_eq_true_eq, List.mem_map,
    List.mem_filter, Bool.and_eq_true]
  constructor
  · rintro ⟨y, ⟨x, ⟨hx, _⟩, rfl⟩, hy, g, hg, hgf⟩
    simp only [List.mem_filter] at hg
    exact ⟨x, hx, hy, g, hg.1, hgf⟩
  · rintro ⟨x, hx, hxv, g, hg, hgf⟩
    refine ⟨_, ⟨x, ⟨hx, v, hv, hxv.symm⟩, rfl⟩, hxv, g, ?_, hgf⟩
    simp only [List.mem_filter, List.any_eq_true, Bool.and_eq_true, decide_eq_true_eq]
    exact ⟨hg, v, hv, hxv.symm, f, hf, hgf.symm⟩

theorem removeNamed_presentPart (vocabs l : List Vocab) :
    removeNamed (presentPart vocabs l) vocabs = removeNamed l vocabs := by
  unfold removeNamed
  have hmap : vocabs.map (fun v =>
        ({ v with
            Forms := (v.Forms.filter (fun f => !pairNamed (presentPart vocabs l) v.Id f.Id)) }
          : Vocab))
      = vocabs.map (fun v =>
        ({ v with Forms := (v.Forms.filter (fun f => !pairNamed l v.Id f.Id)) } : Vocab)) := by
    apply List.map_congr_left
    intro v hv
    have : v.Forms.filter (fun f => !pairNamed (presentPart vocabs l) v.Id f.Id)
        = v.Forms.filter (fun f => !pairNamed l v.Id f.Id) := by
      apply List.filter_congr
      intro f hf
      rw [pairNamed_presentPart vocabs l v hv f hf]
    rw [this]
  rw [hmap]
  apply List.filter_congr
  intro w hw
  simp only [List.mem_map] at hw
  obtain ⟨v, hv, rfl⟩ := hw
  dsimp only
  rw [itemNamed_presentPart vocabs l v hv]

/-- C12: removal is idempotent: for every pool and every input, removing the same input
from the result of the first removal changes nothing; a second `RemoveFromPool` against
the store that holds what the first one wrote hands the very same pool to `UpdatePool`
and, when that write succeeds, returns no error; and what the input names that is absent
from the pool is ignored: the result is that of the part of the input present in the
pool. -/
theorem C12_remove_idempotent (wp second : WordPool) (pool : Pool) (l : List Vocab)
    (hstored : second.storage.FetchUserPool = .ok (some (wp.removeVocabFromPool pool l)))
    (hwrite : second.storage.UpdatePool (wp.removeVocabFromPool pool l) = none) :
    wp.removeVocabFromPool (wp.removeVocabFromPool pool l) l = wp.removeVocabFromPool pool l
    ∧ second.RemoveFromPool l
        = ⟨[Call.FetchUserPool, Call.UpdatePool (wp.removeVocabFromPool pool l)], .ok ()⟩
    ∧ wp.removeVocabFromPool pool (presentPart pool.Vocabs l) = wp.removeVocabFromPool pool l := by
  have hidem : ∀ w : WordPool,
      w.removeVocabFromPool (wp.removeVocabFromPool pool l) l = wp.removeVocabFromPool pool l := by
    intro w
    rw [removeVocabFromPool_eq wp pool l, removeVocabFromPool_eq w]
    dsimp only
    rw [removeNamed_idem]
  refine ⟨hidem wp, ?_, ?_⟩
  · unfold WordPool.RemoveFromPool
    rw [hstored]
    dsimp only
    rw [hidem second, hwrite]
  · rw [removeVocabFromPool_eq, removeVocabFromPool_eq, removeNamed_presentPart]

/-- C12 witness: the first call removes form 10 of item 1 and the only form of item 2
from the sample pool; the second call runs against the store that holds the result. -/
theorem C12_remove_idempotent_witness :
    freshWordPool.removeVocabFromPool
        (freshWordPool.removeVocabFromPool { samplePool with CreatedAt := 999 * Hour }
          [named 1 [10], named 2 [20], named 7 [1]]) [named 1 [10], named 2 [20], named 7 [1]]
      = freshWordPool.removeVocabFromPool { samplePool with CreatedAt := 999 * Hour }
          [named 1 [10], named 2 [20], named 7 [1]]
    ∧ removedWordPool.RemoveFromPool [named 1 [10], named 2 [20], named 7 [1]]
        = ⟨[Call.FetchUserPool, Call.UpdatePool (freshWordPool.removeVocabFromPool
            { samplePool with CreatedAt := 999 * Hour }
            [named 1 [10], named 2 [20], named 7 [1]])], .ok ()⟩
    ∧ freshWordPool.removeVocabFromPool { samplePool with CreatedAt := 999 * Hour }
        (presentPart ({ samplePool with CreatedAt := 999 * Hour } : Pool).Vocabs
          [named 1 [10], named 2 [20], named 7 [1]])
      = freshWordPool.removeVocabFromPool { samplePool with CreatedAt := 999 * Hour }
          [named 1 [10], named 2 [20], named 7 [1]] :=
  C12_remove_idempotent freshWordPool removedWordPool { samplePool with CreatedAt := 999 * Hour }
    [named 1 [10], named 2 [20], named 7 [1]] rfl rfl

/-! ## Theorems: what `RegisterProgress` writes and when it fails -/

theorem forms_inv (clock : Nat → Time) (P : UUID → Vocab → Prop)
    (hstep : ∀ k w g t, P k w → P k (w.UpdateFormSuccess g t)) (id : UUID)
    (forms : List VocabForm) :
    ∀ s : progressState, (∀ e ∈ s.m, P e.1 e.2) →
      ∀ e ∈ (Dictionary.RegisterProgress.forms clock id forms s).m, P e.1 e.2 := by
  unfold Dictionary.RegisterProgress.forms
  induction forms with
  | nil => intro s hs; exact hs
  | cons f rest ih =>
    intro s hs
    simp only [List.foldl_cons]
    apply ih
    unfold Dictionary.RegisterProgress.forms.body
    split
    · rename_i vocab hget
      intro e he
      rcases mem_goMapSet _ _ _ _ he with h | h
      · exact hs e h
      · subst h
        exact hstep _ _ _ _ (hs (id, vocab) (goMapGet_mem s.m id vocab hget))
    · exact hs

theorem RegisterProgress_loop_inv (d : Dictionary) (clock : Nat → Time)
    (P : UUID → Vocab → Prop)
    (hfetch : ∀ k v, d.storage.GetVocab k = .ok (some v) → P k v)
    (hstep : ∀ k w g t, P k w → P k (w.UpdateFormSuccess g t)) :
    ∀ (l : List Vocab) (s : progressState), (∀ e ∈ s.m, P e.1 e.2) →
      ∀ e ∈ (Dictionary.RegisterProgress.loop d clock l s).1.m, P e.1 e.2 := by
  intro l
  induction l with
  | nil => intro s hs; exact hs
  | cons x rest ih =>
    intro s hs
    unfold Dictionary.RegisterProgress.loop
    split
    · exact ih _ (forms_inv clock P hstep _ _ s hs)
    · dsimp only
      split
      · exact hs
      · exact ih _ hs
      · rename_i vocab hstore
        apply ih
        apply forms_inv clock P hstep
        intro e he
        rcases mem_goMapSet _ _ _ _ he with h | h
        · exact hs e h
        · subst h
          exact hfetch _ _ hstore

theorem RegisterProgress_loop_calls (d : Dictionary) (clock : Nat → Time) :
    ∀ (l : List Vocab) (s : progressState),
      ∃ fetched : List UUID,
        (Dictionary.RegisterProgress.loop d clock l s).1.calls
            = s.calls ++ fetched.map (fun id => Call.GetVocab id)
        ∧ (∀ err, (Dictionary.RegisterProgress.loop d clock l s).2 = some err →
            ∃ id e, id ∈ fetched ∧ d.storage.GetVocab id = .error e)
        ∧ ((Dictionary.RegisterProgress.loop d clock l s).2 = none →
            ∀ id ∈ fetched, ∀ e, d.storage.GetVocab id ≠ .error e) := by
  intro l
  induction l with
  | nil =>
    intro s
    exact ⟨[], by simp [Dictionary.RegisterProgress.loop],
      by simp [Dictionary.RegisterProgress.loop], by simp⟩
  | cons x rest ih =>
    intro s
    unfold Dictionary.RegisterProgress.loop
    split
    · obtain ⟨fetched, h1, h2, h3⟩ :=
        ih (Dictionary.RegisterProgress.forms clock x.Id x.Forms s)
      rw [forms_calls] at h1
      exact ⟨fetched, h1, h2, h3⟩
    · dsimp only
      split
      · rename_i err hstore
        refine ⟨[x.Id], by simp, ?_, by simp⟩
        intro _ _
        exact ⟨x.Id, err, by simp, hstore⟩
      · rename_i hstore
        obtain ⟨fetched, h1, h2, h3⟩ :=
          ih { s with calls := s.calls ++ [Call.GetVocab x.Id] }
        refine ⟨x.Id :: fetched, by rw [h1]; simp, ?_, ?_⟩
        · intro err herr
          obtain ⟨id, e, hid, he⟩ := h2 err herr
          exact ⟨id, e, List.mem_cons_of_mem _ hid, he⟩
        · intro hnone id hid e he
          simp only [List.mem_cons] at hid
          rcases hid with hid | hid
          · rw [hid, hstore] at he; cases he
          · exact h3 hnone id hid e he
      · rename_i vocab hstore
        obtain ⟨fetched, h1, h2, h3⟩ :=
          ih (Dictionary.RegisterProgress.forms clock x.Id x.Forms
            { s with calls := s.calls ++ [Call.GetVocab x.Id], m := goMapSet s.m x.Id vocab })
        rw [forms_calls] at h1
        refine ⟨x.Id :: fetched, by rw [h1]; simp, ?_, ?_⟩
        · intro err herr
          obtain ⟨id, e, hid, he⟩ := h2 err herr
          exact ⟨id, e, List.mem_cons_of_mem _ hid, he⟩
        · intro hnone id hid e he
          simp only [List.mem_cons] at hid
          rcases hid with hid | hid
          · rw [hid, hstore] at he; cases he
          · exact h3 hnone id hid e he

/-- The two ways `RegisterProgress` ends, from the state its loops end in: a fetch
failed and only fetches were made, or no fetch failed and every item in `m` is written. -/
theorem RegisterProgress_cases (d : Dictionary) (clock : Nat → Time) (a b : List Vocab) :
    ∃ (s : progressState) (fetched : List UUID),
      s.calls = fetched.map (fun id => Call.GetVocab id)
      ∧ ((∃ err id e, d.RegisterProgress clock a b = ⟨s.calls, .error err⟩
            ∧ id ∈ fetched ∧ d.storage.GetVocab id = .error e)
        ∨ (Dictionary.RegisterProgress.loop d clock (a ++ b) ⟨[], [], 0⟩ = (s, none)
            ∧ (∀ id ∈ fetched, ∀ e, d.storage.GetVocab id ≠ .error e)
            ∧ (d.RegisterProgress clock a b).calls
                = s.calls ++ s.m.map (fun kv => Call.AddVocabulary kv.2)
            ∧ (d.RegisterProgress clock a b).result
                = match (s.m.filterMap (fun kv => d.storage.AddVocabulary kv.2)).head? with
                  | some err => .error ("could not update vocab progress: " ++ err)
                  | none => .ok ())) := by
  obtain ⟨fetched, h1, h2, h3⟩ := RegisterProgress_loop_calls d clock (a ++ b) ⟨[], [], 0⟩
  rcases hloop : Dictionary.RegisterProgress.loop d clock (a ++ b) ⟨[], [], 0⟩ with ⟨s, e⟩
  rw [hloop] at h1 h2 h3
  simp only [List.nil_append] at h1
  refine ⟨s, fetched, h1, ?_⟩
  cases e with
  | some err =>
    obtain ⟨id, e1, hid, he1⟩ := h2 err rfl
    exact Or.inl ⟨err, id, e1, by rw [RegisterProgress_eq, hloop], hid, he1⟩
  | none =>
    refine Or.inr ⟨rfl, h3 rfl, ?_, ?_⟩
    · rw [RegisterProgress_eq, hloop]
      dsimp only
      split <;> rfl
    · rw [RegisterProgress_eq, hloop]
      dsimp only
      cases (s.m.filterMap (fun kv => d.storage.AddVocabulary kv.2)).head? <;> rfl

/-- C18: `RegisterProgress` returns an error exactly when an item fetch it made failed
or an item write it made failed; when a fetch failed, no item at all was written, also
not the items fetched and updated earlier in the call; and the call never panics. -/
theorem C18_error_iff_fetch_or_write_fails (d : Dictionary) (clock : Nat → Time)
    (a b : List Vocab) :
    ((∃ err, (d.RegisterProgress clock a b).result = .error err)
      ↔ ((∃ id e, Call.GetVocab id ∈ (d.RegisterProgress clock a b).calls
            ∧ d.storage.GetVocab id = .error e)
        ∨ (∃ w e, Call.AddVocabulary w ∈ (d.RegisterProgress clock a b).calls
            ∧ d.storage.AddVocabulary w = some e)))
    ∧ ((∃ id e, Call.GetVocab id ∈ (d.RegisterProgress clock a b).calls
          ∧ d.storage.GetVocab id = .error e) →
        ∀ w, Call.AddVocabulary w ∉ (d.RegisterProgress clock a b).calls)
    ∧ (d.RegisterProgress clock a b).result ≠ .panic := by
  obtain ⟨s, fetched, hs, hcase⟩ := RegisterProgress_cases d clock a b
  rcases hcase with ⟨err, id, e, hrp, hid, he⟩ | ⟨_, hnoerr, hcalls, hres⟩
  · rw [hrp]
    dsimp only
    have hin : Call.GetVocab id ∈ s.calls := by
      rw [hs]; exact List.mem_map.mpr ⟨id, hid, rfl⟩
    refine ⟨⟨fun _ => Or.inl ⟨id, e, hin, he⟩, fun _ => ⟨err, rfl⟩⟩, ?_, by simp⟩
    intro _ w hw
    rw [hs] at hw
    simp at hw
  · have hfetch : ∀ id, Call.GetVocab id ∈ (d.RegisterProgress clock a b).calls →
        id ∈ fetched := by
      intro id hin
      rw [hcalls, hs] at hin
      simpa using hin
    have hwrite : ∀ w, Call.AddVocabulary w ∈ (d.RegisterProgress clock a b).calls
        ↔ ∃ kv ∈ s.m, kv.2 = w := by
      intro w
      rw [hcalls, hs]
      simp
    have hnofail : ¬ ∃ id e, Call.GetVocab id ∈ (d.RegisterProgress clock a b).calls
        ∧ d.storage.GetVocab id = .error e := by
      rintro ⟨id, e, hin, he⟩
      exact hnoerr id (hfetch id hin) e he
    refine ⟨?_, fun h => absurd h hnofail, ?_⟩
    · rw [hres]
      constructor
      · rintro ⟨err, herr⟩
        right
        cases hh : (s.m.filterMap (fun kv => d.storage.AddVocabulary kv.2)).head? with
        | none => rw [hh] at herr; cases herr
        | some e =>
          have hmem := List.mem_of_mem_head? hh
          simp only [List.mem_filterMap] at hmem
          obtain ⟨kv, hkv, hadd⟩ := hmem
          exact ⟨kv.2, e, (hwrite kv.2).mpr ⟨kv, hkv, rfl⟩, hadd⟩
      · rintro (h | ⟨w, e, hw, hadd⟩)
        · exact absurd h hnofail
        · obtain ⟨kv, hkv, rfl⟩ := (hwrite w).mp hw
          have hne : s.m.filterMap (fun kv => d.storage.AddVocabulary kv.2) ≠ [] := by
            intro hnil
            have : e ∈ s.m.filterMap (fun kv => d.storage.AddVocabulary kv.2) :=
              List.mem_filterMap.mpr ⟨kv, hkv, hadd⟩
            rw [hnil] at this
            cases this
          cases hh : (s.m.filterMap (fun kv => d.storage.AddVocabulary kv.2)).head? with
          | none => exact absurd (List.head?_eq_none_iff.mp hh) hne
          | some e1 => exact ⟨_, rfl⟩
    · rw [hres]
      split <;> simp

theorem forall₂_trans_of {α : Type} (R : α → α → Prop)
    (htrans : ∀ a b c, R a b → R b c → R a c) :
    ∀ (xs ys zs : List α), List.Forall₂ R xs ys → List.Forall₂ R ys zs →
      List.Forall₂ R xs zs := by
  intro xs
  induction xs with
  | nil =>
    intro ys zs h1 h2
    cases h1
    cases h2
    exact List.Forall₂.nil
  | cons x rest ih =>
    intro ys zs h1 h2
    cases h1 with
    | cons hxy hrest =>
      cases h2 with
      | cons hyz hrest2 => exact List.Forall₂.cons (htrans _ _ _ hxy hyz) (ih _ _ hrest hrest2)

theorem UpdateFormSuccess_body_kept (x : VocabForm) (now : Time) :
    (Vocab.UpdateFormSuccess.body x now).Id = x.Id
      ∧ (isInt64 x.Level ∧ x.Level ≤ 5 →
          isInt64 (Vocab.UpdateFormSuccess.body x now).Level
            ∧ (Vocab.UpdateFormSuccess.body x now).Level ≤ 5
            ∧ x.Level ≤ (Vocab.UpdateFormSuccess.body x now).Level) := by
  refine ⟨UpdateFormSuccess_body_Id x now, ?_⟩
  rintro ⟨hint, h5⟩
  have hl : wrapInt (x.Level + 1) = x.Level + 1 :=
    wrapInt_of_isInt64 _ (by unfold isInt64 at *; omega)
  unfold Vocab.UpdateFormSuccess.body
  dsimp only
  split
  · dsimp only
    rw [hl]
    unfold isInt64 at *
    omega
  · exact ⟨hint, h5, le_refl _⟩

theorem successOnly_levels (v w : Vocab) (h : successOnly v w) :
    List.Forall₂ (fun old new => new.Id = old.Id
        ∧ (isInt64 old.Level ∧ old.Level ≤ 5 →
            isInt64 new.Level ∧ new.Level ≤ 5 ∧ old.Level ≤ new.Level))
      v.Forms w.Forms := by
  obtain ⟨updates, rfl⟩ := h
  induction updates generalizing v with
  | nil => exact List.forall₂_same.mpr (fun x _ => ⟨rfl, fun h => ⟨h.1, h.2, le_refl _⟩⟩)
  | cons u rest ih =>
    simp only [List.foldl_cons]
    refine forall₂_trans_of _ ?_ _ _ _ ?_ (ih (v.UpdateFormSuccess u.1 u.2))
    · rintro a b c ⟨h1, h2⟩ ⟨h3, h4⟩
      refine ⟨h3.trans h1, fun ha => ?_⟩
      obtain ⟨hb1, hb2, hb3⟩ := h2 ha
      obtain ⟨hc1, hc2, hc3⟩ := h4 ⟨hb1, hb2⟩
      exact ⟨hc1, hc2, le_trans hb3 hc3⟩
    · exact UpdateFormSuccess_loop_forall₂ _
        (fun x => ⟨rfl, fun h => ⟨h.1, h.2, le_refl _⟩⟩) u.1 u.2
        (fun x => UpdateFormSuccess_body_kept x u.2) v.Forms

theorem RegisterProgress_written (d : Dictionary) (clock : Nat → Time) (a b : List Vocab)
    (P : UUID → Vocab → Prop)
    (hfetch : ∀ k v, d.storage.GetVocab k = .ok (some v) → P k v)
    (hstep : ∀ k w g t, P k w → P k (w.UpdateFormSuccess g t)) :
    ∀ w, Call.AddVocabulary w ∈ (d.RegisterProgress clock a b).calls → ∃ k, P k w := by
  intro w hw
  obtain ⟨s, fetched, hs, hcase⟩ := RegisterProgress_cases d clock a b
  rcases hcase with ⟨err, id, e, hrp, _, _⟩ | ⟨hloop, _, hcalls, _⟩
  · rw [hrp, hs] at hw
    simp at hw
  · rw [hcalls, hs] at hw
    simp only [List.mem_append, List.mem_map, reduceCtorEq, and_false, exists_false,
      Call.AddVocabulary.injEq, false_or] at hw
    obtain ⟨kv, hkv, rfl⟩ := hw
    have hinv := RegisterProgress_loop_inv d clock P hfetch hstep (a ++ b) ⟨[], [], 0⟩
      (by simp)
    rw [hloop] at hinv
    exact ⟨kv.1, hinv kv hkv⟩

/-- C16 (as amended): `RegisterProgress` treats both input lists alike, as successes: it
does with the lists `a` and `b` exactly what it does with `a` followed by `b` and an
empty list; every item it writes results from an item the store found by calls of
`UpdateFormSuccess` only; and form by form, a stored level that is a Go `int` not above
5 is never lowered in the written item. -/
theorem C16_both_lists_are_successes (d : Dictionary) (clock : Nat → Time)
    (a b : List Vocab) :
    d.RegisterProgress clock a b = d.RegisterProgress clock (a ++ b) []
    ∧ ∀ w, Call.AddVocabulary w ∈ (d.RegisterProgress clock a b).calls →
        ∃ k v, d.storage.GetVocab k = .ok (some v) ∧ successOnly v w
          ∧ List.Forall₂ (fun old new => new.Id = old.Id
              ∧ (isInt64 old.Level → old.Level ≤ 5 → old.Level ≤ new.Level))
            v.Forms w.Forms := by
  constructor
  · rw [RegisterProgress_eq, RegisterProgress_eq, List.append_nil]
  · intro w hw
    obtain ⟨k, v, hv, hsucc⟩ := RegisterProgress_written d clock a b
      (fun k w => ∃ v, d.storage.GetVocab k = .ok (some v) ∧ successOnly v w)
      (fun k v hv => ⟨v, hv, [], rfl⟩)
      (fun k w g t => by
        rintro ⟨v, hv, updates, rfl⟩
        exact ⟨v, hv, updates ++ [(g, t)], by simp [List.foldl_append]⟩)
      w hw
    refine ⟨k, v, hv, hsucc, ?_⟩
    exact (successOnly_levels v w hsucc).imp
      (fun old new h => ⟨h.1, fun hint h5 => (h.2 ⟨hint, h5⟩).2.2⟩)

/-- C16 as stated fails: the stored form has level 9 and streak 6; one success, named in
the without-mistakes list, brings the streak to 7 and the level through the clamp
`min (level + 1) 5`, so the written form has level 5, lower than the stored 9. -/
theorem C16_counterexample :
    clampDict.storage.GetVocab 1 = .ok (some (sampleVocab 1 [sampleForm 10 9 6]))
    ∧ (writesFor 1 (clampDict.RegisterProgress sampleClock [named 1 [10]] []).calls).map
        (fun w => w.Forms.map (fun x => x.Level)) = [[5]] := by
  constructor
  · rfl
  · decide

theorem forms_body_with_calls (clock : Nat → Time) (id : UUID) (s : progressState)
    (c : List Call) (form : VocabForm) :
    Dictionary.RegisterProgress.forms.body clock id { s with calls := c } form
      = { Dictionary.RegisterProgress.forms.body clock id s form with calls := c } := by
  unfold Dictionary.RegisterProgress.forms.body
  dsimp only
  split <;> rfl

theorem forms_with_calls (clock : Nat → Time) (id : UUID) (forms : List VocabForm)
    (c : List Call) :
    ∀ s : progressState,
      Dictionary.RegisterProgress.forms clock id forms { s with calls := c }
        = { Dictionary.RegisterProgress.forms clock id forms s with calls := c } := by
  unfold Dictionary.RegisterProgress.forms
  induction forms with
  | nil => intro s; rfl
  | cons f rest ih =>
    intro s
    simp only [List.foldl_cons]
    rw [forms_body_with_calls, ih]

theorem RegisterProgress_loop_skip (d : Dictionary) (clock : Nat → Time) :
    ∀ (l : List Vocab) (s : progressState),
      (∀ k ∈ s.m.map (fun kv => kv.1), d.storage.GetVocab k ≠ .ok none) →
      Dictionary.RegisterProgress.loop d clock (skipNotFound d l)
          { s with calls := s.calls.filter (notAMiss d) }
        = ({ (Dictionary.RegisterProgress.loop d clock l s).1 with
              calls := (Dictionary.RegisterProgress.loop d clock l s).1.calls.filter
                (notAMiss d) },
            (Dictionary.RegisterProgress.loop d clock l s).2) := by
  intro l
  induction l with
  | nil => intro s _; simp [skipNotFound, Dictionary.RegisterProgress.loop]
  | cons x rest ih =>
    intro s hkeys
    cases hget : goMapGet s.m x.Id with
    | some w0 =>
      have hxin : x.Id ∈ s.m.map (fun kv => kv.1) := by
        by_contra hc
        rw [(goMapGet_eq_none_iff s.m x.Id).mpr hc] at hget
        cases hget
      have hkeep : skipNotFound d (x :: rest) = x :: skipNotFound d rest := by
        have hx := hkeys x.Id hxin
        unfold skipNotFound
        rw [List.filter_cons]
        split
        · rfl
        · rename_i hfalse
          split at hfalse
          · rename_i hnone; exact absurd hnone hx
          · exact absurd rfl hfalse
      rw [hkeep]
      have hrhs : Dictionary.RegisterProgress.loop d clock (x :: rest) s
          = Dictionary.RegisterProgress.loop d clock rest
              (Dictionary.RegisterProgress.forms clock x.Id x.Forms s) := by
        simp only [Dictionary.RegisterProgress.loop, hget]
      have hlhs : Dictionary.RegisterProgress.loop d clock (x :: skipNotFound d rest)
            { s with calls := s.calls.filter (notAMiss d) }
          = Dictionary.RegisterProgress.loop d clock (skipNotFound d rest)
              (Dictionary.RegisterProgress.forms clock x.Id x.Forms
                { s with calls := s.calls.filter (notAMiss d) }) := by
        simp only [Dictionary.RegisterProgress.loop, hget]
      rw [hrhs, hlhs, forms_with_calls]
      have := ih (Dictionary.RegisterProgress.forms clock x.Id x.Forms s)
        (by rw [forms_keys]; exact hkeys)
      rw [forms_calls] at this
      exact this
    | none =>
      have hxout : x.Id ∉ s.m.map (fun kv => kv.1) := (goMapGet_eq_none_iff s.m x.Id).mp hget
      cases hstore : d.storage.GetVocab x.Id with
      | error err =>
        have hkeep : skipNotFound d (x :: rest) = x :: skipNotFound d rest := by
          unfold skipNotFound
          rw [List.filter_cons, hstore]
          rfl
        have hcall : notAMiss d (Call.GetVocab x.Id) = true := by
          simp only [notAMiss, hstore]
        rw [hkeep]
        simp only [Dictionary.RegisterProgress.loop, hget, hstore, List.filter_append,
          List.filter_cons, List.filter_nil, hcall, ↓reduceIte]
      | ok found =>
        cases found with
        | none =>
          have hskip : skipNotFound d (x :: rest) = skipNotFound d rest := by
            unfold skipNotFound
            rw [List.filter_cons, hstore]
            rfl
          have hcall : notAMiss d (Call.GetVocab x.Id) = false := by
            simp only [notAMiss, hstore]
          rw [hskip]
          have := ih { s with calls := s.calls ++ [Call.GetVocab x.Id] } hkeys
          simp only [List.filter_append, List.filter_cons, List.filter_nil, hcall,
            Bool.false_eq_true, ↓reduceIte, List.append_nil] at this
          simp only [Dictionary.RegisterProgress.loop, hget, hstore]
          exact this
        | some v =>
          have hkeep : skipNotFound d (x :: rest) = x :: skipNotFound d rest := by
            unfold skipNotFound
            rw [List.filter_cons, hstore]
            rfl
          have hcall : notAMiss d (Call.GetVocab x.Id) = true := by
            simp only [notAMiss, hstore]
          rw [hkeep]
          have := ih (Dictionary.RegisterProgress.forms clock x.Id x.Forms
              { s with calls := s.calls ++ [Call.GetVocab x.Id], m := goMapSet s.m x.Id v })
            (by
              rw [forms_keys]
              dsimp only
              rw [keys_goMapSet_none s.m x.Id v hget]
              intro k hk
              simp only [List.mem_append, List.mem_singleton] at hk
              rcases hk with hk | hk
              · exact hkeys k hk
              · rw [hk, hstore]; simp)
          rw [forms_calls] at this
          simp only [List.filter_append, List.filter_cons, List.filter_nil, hcall,
            ↓reduceIte] at this
          simp only [Dictionary.RegisterProgress.loop, hget, hstore]
          rw [← this]
          congr 1
          exact forms_with_calls clock x.Id x.Forms _
            { s with calls := s.calls ++ [Call.GetVocab x.Id], m := goMapSet s.m x.Id v }

theorem skipNotFound_append (d : Dictionary) (a b : List Vocab) :
    skipNotFound d a ++ skipNotFound d b = skipNotFound d (a ++ b) := by
  unfold skipNotFound
  rw [List.filter_append]

theorem filter_notAMiss_writes (d : Dictionary) (m : List (UUID × Vocab)) :
    (m.map (fun kv => Call.AddVocabulary kv.2)).filter (notAMiss d)
      = m.map (fun kv => Call.AddVocabulary kv.2) := by
  rw [List.filter_eq_self]
  intro c hc
  simp only [List.mem_map] at hc
  obtain ⟨kv, _, rfl⟩ := hc
  rfl

theorem writesFor_eq_nil (id : UUID) (calls : List Call)
    (h : ∀ w, Call.AddVocabulary w ∈ calls → w.Id ≠ id) : writesFor id calls = [] := by
  unfold writesFor
  rw [List.filterMap_eq_nil_iff]
  intro c hc
  cases c with
  | AddVocabulary w => simp [h w hc]
  | _ => rfl

theorem pairDict_keyed :
    ∀ id v, pairDict.storage.GetVocab id = .ok (some v) → v.Id = id := by
  intro id v h
  unfold pairDict at h
  dsimp only at h
  split at h
  · rename_i h1
    injection h with h
    injection h with h
    rw [← h, h1]; rfl
  · cases h

theorem pairDict_no_error :
    ∀ (x : Vocab) (err : Error), pairDict.storage.GetVocab x.Id ≠ .error err := by
  intro x err h
  unfold pairDict at h
  dsimp only at h
  split at h <;> cases h

/-- C17: an item id that the store reports as not found is silently skipped by
`RegisterProgress`.  The call ends exactly as the call without the entries naming such
ids does, with the same result and the same store calls, writes included, except for the
fetches of those ids.  Against a store whose items carry the id they are stored under,
nothing is written for such an id; and when no fetch fails, every named id that the store
finds is fetched once and written once, whatever not-found ids are named beside it, the
written item being the stored one after `UpdateFormSuccess` calls only, with one success
step applied to a form for every naming of it; and the call returns no error when the
writes it makes are accepted. -/
theorem C17_not_found_is_skipped (d : Dictionary) (clock : Nat → Time) (a b : List Vocab) :
    (d.RegisterProgress clock (skipNotFound d a) (skipNotFound d b)).result
        = (d.RegisterProgress clock a b).result
    ∧ (d.RegisterProgress clock (skipNotFound d a) (skipNotFound d b)).calls
        = (d.RegisterProgress clock a b).calls.filter (notAMiss d)
    ∧ ((∀ id v, d.storage.GetVocab id = .ok (some v) → v.Id = id) →
        ∀ id, d.storage.GetVocab id = .ok none →
          writesFor id (d.RegisterProgress clock a b).calls = [])
    ∧ ((∀ id v, d.storage.GetVocab id = .ok (some v) → v.Id = id) →
        (∀ x ∈ a ++ b, ∀ err, d.storage.GetVocab x.Id ≠ .error err) →
        (∀ k ∈ (a ++ b).map (fun x => x.Id), ∀ v, d.storage.GetVocab k = .ok (some v) →
          (d.RegisterProgress clock a b).calls.count (Call.GetVocab k) = 1
          ∧ ∃ w, writesFor k (d.RegisterProgress clock a b).calls = [w]
              ∧ Call.AddVocabulary w ∈ (d.RegisterProgress clock a b).calls
              ∧ successOnly v w
              ∧ ∀ (pre post : List VocabForm) (f : VocabForm), v.Forms = pre ++ f :: post →
                  (∀ x ∈ pre, x.Id ≠ f.Id) →
                  successesApplied pre f (namings k f.Id (a ++ b)) w)
        ∧ ((∀ w, Call.AddVocabulary w ∈ (d.RegisterProgress clock a b).calls →
              d.storage.AddVocabulary w = none) →
            (d.RegisterProgress clock a b).result = .ok ())) := by
  have hskip := RegisterProgress_loop_skip d clock (a ++ b) ⟨[], [], 0⟩ (by simp)
  simp only [List.filter_nil] at hskip
  refine ⟨?_, ?_, ?_, ?_⟩
  · rw [RegisterProgress_eq, RegisterProgress_eq, skipNotFound_append, hskip]
    rcases Dictionary.RegisterProgress.loop d clock (a ++ b) ⟨[], [], 0⟩ with ⟨s, e⟩
    cases e with
    | some err => rfl
    | none =>
      dsimp only
      split <;> rfl
  · rw [RegisterProgress_eq, RegisterProgress_eq, skipNotFound_append, hskip]
    rcases Dictionary.RegisterProgress.loop d clock (a ++ b) ⟨[], [], 0⟩ with ⟨s, e⟩
    cases e with
    | some err => rfl
    | none =>
      dsimp only
      split <;> simp only [List.filter_append, filter_notAMiss_writes]
  · intro hkeyed id hmiss
    apply writesFor_eq_nil
    intro w hw
    obtain ⟨k, hk, v, hv⟩ := RegisterProgress_written d clock a b
      (fun k w => w.Id = k ∧ ∃ v, d.storage.GetVocab k = .ok (some v))
      (fun k v hv => ⟨hkeyed k v hv, v, hv⟩)
      (fun k w g t h => ⟨h.1, h.2⟩) w hw
    intro hid
    rw [hk] at hid
    rw [hid, hmiss] at hv
    cases hv
  · intro hkeyed hnoerr
    obtain ⟨s1, h1, h2, h3, h4, _, h6, _, h8⟩ := RegisterProgress_loop_spec d clock hkeyed
      (a ++ b) ⟨[], [], 0⟩ hnoerr (by simp) (by simp) (by simp)
    have hcalls := RegisterProgress_calls_of_loop d clock a b s1 h1
    have hfetches : ∀ c ∈ s1.calls, ∃ k, c = Call.GetVocab k := by
      intro c hc
      rcases h8 c hc with h | h
      · simp at h
      · exact h
    have hinv := RegisterProgress_loop_inv d clock
      (fun k w => ∃ v, d.storage.GetVocab k = .ok (some v) ∧ successOnly v w)
      (fun k v hv => ⟨v, hv, [], rfl⟩)
      (fun k w g t => by
        rintro ⟨v, hv, updates, rfl⟩
        exact ⟨v, hv, updates ++ [(g, t)], by simp [List.foldl_append]⟩)
      (a ++ b) ⟨[], [], 0⟩ (by simp)
    rw [h1] at hinv
    constructor
    · intro k hk v hv
      have hkin : k ∈ s1.m.map (fun kv => kv.1) := (h4 k).mpr (Or.inr ⟨hk, v, hv⟩)
      obtain ⟨w, hw⟩ : ∃ w, goMapGet s1.m k = some w := by
        cases hget : goMapGet s1.m k with
        | some w => exact ⟨w, rfl⟩
        | none => exact absurd hkin ((goMapGet_eq_none_iff s1.m k).mp hget)
      have hwrite : writesFor k (d.RegisterProgress clock a b).calls = [w] := by
        rw [hcalls, writesFor_append, writesFor_fetches k s1.calls hfetches, List.nil_append]
        exact writesFor_map_eq k w s1.m h2 h3 hw
      have hmem : (k, w) ∈ s1.m := goMapGet_mem s1.m k w hw
      refine ⟨?_, w, hwrite, ?_, ?_, ?_⟩
      · rw [hcalls, List.count_append, count_GetVocab_writes, Nat.add_zero,
          h6 k (by simp) ⟨v, hv⟩, if_pos hk]
        rfl
      · rw [hcalls]
        exact List.mem_append_right _ (List.mem_map.mpr ⟨(k, w), hmem, rfl⟩)
      · obtain ⟨v1, hv1, hsucc⟩ := hinv (k, w) hmem
        rw [hv] at hv1
        injection hv1 with hv1
        injection hv1 with hv1
        rw [hv1]
        exact hsucc
      · intro pre post f hforms hfirst
        obtain ⟨w1, hw1, happ⟩ :=
          (RegisterProgress_loop_successesApplied d clock k v hv pre post f hforms hfirst
            (a ++ b) ⟨[], [], 0⟩ s1 h1).2 rfl hk
        rw [hw] at hw1
        injection hw1 with hw1
        rw [hw1]
        exact happ
    · intro haccept
      have hnil : s1.m.filterMap (fun kv => d.storage.AddVocabulary kv.2) = [] := by
        rw [List.filterMap_eq_nil_iff]
        intro kv hkv
        apply haccept
        rw [hcalls]
        exact List.mem_append_right _ (List.mem_map.mpr ⟨kv, hkv, rfl⟩)
      rw [RegisterProgress_eq, h1]
      dsimp only
      rw [hnil]
      rfl

/-- C17 witness: item 2 is not found; it is named between two namings of item 1, which
is found.  Nothing is written for item 2; item 1 is fetched once and written once, with
two success steps applied to its form 10; and the call returns no error. -/
theorem C17_not_found_is_skipped_witness :
    pairDict.storage.GetVocab 2 = .ok none
    ∧ writesFor 2 (pairDict.RegisterProgress sampleClock [named 1 [10], named 2 [20]]
        [named 2 [20], named 1 [10]]).calls = []
    ∧ ((pairDict.RegisterProgress sampleClock [named 1 [10], named 2 [20]]
          [named 2 [20], named 1 [10]]).calls.count (Call.GetVocab 1) = 1
      ∧ ∃ w, writesFor 1 (pairDict.RegisterProgress sampleClock [named 1 [10], named 2 [20]]
            [named 2 [20], named 1 [10]]).calls = [w]
          ∧ successesApplied [] (sampleForm 10 0 0) 2 w)
    ∧ (pairDict.RegisterProgress sampleClock [named 1 [10], named 2 [20]]
        [named 2 [20], named 1 [10]]).result = .ok () :=
  have key := C17_not_found_is_skipped pairDict sampleClock [named 1 [10], named 2 [20]]
    [named 2 [20], named 1 [10]]
  have found := (key.2.2.2 pairDict_keyed (fun x _ err => pairDict_no_error x err)).1 1
    (by decide) (sampleVocab 1 [sampleForm 10 0 0]) rfl
  ⟨rfl, key.2.2.1 pairDict_keyed 2 rfl,
    ⟨found.1, found.2.elim (fun w hw =>
      ⟨w, hw.1, hw.2.2.2 [] [] (sampleForm 10 0 0) rfl (by simp)⟩)⟩,
    (key.2.2.2 pairDict_keyed (fun x _ err => pairDict_no_error x err)).2 (fun _ _ => rfl)⟩

/-! ## Theorems: the shape of a batch -/

theorem goMapGet_of_mem_nodup {β : Type} (m : List (UUID × β)) (k : UUID) (v : β)
    (hnd : (m.map (fun kv => kv.1)).Nodup) (h : (k, v) ∈ m) : goMapGet m k = some v := by
  induction m with
  | nil => cases h
  | cons e rest ih =>
    obtain ⟨k1, v1⟩ := e
    simp only [List.map_cons, List.nodup_cons] at hnd
    simp only [List.mem_cons, Prod.mk.injEq] at h
    rcases h with ⟨hk, hv⟩ | h
    · simp [goMapGet, hk, hv]
    · have hne : k1 ≠ k := by
        intro hk
        apply hnd.1
        rw [hk]
        exact List.mem_map.mpr ⟨(k, v), h, rfl⟩
      simp [goMapGet, hne, ih hnd.2 h]

theorem regroup_snoc (done : List formWithParent) (item : formWithParent) :
    WordPool.batchFromPool.regroup (done ++ [item])
      = WordPool.batchFromPool.regroup.body (WordPool.batchFromPool.regroup done) item := by
  unfold WordPool.batchFromPool.regroup
  rw [List.foldl_append]
  rfl

theorem regroup_spec (done : List formWithParent) :
    ((WordPool.batchFromPool.regroup done).map (fun kv => kv.1)).Nodup
    ∧ (∀ k, k ∈ (WordPool.batchFromPool.regroup done).map (fun kv => kv.1)
        ↔ ∃ it ∈ done, it.ParentVocab.Id = k)
    ∧ ∀ k v, goMapGet (WordPool.batchFromPool.regroup done) k = some v →
        v.Id = k
        ∧ v.Forms = (done.filter (fun it => decide (it.ParentVocab.Id = k))).map (fun it => it.Form)
        ∧ ∃ it ∈ done, it.ParentVocab.Id = k ∧ v.Definition = it.ParentVocab.Definition
            ∧ v.PartOfSpeech = it.ParentVocab.PartOfSpeech := by
  induction done using List.reverseRecOn with
  | nil =>
    refine ⟨by simp [WordPool.batchFromPool.regroup], by simp [WordPool.batchFromPool.regroup],
      ?_⟩
    intro k v h
    simp [WordPool.batchFromPool.regroup, goMapGet] at h
  | append_singleton done item ih =>
    obtain ⟨hnd, hkeys, hvals⟩ := ih
    rw [regroup_snoc]
    generalize WordPool.batchFromPool.regroup done = m at hnd hkeys hvals ⊢
    unfold WordPool.batchFromPool.regroup.body
    cases hget : goMapGet m item.ParentVocab.Id with
    | none =>
      have hout : item.ParentVocab.Id ∉ m.map (fun kv => kv.1) :=
        (goMapGet_eq_none_iff m _).mp hget
      have hnone : ∀ it ∈ done, it.ParentVocab.Id ≠ item.ParentVocab.Id := by
        intro it hit hid
        exact hout ((hkeys _).mpr ⟨it, hit, hid⟩)
      dsimp only
      rw [keys_goMapSet_none m _ _ hget]
      refine ⟨?_, ?_, ?_⟩
      · exact List.Nodup.append hnd (List.nodup_singleton _) (by simpa using hout)
      · intro k
        simp only [List.mem_append, List.mem_singleton, hkeys k]
        constructor
        · rintro (⟨it, hit, hid⟩ | hk)
          · exact ⟨it, Or.inl hit, hid⟩
          · exact ⟨item, Or.inr rfl, hk.symm⟩
        · rintro ⟨it, hit | hit, hid⟩
          · exact Or.inl ⟨it, hit, hid⟩
          · exact Or.inr (by rw [← hid, hit])
      · intro k v hv
        by_cases hk : k = item.ParentVocab.Id
        · subst hk
          rw [goMapGet_goMapSet_self] at hv
          injection hv with hv
          subst hv
          refine ⟨rfl, ?_, item, by simp, rfl, rfl, rfl⟩
          have hfil : done.filter (fun it => decide (it.ParentVocab.Id = item.ParentVocab.Id))
              = [] := by
            rw [List.filter_eq_nil_iff]
            intro it hit
            simpa using hnone it hit
          simp [List.filter_append, hfil]
        · rw [goMapGet_goMapSet_other _ _ _ _ hk] at hv
          obtain ⟨h1, h2, it, hit, h3⟩ := hvals k v hv
          refine ⟨h1, ?_, it, by simp [hit], h3⟩
          rw [h2]
          have : ¬ (item.ParentVocab.Id = k) := fun h => hk h.symm
          simp [List.filter_append, List.filter_cons, this]
    | some w =>
      obtain ⟨hw1, hw2, itw, hitw, hw3⟩ := hvals _ w hget
      dsimp only
      rw [keys_goMapSet_some m _ w _ hget]
      refine ⟨hnd, ?_, ?_⟩
      · intro k
        rw [hkeys k]
        constructor
        · rintro ⟨it, hit, hid⟩
          exact ⟨it, by simp [hit], hid⟩
        · rintro ⟨it, hit, hid⟩
          simp only [List.mem_append, List.mem_singleton] at hit
          rcases hit with hit | hit
          · exact ⟨it, hit, hid⟩
          · exact ⟨itw, hitw, by rw [hw3.1, ← hid, hit]⟩
      · intro k v hv
        by_cases hk : k = item.ParentVocab.Id
        · subst hk
          rw [goMapGet_goMapSet_self] at hv
          injection hv with hv
          subst hv
          refine ⟨hw1, ?_, itw, by simp [hitw], hw3⟩
          dsimp only
          rw [hw2]
          simp [List.filter_append]
        · rw [goMapGet_goMapSet_other _ _ _ _ hk] at hv
          obtain ⟨h1, h2, it, hit, h3⟩ := hvals k v hv
          refine ⟨h1, ?_, it, by simp [hit], h3⟩
          rw [h2]
          have : ¬ (item.ParentVocab.Id = k) := fun h => hk h.symm
          simp [List.filter_append, List.filter_cons, this]

theorem swapAt_perm {α : Type} [DecidableEq α] (l : List α) (i j : Nat) :
    (swapAt l i j).Perm l := by
  unfold swapAt
  cases hi : l[i]? with
  | none => exact List.Perm.refl _
  | some a =>
    cases hj : l[j]? with
    | none => exact List.Perm.refl _
    | some b =>
      dsimp only
      obtain ⟨hil, hia⟩ := List.getElem?_eq_some_iff.mp hi
      obtain ⟨hjl, hjb⟩ := List.getElem?_eq_some_iff.mp hj
      rw [List.perm_iff_count]
      intro x
      have hjl2 : j < (l.set i b).length := by simpa using hjl
      rw [List.count_set _ _ _ _ hjl2, List.count_set _ _ _ _ hil]
      have hset : (l.set i b)[j] = b := by
        rw [List.getElem_set]
        split
        · rfl
        · exact hjb
      rw [hset, hia]
      have ha : (if (a == x) = true then 1 else 0) ≤ l.count x := by
        split
        · rename_i hax
          have hax2 : a = x := by simpa using hax
          have : a ∈ l := hia ▸ List.getElem_mem hil
          rw [← hax2]
          exact List.count_pos_iff.mpr this
        · exact Nat.zero_le _
      omega

theorem shuffle_foldl_perm {α : Type} [DecidableEq α] {n : Nat}
    (swaps : List (Fin n × Fin n)) :
    ∀ l : List α, (swaps.foldl (fun l ij => swapAt l ij.1.val ij.2.val) l).Perm l := by
  induction swaps with
  | nil => intro l; exact List.Perm.refl _
  | cons s rest ih =>
    intro l
    simp only [List.foldl_cons]
    exact (ih _).trans (swapAt_perm l _ _)

theorem subperm_map {α β : Type} (f : α → β) (xs ys : List α) (h : xs.Subperm ys) :
    (xs.map f).Subperm (ys.map f) := by
  obtain ⟨l, hp, hs⟩ := h
  exact ⟨l.map f, hp.map f, hs.map f⟩

theorem batchFromPool_selection (wp : WordPool) (pool : Pool) (n : Int) (hn : 0 ≤ n) :
    ∃ selected : List formWithParent,
      selected.Subperm (WordPool.batchFromPool.flatten pool.Vocabs)
      ∧ wp.batchFromPool pool n
          = some { Vocabs := (WordPool.batchFromPool.regroup selected).map (fun kv => kv.2) } := by
  unfold WordPool.batchFromPool
  dsimp only
  have hperm := shuffle_foldl_perm
    (wp.rand.Shuffle (WordPool.batchFromPool.flatten pool.Vocabs).length)
    (WordPool.batchFromPool.flatten pool.Vocabs)
  generalize (wp.rand.Shuffle (WordPool.batchFromPool.flatten pool.Vocabs).length).foldl
      (fun l ij => swapAt l ij.1.val ij.2.val) (WordPool.batchFromPool.flatten pool.Vocabs)
    = shuffled at hperm ⊢
  have hsub : ∀ k : Nat, (shuffled.take k).Subperm
      (WordPool.batchFromPool.flatten pool.Vocabs) :=
    fun k => (List.take_sublist k shuffled).subperm.trans hperm.subperm
  by_cases hlt : (shuffled.length : Int) < n
  · simp only [hlt, if_true]
    have h0 : ¬ ((shuffled.length : Int) < 0) := by omega
    simp only [h0, if_false]
    exact ⟨_, hsub _, rfl⟩
  · simp only [hlt, if_false]
    have h0 : ¬ (n < 0) := by omega
    simp only [h0, if_false]
    exact ⟨_, hsub _, rfl⟩

theorem flatten_filter_parent (vocabs : List Vocab) (pv : Vocab)
    (hnd : (vocabs.map (fun v => v.Id)).Nodup) (hpv : pv ∈ vocabs) :
    (WordPool.batchFromPool.flatten vocabs).filter
        (fun it => decide (it.ParentVocab.Id = pv.Id))
      = pv.Forms.map (fun form => { ParentVocab := pv, Form := form }) := by
  rw [flatten_eq]
  induction vocabs with
  | nil => cases hpv
  | cons v rest ih =>
    simp only [List.map_cons, List.nodup_cons] at hnd
    simp only [List.flatMap_cons, List.filter_append]
    have hnone : ∀ (ws : List Vocab), (∀ w ∈ ws, w.Id ≠ pv.Id) →
        (ws.flatMap (fun vocab => vocab.Forms.map
          (fun form => ({ ParentVocab := vocab, Form := form } : formWithParent)))).filter
          (fun it => decide (it.ParentVocab.Id = pv.Id)) = [] := by
      intro ws hws
      rw [List.filter_eq_nil_iff]
      intro it hit
      simp only [List.mem_flatMap, List.mem_map] at hit
      obtain ⟨w, hw, f, _, rfl⟩ := hit
      simpa using hws w hw
    simp only [List.mem_cons] at hpv
    rcases hpv with hpv | hpv
    · subst hpv
      have hrest : ∀ w ∈ rest, w.Id ≠ pv.Id := by
        intro w hw hid
        exact hnd.1 (List.mem_map.mpr ⟨w, hw, hid⟩)
      rw [hnone rest hrest, List.append_nil, List.filter_eq_self]
      intro it hit
      simp only [List.mem_map] at hit
      obtain ⟨f, _, rfl⟩ := hit
      simp
    · have hv : v.Id ≠ pv.Id := by
        intro hid
        exact hnd.1 (List.mem_map.mpr ⟨pv, hpv, hid.symm⟩)
      have hhead : (v.Forms.map (fun form =>
          ({ ParentVocab := v, Form := form } : formWithParent))).filter
          (fun it => decide (it.ParentVocab.Id = pv.Id)) = [] := by
        rw [List.filter_eq_nil_iff]
        intro it hit
        simp only [List.mem_map] at hit
        obtain ⟨f, _, rfl⟩ := hit
        simpa using hv
      rw [hhead, List.nil_append]
      exact ih hnd.2 hpv

theorem batch_item_of_regroup (selected : List formWithParent) (bv : Vocab)
    (hbv : bv ∈ (WordPool.batchFromPool.regroup selected).map (fun kv => kv.2)) :
    bv.Forms = (selected.filter (fun it => decide (it.ParentVocab.Id = bv.Id))).map
        (fun it => it.Form)
    ∧ ∃ it ∈ selected, it.ParentVocab.Id = bv.Id ∧ bv.Definition = it.ParentVocab.Definition
        ∧ bv.PartOfSpeech = it.ParentVocab.PartOfSpeech := by
  obtain ⟨hnd, _, hvals⟩ := regroup_spec selected
  simp only [List.mem_map] at hbv
  obtain ⟨⟨k, v⟩, hkv, rfl⟩ := hbv
  obtain ⟨h1, h2, h3⟩ := hvals k v (goMapGet_of_mem_nodup _ k v hnd hkv)
  dsimp only
  rw [h1]
  exact ⟨h2, h3⟩

theorem batch_ids_nodup (selected : List formWithParent) :
    (((WordPool.batchFromPool.regroup selected).map (fun kv => kv.2)).map
      (fun v => v.Id)).Nodup := by
  obtain ⟨hnd, _, hvals⟩ := regroup_spec selected
  have : ((WordPool.batchFromPool.regroup selected).map (fun kv => kv.2)).map (fun v => v.Id)
      = (WordPool.batchFromPool.regroup selected).map (fun kv => kv.1) := by
    rw [List.map_map]
    apply List.map_congr_left
    intro kv hkv
    exact (hvals kv.1 kv.2 (goMapGet_of_mem_nodup _ kv.1 kv.2 hnd hkv)).1
  rw [this]
  exact hnd

/-- C21: for every pool whose item ids are distinct, every random source and every
`n >= 0`, the batch `batchFromPool(pool, n)` returns is a selection without repetition of
the pool's (item, form) pairs: the batch items have distinct ids, and every batch item
carries the id, the definition and the part of speech of the pool item with the same id
and, as its forms, forms of that pool item, none taken more often than it occurs there. -/
theorem C21_batch_is_selection (wp : WordPool) (pool : Pool) (n : Int) (hn : 0 ≤ n)
    (hids : (pool.Vocabs.map (fun v => v.Id)).Nodup) :
    ∃ batch : Batch, wp.batchFromPool pool n = some batch
      ∧ (batch.Vocabs.map (fun v => v.Id)).Nodup
      ∧ ∀ bv ∈ batch.Vocabs, ∃ pv ∈ pool.Vocabs,
          bv.Id = pv.Id ∧ bv.Definition = pv.Definition ∧ bv.PartOfSpeech = pv.PartOfSpeech
          ∧ bv.Forms.Subperm pv.Forms := by
  obtain ⟨selected, hsub, hb⟩ := batchFromPool_selection wp pool n hn
  refine ⟨_, hb, batch_ids_nodup selected, ?_⟩
  intro bv hbv
  obtain ⟨hforms, it, hit, hid, hdef, hpos⟩ := batch_item_of_regroup selected bv hbv
  have hmem : it ∈ WordPool.batchFromPool.flatten pool.Vocabs := hsub.subset hit
  obtain ⟨hparent, _⟩ := mem_flatten pool.Vocabs it hmem
  refine ⟨it.ParentVocab, hparent, hid.symm, hdef, hpos, ?_⟩
  rw [hforms]
  have hfil := (hsub.filter (fun x => decide (x.ParentVocab.Id = bv.Id)))
  rw [← hid, flatten_filter_parent pool.Vocabs it.ParentVocab hids hparent] at hfil
  have := subperm_map (fun x : formWithParent => x.Form) _ _ hfil
  have hmap : (it.ParentVocab.Forms.map (fun form =>
      ({ ParentVocab := it.ParentVocab, Form := form } : formWithParent))).map
      (fun x => x.Form) = it.ParentVocab.Forms := by
    generalize it.ParentVocab.Forms = forms
    generalize it.ParentVocab = pv
    induction forms with
    | nil => rfl
    | cons f rest ih => simp only [List.map_cons, ih]
  rw [hmap, hid] at this
  exact this

/-- C21 witness: the sample pool (item 1 with forms 10 and 11, item 2 with form 20), two
forms asked for, the random source reversing. -/
theorem C21_batch_is_selection_witness :
    ∃ batch : Batch, sampleWordPool.batchFromPool samplePool 2 = some batch
      ∧ (batch.Vocabs.map (fun v => v.Id)).Nodup
      ∧ ∀ bv ∈ batch.Vocabs, ∃ pv ∈ samplePool.Vocabs,
          bv.Id = pv.Id ∧ bv.Definition = pv.Definition ∧ bv.PartOfSpeech = pv.PartOfSpeech
          ∧ bv.Forms.Subperm pv.Forms :=
  C21_batch_is_selection sampleWordPool samplePool 2 (by decide) (by decide)

/-- C29: for every pool, every random source and every `n >= 0`, the batch
`batchFromPool(pool, n)` returns is well formed: its item ids are pairwise distinct and
every batch item has at least one form. -/
theorem C29_batch_well_formed (wp : WordPool) (pool : Pool) (n : Int) (hn : 0 ≤ n) :
    ∃ batch : Batch, wp.batchFromPool pool n = some batch
      ∧ (batch.Vocabs.map (fun v => v.Id)).Nodup
      ∧ ∀ bv ∈ batch.Vocabs, bv.Forms ≠ [] := by
  obtain ⟨selected, _, hb⟩ := batchFromPool_selection wp pool n hn
  refine ⟨_, hb, batch_ids_nodup selected, ?_⟩
  intro bv hbv hnil
  obtain ⟨hforms, it, hit, hid, _⟩ := batch_item_of_regroup selected bv hbv
  rw [hforms, List.map_eq_nil_iff, List.filter_eq_nil_iff] at hnil
  exact hnil it hit (by simpa using hid)

/-- C29 witness: a pool in which two items share the id 1; all three forms are asked
for and end up under one batch item. -/
theorem C29_batch_well_formed_witness :
    ∃ batch : Batch,
      sampleWordPool.batchFromPool
        { CreatedAt := 0
          Vocabs := [sampleVocab 1 [sampleForm 10 0 0, sampleForm 11 0 0],
                     sampleVocab 1 [sampleForm 20 0 0]] } 3 = some batch
      ∧ (batch.Vocabs.map (fun v => v.Id)).Nodup
      ∧ ∀ bv ∈ batch.Vocabs, bv.Forms ≠ [] :=
  C29_batch_well_formed sampleWordPool
    { CreatedAt := 0
      Vocabs := [sampleVocab 1 [sampleForm 10 0 0, sampleForm 11 0 0],
                 sampleVocab 1 [sampleForm 20 0 0]] } 3 (by decide)

/-! ## Theorems: batch size, missing pool, frame and non-interference -/

/-- C22 (the code against its documentation): when the stored pool is fresh and holds at
least 20 forms, `GetBatch` returns a batch of exactly 10 forms, not 20: the size handed
to `batchFromPool` is the constant 10. -/
theorem C22_GetBatch_returns_ten (wp : WordPool) (clock : Nat → Time) (pool : Pool)
    (hpool : wp.storage.FetchUserPool = .ok (some pool))
    (hfresh : clock 0 ≤ pool.CreatedAt + 5 * Hour) (hforms : 20 ≤ formsTotal pool.Vocabs) :
    ∃ batch : Batch, (wp.GetBatch clock).result = .ok batch
      ∧ formsTotal batch.Vocabs = 10 := by
  have hne : pool.Vocabs ≠ [] := by
    intro h
    rw [h] at hforms
    simp [formsTotal] at hforms
  have hget := GetBatch_fresh wp clock pool hpool hne hfresh
  obtain ⟨selected, _, hlen, hb⟩ := batchFromPool_of_nonneg wp pool 10 (by decide)
  refine ⟨_, by rw [hget]; unfold WordPool.GetBatch.sample; rw [hb], ?_⟩
  show formsTotal ((WordPool.batchFromPool.regroup selected).map (fun kv => kv.2)) = _
  rw [regroup_formsTotal]
  omega

/-- C22 witness: a pool created one hour before the call, with one item of 20 forms. -/
theorem C22_GetBatch_returns_ten_witness :
    ∃ batch : Batch, (twentyWordPool.GetBatch sampleClock).result = .ok batch
      ∧ formsTotal batch.Vocabs = 10 :=
  C22_GetBatch_returns_ten twentyWordPool sampleClock
    { CreatedAt := 999 * Hour
      Vocabs := [sampleVocab 1 ((List.range 20).map (fun i => sampleForm (100 + i) 0 0))] }
    rfl (by decide) (by decide)

/-- C26 (the code against the claim): when the store holds no pool for the user,
`RemoveFromPool` makes the pool fetch and then ends in a run-time panic, whatever the
input: `removeVocabFromPool` dereferences the nil pool. -/
theorem C26_RemoveFromPool_panics_without_pool (wp : WordPool) (l : List Vocab)
    (hnone : wp.storage.FetchUserPool = .ok none) :
    wp.RemoveFromPool l = ⟨[Call.FetchUserPool], .panic⟩ := by
  unfold WordPool.RemoveFromPool
  rw [hnone]

/-- C26 witness: the store that holds no pool, and an empty input. -/
theorem C26_RemoveFromPool_panics_without_pool_witness :
    sampleWordPool.RemoveFromPool [] = ⟨[Call.FetchUserPool], .panic⟩ :=
  C26_RemoveFromPool_panics_without_pool sampleWordPool [] rfl

theorem UpdateFormSuccess_body_frame (f : VocabForm) (now : Time) :
    (Vocab.UpdateFormSuccess.body f now).Id = f.Id
      ∧ (Vocab.UpdateFormSuccess.body f now).Value = f.Value
      ∧ (Vocab.UpdateFormSuccess.body f now).Form = f.Form := by
  unfold Vocab.UpdateFormSuccess.body
  dsimp only
  split <;> exact ⟨rfl, rfl, rfl⟩

theorem UpdateFormSuccess_loop_no_match (g : VocabForm) (now : Time) (xs : List VocabForm)
    (h : ∀ x ∈ xs, x.Id ≠ g.Id) : Vocab.UpdateFormSuccess.loop g now xs = xs := by
  induction xs with
  | nil => rfl
  | cons x rest ih =>
    have hx : x.Id ≠ g.Id := h x (List.mem_cons_self _ _)
    simp [Vocab.UpdateFormSuccess.loop, hx, ih (fun y hy => h y (List.mem_cons_of_mem _ hy))]

theorem UpdateFormError_loop_no_match (g : VocabForm) (xs : List VocabForm)
    (h : ∀ x ∈ xs, x.Id ≠ g.Id) : Vocab.UpdateFormError.loop g xs = xs := by
  induction xs with
  | nil => rfl
  | cons x rest ih =>
    have hx : x.Id ≠ g.Id := h x (List.mem_cons_self _ _)
    simp [Vocab.UpdateFormError.loop, hx, ih (fun y hy => h y (List.mem_cons_of_mem _ hy))]

/-- C27: `UpdateFormSuccess` and `UpdateFormError` leave the item's id, definition, part
of speech and pause value as they are; of the forms they replace only the first one
whose id matches, keeping its id, value and tag (and, for `UpdateFormError`, its streak
and `lastSuccess`), every other form staying in place unchanged; and when no form has the
given id the item is returned unchanged. -/
theorem C27_updates_touch_one_form (v : Vocab) (g : VocabForm) (now : Time) :
    ((v.UpdateFormSuccess g now).Id = v.Id
      ∧ (v.UpdateFormSuccess g now).Definition = v.Definition
      ∧ (v.UpdateFormSuccess g now).PartOfSpeech = v.PartOfSpeech
      ∧ (v.UpdateFormSuccess g now).PausedUntil = v.PausedUntil)
    ∧ ((v.UpdateFormError g).Id = v.Id
      ∧ (v.UpdateFormError g).Definition = v.Definition
      ∧ (v.UpdateFormError g).PartOfSpeech = v.PartOfSpeech
      ∧ (v.UpdateFormError g).PausedUntil = v.PausedUntil)
    ∧ (∀ (pre post : List VocabForm) (f : VocabForm), v.Forms = pre ++ f :: post →
        (∀ x ∈ pre, x.Id ≠ g.Id) → f.Id = g.Id →
        ∃ f1 f2 : VocabForm,
          (v.UpdateFormSuccess g now).Forms = pre ++ f1 :: post
          ∧ f1.Id = f.Id ∧ f1.Value = f.Value ∧ f1.Form = f.Form
          ∧ (v.UpdateFormError g).Forms = pre ++ f2 :: post
          ∧ f2.Id = f.Id ∧ f2.Value = f.Value ∧ f2.Form = f.Form
          ∧ f2.SuccessInRow = f.SuccessInRow ∧ f2.LastSuccess = f.LastSuccess)
    ∧ ((∀ x ∈ v.Forms, x.Id ≠ g.Id) →
        v.UpdateFormSuccess g now = v ∧ v.UpdateFormError g = v) := by
  refine ⟨⟨rfl, rfl, rfl, rfl⟩, ⟨rfl, rfl, rfl, rfl⟩, ?_, ?_⟩
  · intro pre post f hforms hpre hf
    obtain ⟨h1, h2, h3⟩ := UpdateFormSuccess_body_frame f now
    refine ⟨Vocab.UpdateFormSuccess.body f now, Vocab.UpdateFormError.body f, ?_, h1, h2, h3,
      ?_, rfl, rfl, rfl, rfl, rfl⟩
    · simp only [Vocab.UpdateFormSuccess, hforms]
      exact UpdateFormSuccess_loop_split g now pre post f hpre hf
    · simp only [Vocab.UpdateFormError, hforms]
      exact UpdateFormError_loop_split g pre post f hpre hf
  · intro hno
    constructor
    · unfold Vocab.UpdateFormSuccess
      rw [UpdateFormSuccess_loop_no_match g now v.Forms hno]
    · unfold Vocab.UpdateFormError
      rw [UpdateFormError_loop_no_match g v.Forms hno]

theorem UpdateFormSuccess_loop_congr (g g2 : VocabForm) (now : Time) (h : g.Id = g2.Id)
    (xs : List VocabForm) :
    Vocab.UpdateFormSuccess.loop g now xs = Vocab.UpdateFormSuccess.loop g2 now xs := by
  induction xs with
  | nil => rfl
  | cons x rest ih => simp only [Vocab.UpdateFormSuccess.loop, h, ih]

theorem forms_congr (clock : Nat → Time) (id : UUID) (fs : List VocabForm) :
    ∀ (fs2 : List VocabForm) (s : progressState),
      fs.map (fun g => g.Id) = fs2.map (fun g => g.Id) →
      Dictionary.RegisterProgress.forms clock id fs s
        = Dictionary.RegisterProgress.forms clock id fs2 s := by
  unfold Dictionary.RegisterProgress.forms
  induction fs with
  | nil =>
    intro fs2 s h
    cases fs2 with
    | nil => rfl
    | cons g2 rest2 => simp at h
  | cons g rest ih =>
    intro fs2 s h
    cases fs2 with
    | nil => simp at h
    | cons g2 rest2 =>
      simp only [List.map_cons, List.cons.injEq] at h
      simp only [List.foldl_cons]
      have hbody : Dictionary.RegisterProgress.forms.body clock id s g
          = Dictionary.RegisterProgress.forms.body clock id s g2 := by
        unfold Dictionary.RegisterProgress.forms.body
        cases goMapGet s.m id with
        | none => rfl
        | some vocab =>
          simp only [Vocab.UpdateFormSuccess, UpdateFormSuccess_loop_congr g g2 _ h.1]
      rw [hbody]
      exact ih rest2 _ h.2

theorem RegisterProgress_loop_congr (d : Dictionary) (clock : Nat → Time) (l : List Vocab) :
    ∀ (l2 : List Vocab) (s : progressState), namedIds l = namedIds l2 →
      Dictionary.RegisterProgress.loop d clock l s
        = Dictionary.RegisterProgress.loop d clock l2 s := by
  induction l with
  | nil =>
    intro l2 s h
    cases l2 with
    | nil => rfl
    | cons x2 rest2 => simp [namedIds] at h
  | cons x rest ih =>
    intro l2 s h
    cases l2 with
    | nil => simp [namedIds] at h
    | cons x2 rest2 =>
      simp only [namedIds, List.map_cons, List.cons.injEq, Prod.mk.injEq] at h
      obtain ⟨⟨hid, hforms⟩, hrest⟩ := h
      have hf : ∀ s : progressState,
          Dictionary.RegisterProgress.forms clock x.Id x.Forms s
            = Dictionary.RegisterProgress.forms clock x2.Id x2.Forms s := by
        intro s
        rw [← hid]
        exact forms_congr clock x.Id x.Forms x2.Forms s hforms
      have hr : ∀ s : progressState,
          Dictionary.RegisterProgress.loop d clock rest s
            = Dictionary.RegisterProgress.loop d clock rest2 s :=
        fun s => ih rest2 s hrest
      simp only [Dictionary.RegisterProgress.loop, hf, hr, ← hid]

/-- C28: what `RegisterProgress` does depends on its input lists only through the item
ids and form ids they name: two calls against the same store and clock whose lists agree
on the sequence of (item id, form ids) make the same store calls, with identical items
written, and end the same way, whatever the other fields of the input items and forms
are. -/
theorem C28_only_named_ids_matter (d : Dictionary) (clock : Nat → Time)
    (a b a2 b2 : List Vocab) (ha : namedIds a = namedIds a2) (hb : namedIds b = namedIds b2) :
    d.RegisterProgress clock a b = d.RegisterProgress clock a2 b2 := by
  rw [RegisterProgress_eq, RegisterProgress_eq]
  have h : namedIds (a ++ b) = namedIds (a2 ++ b2) := by
    unfold namedIds at *
    rw [List.map_append, List.map_append, ha, hb]
  rw [RegisterProgress_loop_congr d clock (a ++ b) (a2 ++ b2) _ h]

/-- C28 witness: item 1 with form 10 named in both lists; the second call sends the same
ids with other levels, streaks, times, values, definitions and a pause value. -/
theorem C28_only_named_ids_matter_witness :
    pairDict.RegisterProgress sampleClock [named 1 [10]] [named 1 [10], named 2 [20]]
      = pairDict.RegisterProgress sampleClock
          [{ sampleVocab 1 [sampleForm 10 5 3] with PausedUntil := some 9 }]
          [sampleVocab 1 [{ sampleForm 10 2 6 with LastSuccess := 4 }],
            sampleVocab 2 [sampleForm 20 1 1]] :=
  C28_only_named_ids_matter pairDict sampleClock [named 1 [10]] [named 1 [10], named 2 [20]]
    [{ sampleVocab 1 [sampleForm 10 5 3] with PausedUntil := some 9 }]
    [sampleVocab 1 [{ sampleForm 10 2 6 with LastSuccess := 4 }], sampleVocab 2 [sampleForm 20 1 1]]
    rfl rfl

theorem due_unfold (v : VocabForm) (t : Time) :
    v.CanBeAddedToQueue t = true
      ↔ (v.Form ≠ "definite_singular" ∧ v.Form ≠ "definite_plural"
          ∧ v.LastSuccess + interval v.Level < t) := by
  unfold VocabForm.CanBeAddedToQueue
  by_cases hs : v.Form = "definite_singular"
  · simp [hs]
  · by_cases hp : v.Form = "definite_plural"
    · simp [hp]
    · simp only [hs, hp, or_self, if_false]
      rw [interval_eq]
      simp [hs, hp]

/-- C30: due-ness is monotone.  A form that is due at time `t` is due at every time
`t2 >= t`; and for levels `lo < hi` within 0..5 the interval of `lo` is strictly shorter
than that of `hi`, so with the same tag, `lastSuccess` and time a form that is due at
level `hi` is due at level `lo`. -/
theorem C30_dueness_monotone (v : VocabForm) (t t2 : Time) :
    (v.CanBeAddedToQueue t = true → t ≤ t2 → v.CanBeAddedToQueue t2 = true)
    ∧ ∀ lo hi : Int, 0 ≤ lo → lo < hi → hi ≤ 5 →
        (∃ i j : Duration, levelToInterval lo = some i ∧ levelToInterval hi = some j ∧ i < j)
        ∧ (({ v with Level := hi } : VocabForm).CanBeAddedToQueue t = true →
            ({ v with Level := lo } : VocabForm).CanBeAddedToQueue t = true) := by
  constructor
  · intro hdue hle
    rw [due_unfold] at hdue ⊢
    exact ⟨hdue.1, hdue.2.1, lt_of_lt_of_le hdue.2.2 hle⟩
  · intro lo hi h0 hlt h5
    have hlo : lo = 0 ∨ lo = 1 ∨ lo = 2 ∨ lo = 3 ∨ lo = 4 := by omega
    have hhi : hi = 1 ∨ hi = 2 ∨ hi = 3 ∨ hi = 4 ∨ hi = 5 := by omega
    have hint : interval lo < interval hi := by
      rcases hlo with rfl | rfl | rfl | rfl | rfl <;>
        rcases hhi with rfl | rfl | rfl | rfl | rfl <;>
        first
          | (exfalso; omega)
          | (unfold interval Hour; decide)
    constructor
    · refine ⟨interval lo, interval hi, ?_, ?_, hint⟩
      · rcases hlo with rfl | rfl | rfl | rfl | rfl <;> (unfold levelToInterval interval Hour; decide)
      · rcases hhi with rfl | rfl | rfl | rfl | rfl <;> (unfold levelToInterval interval Hour; decide)
    · intro hdue
      rw [due_unfold] at hdue ⊢
      exact ⟨hdue.1, hdue.2.1, lt_trans (by linarith [hint]) hdue.2.2⟩

/-! ## Theorems: adding words and reading sets -/

theorem AddWord_forms_spec (newId : Nat → UUID) (hnew : ∀ k, newId k ≠ 0) :
    ∀ (fs : List VocabForm) (k : Nat),
      List.Forall₂ (fun f g => g = { f with Id := g.Id } ∧ g.Id ≠ 0 ∧ (f.Id ≠ 0 → g.Id = f.Id))
        fs (Dictionary.AddWord.forms newId fs k) := by
  intro fs
  induction fs with
  | nil => intro k; exact List.Forall₂.nil
  | cons f rest ih =>
    intro k
    unfold Dictionary.AddWord.forms
    by_cases h : f.Id = 0
    · rw [if_pos h]
      exact List.Forall₂.cons ⟨rfl, hnew k, fun hne => absurd h hne⟩ (ih (k + 1))
    · rw [if_neg h]
      exact List.Forall₂.cons ⟨rfl, h, fun _ => rfl⟩ (ih k)

theorem AddWord_forms_length (newId : Nat → UUID) :
    ∀ (fs : List VocabForm) (k : Nat), (Dictionary.AddWord.forms newId fs k).length = fs.length := by
  intro fs
  induction fs with
  | nil => intro k; rfl
  | cons f rest ih =>
    intro k
    unfold Dictionary.AddWord.forms
    by_cases h : f.Id = 0
    · rw [if_pos h]; simp [ih]
    · rw [if_neg h]; simp [ih]

theorem AddWord_forms_cons (newId : Nat → UUID) (f : VocabForm) (rest : List VocabForm)
    (k : Nat) :
    Dictionary.AddWord.forms newId (f :: rest) k
      = if f.Id = 0 then
          { f with Id := newId k } :: Dictionary.AddWord.forms newId rest (k + 1)
        else f :: Dictionary.AddWord.forms newId rest k := by
  rw [Dictionary.AddWord.forms]

theorem AddWord_forms_nonNil (newId : Nat → UUID) (hnew : ∀ k, newId k ≠ 0) :
    ∀ (fs : List VocabForm) (k : Nat), ∀ g ∈ Dictionary.AddWord.forms newId fs k, g.Id ≠ 0 := by
  intro fs
  induction fs with
  | nil => intro k g hg; simp [Dictionary.AddWord.forms] at hg
  | cons f rest ih =>
    intro k g hg
    rw [AddWord_forms_cons] at hg
    by_cases h : f.Id = 0
    · rw [if_pos h] at hg
      rcases List.mem_cons.mp hg with rfl | hg
      · exact hnew k
      · exact ih _ g hg
    · rw [if_neg h] at hg
      rcases List.mem_cons.mp hg with rfl | hg
      · exact h
      · exact ih _ g hg

theorem AddWord_forms_append (newId : Nat → UUID) :
    ∀ (pre rest : List VocabForm) (k : Nat),
      Dictionary.AddWord.forms newId (pre ++ rest) k
        = Dictionary.AddWord.forms newId pre k
          ++ Dictionary.AddWord.forms newId rest (k + nilIds pre) := by
  intro pre
  induction pre with
  | nil => intro rest k; simp [Dictionary.AddWord.forms, nilIds]
  | cons f pre ih =>
    intro rest k
    rw [List.cons_append, AddWord_forms_cons, AddWord_forms_cons]
    by_cases h : f.Id = 0
    · have hn : nilIds (f :: pre) = nilIds pre + 1 := by simp [nilIds, h]
      rw [if_pos h, if_pos h, ih, hn, List.cons_append,
        show k + 1 + nilIds pre = k + (nilIds pre + 1) by omega]
    · have hn : nilIds (f :: pre) = nilIds pre := by simp [nilIds, h]
      rw [if_neg h, if_neg h, ih, hn, List.cons_append]

theorem UpdateWord_forms_eq (newId : Nat → UUID) :
    ∀ (fs : List VocabForm) (k : Nat),
      Dictionary.UpdateWord.forms newId fs k = Dictionary.AddWord.forms newId fs k := by
  intro fs
  induction fs with
  | nil => intro k; rfl
  | cons f rest ih =>
    intro k
    simp only [Dictionary.UpdateWord.forms, Dictionary.AddWord.forms, ih]

theorem AddWord_vocab (d : Dictionary) (newId : Nat → UUID) (vocab : Vocab) :
    (d.AddWord newId vocab).vocab
      = { vocab with
          Id := if vocab.Id = 0 then newId 0 else vocab.Id
          Forms := Dictionary.AddWord.forms newId vocab.Forms (if vocab.Id = 0 then 1 else 0) } := by
  unfold Dictionary.AddWord
  by_cases h : vocab.Id = 0
  · simp only [if_pos h]
  · simp only [if_neg h]

/-- C23: for every item passed to `AddWord` (with a source of identifiers that never
yields `uuid.Nil`), the returned item is the stored one, its id and the id of each of its
forms are non-nil; an id that was non-nil is kept, a nil id is replaced by an identifier
drawn from the source, each nil id by a draw of its own (the item first, then the forms
in order); every other field of the item and of its forms is unchanged; and `UpdateWord`
does exactly what `AddWord` does. -/
theorem C23_AddWord_assigns_ids (d : Dictionary) (newId : Nat → UUID) (vocab : Vocab)
    (hnew : ∀ k, newId k ≠ 0) :
    (d.AddWord newId vocab).vocab.Id ≠ 0
    ∧ (∀ g ∈ (d.AddWord newId vocab).vocab.Forms, g.Id ≠ 0)
    ∧ (vocab.Id ≠ 0 → (d.AddWord newId vocab).vocab.Id = vocab.Id)
    ∧ (vocab.Id = 0 → (d.AddWord newId vocab).vocab.Id = newId 0)
    ∧ (d.AddWord newId vocab).vocab
        = { vocab with Id := (d.AddWord newId vocab).vocab.Id
                       Forms := (d.AddWord newId vocab).vocab.Forms }
    ∧ List.Forall₂ (fun f g => g = { f with Id := g.Id } ∧ (f.Id ≠ 0 → g.Id = f.Id))
        vocab.Forms (d.AddWord newId vocab).vocab.Forms
    ∧ (∀ (pre post : List VocabForm) (f : VocabForm), vocab.Forms = pre ++ f :: post →
        f.Id = 0 →
        ((d.AddWord newId vocab).vocab.Forms.map (fun g => g.Id))[pre.length]?
          = some (newId ((if vocab.Id = 0 then 1 else 0) + nilIds pre)))
    ∧ (d.AddWord newId vocab).calls = [Call.AddVocabulary (d.AddWord newId vocab).vocab]
    ∧ (d.AddWord newId vocab).err = d.storage.AddVocabulary (d.AddWord newId vocab).vocab
    ∧ d.UpdateWord newId vocab = d.AddWord newId vocab := by
  have hspec := AddWord_forms_spec newId hnew vocab.Forms (if vocab.Id = 0 then 1 else 0)
  refine ⟨?_, ?_, ?_, ?_, ?_, ?_, ?_, ?_, ?_, ?_⟩
  · rw [AddWord_vocab]
    by_cases h : vocab.Id = 0
    · simp only [if_pos h]; exact hnew 0
    · simp only [if_neg h]; exact h
  · rw [AddWord_vocab]
    exact AddWord_forms_nonNil newId hnew _ _
  · intro h
    rw [AddWord_vocab]
    simp only [if_neg h]
  · intro h
    rw [AddWord_vocab]
    simp only [if_pos h]
  · rw [AddWord_vocab]
  · rw [AddWord_vocab]
    exact hspec.imp (fun _ _ h => ⟨h.1, h.2.2⟩)
  · intro pre post f hforms hf
    rw [AddWord_vocab]
    show ((Dictionary.AddWord.forms newId vocab.Forms _).map (fun g => g.Id))[pre.length]? = _
    rw [hforms, AddWord_forms_append, List.map_append,
      List.getElem?_append_right (by simp [AddWord_forms_length])]
    simp [AddWord_forms_length, Dictionary.AddWord.forms, hf]
  · rfl
  · rfl
  · unfold Dictionary.UpdateWord Dictionary.AddWord
    simp only [UpdateWord_forms_eq]

/-- C23 witness: `nilVocab` with the identifiers 100, 101, 102: the item gets 100, the
first form 101, the second keeps 10 and the third gets 102. -/
theorem C23_AddWord_assigns_ids_witness :
    (∀ k, countingIds k ≠ 0)
    ∧ ((⟨emptyStore⟩ : Dictionary).AddWord countingIds nilVocab).vocab.Id = 100
    ∧ ((⟨emptyStore⟩ : Dictionary).AddWord countingIds nilVocab).vocab.Forms.map (fun g => g.Id)
        = [101, 10, 102]
    ∧ (⟨emptyStore⟩ : Dictionary).UpdateWord countingIds nilVocab
        = (⟨emptyStore⟩ : Dictionary).AddWord countingIds nilVocab :=
  ⟨fun k => Nat.ne_of_gt (Nat.lt_of_lt_of_le (by decide : 0 < 100) (Nat.le_add_right 100 k)),
    (C23_AddWord_assigns_ids ⟨emptyStore⟩ countingIds nilVocab
      (fun k => Nat.ne_of_gt (Nat.lt_of_lt_of_le (by decide : 0 < 100) (Nat.le_add_right 100 k)))).2.2.2.1 rfl,
    by decide,
    (C23_AddWord_assigns_ids ⟨emptyStore⟩ countingIds nilVocab
      (fun k => Nat.ne_of_gt (Nat.lt_of_lt_of_le (by decide : 0 < 100) (Nat.le_add_right 100 k)))).2.2.2.2.2.2.2.2.2⟩

/-- C24: for an existing set whose items the store yields, `GetSetVocabBatch` reads the
set and then the items of the set's ids, and returns these items: the first
`min(limit, number of items)` of them, in order, when `limit > 0`, and all of them when
`limit <= 0`. -/
theorem C24_GetSetVocabBatch_limit (ss : SetService) (setId : UUID) (limit : Int)
    (vocabSet : VocabSet) (vocabs : List Vocab)
    (hset : ss.storage.GetVocabSet setId = .ok (some vocabSet))
    (hvocabs : ss.storage.GetMultipleVocabs vocabSet.VocabIds = .ok vocabs) :
    ss.GetSetVocabBatch setId limit
      = ⟨[Call.GetVocabSet setId, Call.GetMultipleVocabs vocabSet.VocabIds],
          .ok { Vocabs := if 0 < limit then vocabs.take (min limit.toNat vocabs.length)
                          else vocabs }⟩ := by
  unfold SetService.GetSetVocabBatch
  rw [hset]
  simp only
  rw [hvocabs]
  simp only
  by_cases hpos : 0 < limit
  · rw [if_pos hpos]
    by_cases hlen : (vocabs.length : Int) > limit
    · rw [if_pos ⟨hpos, hlen⟩, Nat.min_eq_left (by omega)]
    · rw [if_neg (fun h => hlen h.2), Nat.min_eq_right (by omega), List.take_length]
  · rw [if_neg hpos, if_neg (fun h => hpos h.1)]

/-- C24 witness: the set 7 of `sampleSetService` holds three items; with the limit 2 the
batch is the first two of them, with the limits 5, 0 and -1 it is all three. -/
theorem C24_GetSetVocabBatch_limit_witness :
    (sampleSetService.GetSetVocabBatch 7 2).result = .ok { Vocabs := sampleVocabulary.take 2 }
    ∧ (sampleSetService.GetSetVocabBatch 7 5).result = .ok { Vocabs := sampleVocabulary.take 3 }
    ∧ (sampleSetService.GetSetVocabBatch 7 0).result = .ok { Vocabs := sampleVocabulary.take 3 }
    ∧ (sampleSetService.GetSetVocabBatch 7 (-1)).result
        = .ok { Vocabs := sampleVocabulary.take 3 } :=
  ⟨by rw [C24_GetSetVocabBatch_limit sampleSetService 7 2
        { Id := 7, Name := "verber", VocabIds := [1, 2, 3] } (sampleVocabulary.take 3) rfl rfl]
      rfl,
    rfl, rfl, rfl⟩

/-- C25: when the store reports the set as not found, `GetSetVocabBatch`, `UpdateSet` and
`RemoveSet` each make the one read of the set and nothing else, and return the error
"vocab set not found", which is the text the handlers answer 404 for. -/
theorem C25_set_not_found (ss : SetService) (setId : UUID) (limit : Int) (name : String)
    (vocabIds : List UUID) (hnone : ss.storage.GetVocabSet setId = .ok none) :
    ss.GetSetVocabBatch setId limit = ⟨[Call.GetVocabSet setId], .error "vocab set not found"⟩
    ∧ ss.UpdateSet setId name vocabIds
        = ⟨[Call.GetVocabSet setId], .error "vocab set not found"⟩
    ∧ ss.RemoveSet setId = ⟨[Call.GetVocabSet setId], .error "vocab set not found"⟩
    ∧ handleGetSetVocabBatch.errorStatus "vocab set not found" = 404 := by
  refine ⟨?_, ?_, ?_, by decide⟩
  · unfold SetService.GetSetVocabBatch
    rw [hnone]
  · unfold SetService.UpdateSet
    rw [hnone]
  · unfold SetService.RemoveSet
    rw [hnone]

/-- C25 witness: `sampleSetService` holds no set 8. -/
theorem C25_set_not_found_witness :
    sampleSetService.GetSetVocabBatch 8 3 = ⟨[Call.GetVocabSet 8], .error "vocab set not found"⟩
    ∧ sampleSetService.UpdateSet 8 "navneord" [1]
        = ⟨[Call.GetVocabSet 8], .error "vocab set not found"⟩
    ∧ sampleSetService.RemoveSet 8 = ⟨[Call.GetVocabSet 8], .error "vocab set not found"⟩
    ∧ handleGetSetVocabBatch.errorStatus "vocab set not found" = 404 :=
  C25_set_not_found sampleSetService 8 3 "navneord" [1] rfl

end Danish
